import Mathlib

/-!
# A verification development for the basic Socket.IO client

The program is `src/basic-websocket-client.js`: an event emitter, the codec
(`encode`, `decode`, `isPacketValid`) and the `Socket` class, a client for the
Engine.IO / Socket.IO protocols over one WebSocket.

The embedding is shallow.  Every function of the source becomes a Lean
function of the same name on an explicit state.  The platform the source runs
on (strings, `JSON`, `parseInt`, timers, `WebSocket`) is modelled in the first
part of the file, as far as the source uses it:

* a string is the list of its UTF-16 code units (`JsString`);
* a JSON value is a tree (`Json`); a number is the finite decimal that is
  written (`JsNumber`), and where the source computes with numbers (the `+` of
  `onOpen`) they are the IEEE-754 doubles nearest to them (`JsDouble`); an
  object is the list of its members as written (a lookup takes the last member
  of that name, as `JSON.parse` does);
* `JSON.parse` is a recursive-descent parser for the JSON grammar and
  `JSON.stringify` the serializer of ECMA-262 on these values;
* an exception is the `Except.error` result of a function;
* timers and transports are records held in the state of the socket, so that
  what is pending, what was sent and what was emitted can be stated.
-/

namespace SocketIO

/-! ## Strings -/

/-- A JavaScript string: the list of its UTF-16 code units. -/
abbrev JsString := List Nat

/-- The UTF-16 code units of a list of Unicode scalar values. -/
def utf16 : List Char → JsString
  | [] => []
  | c :: cs =>
    if c.toNat < 65536 then c.toNat :: utf16 cs
    else (55296 + (c.toNat - 65536) / 1024) :: (56320 + (c.toNat - 65536) % 1024) :: utf16 cs

/-- The JavaScript string written as a Lean string literal. -/
def js (s : String) : JsString := utf16 s.toList

/-- The method `String.prototype.charAt`: the empty string when out of range. -/
def charAt (s : JsString) (i : Nat) : JsString :=
  match s.get? i with
  | some c => [c]
  | none => []

/-- The method `String.prototype.substring` with one argument. -/
def substring (s : JsString) (i : Nat) : JsString := s.drop i

/-! ## Numbers -/

/-- A number: the exact decimal `num / 10 ^ scale`, with `scale` as small as
possible. The integers are the numbers of scale `0`. -/
structure JsNumber where
  num : Int
  scale : Nat
  normal : scale = 0 ∨ num % 10 ≠ 0
deriving DecidableEq, Repr

/-- The integer `n` as a number. -/
def JsNumber.ofInt (n : Int) : JsNumber := ⟨n, 0, Or.inl rfl⟩

/-- The number `m / 10 ^ s`, its trailing zeros cancelled. -/
def JsNumber.normalize (m : Int) : Nat → JsNumber
  | 0 => ⟨m, 0, Or.inl rfl⟩
  | s + 1 => if h : m % 10 = 0 then JsNumber.normalize (m / 10) s else ⟨m, s + 1, Or.inr h⟩

/-- The number `m * 10 ^ e`. -/
def JsNumber.ofDecimal (m : Int) (e : Int) : JsNumber :=
  if 0 ≤ e then JsNumber.ofInt (m * 10 ^ e.toNat) else JsNumber.normalize m (-e).toNat

/-- The rational number a number denotes. -/
def JsNumber.toRat (x : JsNumber) : ℚ := (x.num : ℚ) / (10 : ℚ) ^ x.scale

/-- The quotient `n / d` rounded to the nearest natural number, a tie to the even
one (the rounding mode of IEEE-754 arithmetic). -/
def roundHalfEven (n d : Nat) : Nat :=
  if d < 2 * (n % d) ∨ (2 * (n % d) = d ∧ n / d % 2 = 1) then n / d + 1 else n / d

/-- A value of the type Number as an IEEE-754 double: the finite double
`m * 2 ^ e` or its negative, an infinity, or `NaN`. -/
inductive JsDouble where
  | finite (negative : Bool) (m : Nat) (e : Int)
  | infinity (negative : Bool)
  | nan
deriving DecidableEq, Repr

/-- The binary logarithm of `n`, rounded down, in at most `fuel` halvings. -/
def log2Aux : Nat → Nat → Nat
  | 0, _ => 0
  | fuel + 1, n => if 2 ≤ n then log2Aux fuel (n / 2) + 1 else 0

/-- The binary logarithm of a positive natural number, rounded down. -/
def binaryLog (n : Nat) : Nat := log2Aux n n

/-- The exponent of the unit in the last place of the double nearest to `p / q`,
for positive `p` and `q`: 52 below the binary logarithm of `p / q`, and at least
the exponent of the subnormal doubles. -/
def ulpExponent (p q : Nat) : Int :=
  let l : Int := (binaryLog p : Int) - (binaryLog q : Int)
  let f : Int :=
    if 0 ≤ l then (if q * 2 ^ l.toNat ≤ p then l else l - 1)
    else (if q ≤ p * 2 ^ (-l).toNat then l else l - 1)
  max (f - 52) (-1074)

/-- The double nearest to `p / q` or to its negative (round to nearest, ties to
even), for positive `q`: a significand of at most 53 bits at the exponent of
`ulpExponent`. A magnitude of `2 ^ 1024` or more after rounding is an infinity.
The sign of a zero is not kept. -/
def roundToDouble (negative : Bool) (p q : Nat) : JsDouble :=
  if p = 0 then .finite false 0 0
  else
    let e := ulpExponent p q
    let m :=
      if e < 0 then roundHalfEven (p * 2 ^ (-e).toNat) q else roundHalfEven p (q * 2 ^ e.toNat)
    if m = 0 then .finite false 0 0
    else if 971 < e ∨ (e = 971 ∧ 2 ^ 53 ≤ m) then .infinity negative
    else if m = 2 ^ 53 then .finite negative (2 ^ 52) (e + 1)
    else .finite negative m e

/-- The double a number written in decimal denotes. -/
def JsNumber.toDouble (x : JsNumber) : JsDouble :=
  roundToDouble (decide (x.num < 0)) x.num.natAbs (10 ^ x.scale)

/-- The operator `+` on two doubles: the exact sum, rounded to the nearest double. -/
def JsDouble.add : JsDouble → JsDouble → JsDouble
  | .nan, _ => .nan
  | _, .nan => .nan
  | .infinity s, .infinity t => if s = t then .infinity s else .nan
  | .infinity s, .finite _ _ _ => .infinity s
  | .finite _ _ _, .infinity t => .infinity t
  | .finite s m e, .finite t n f =>
    let g := min e f
    let sum : Int :=
      (if s then -(m : Int) else m) * 2 ^ (e - g).toNat +
        (if t then -(n : Int) else n) * 2 ^ (f - g).toNat
    if 0 ≤ g then roundToDouble (decide (sum < 0)) (sum.natAbs * 2 ^ g.toNat) 1
    else roundToDouble (decide (sum < 0)) sum.natAbs (2 ^ (-g).toNat)

/-- The exact decimal value of a finite double. -/
def JsNumber.ofDouble (negative : Bool) (m : Nat) (e : Int) : JsNumber :=
  if 0 ≤ e then JsNumber.ofInt ((if negative then -(m : Int) else m) * 2 ^ e.toNat)
  else JsNumber.normalize ((if negative then -(m : Int) else m) * 5 ^ (-e).toNat) (-e).toNat

/-- Whether a code unit is a decimal digit. -/
def isDigit (c : Nat) : Bool := decide (48 ≤ c) && decide (c ≤ 57)

/-- The decimal digits of `n` (as code units) in front of `acc`, most significant first. -/
def digitsAux : Nat → Nat → List Nat → List Nat
  | 0, _, acc => acc
  | fuel + 1, n, acc =>
    if n < 10 then (48 + n) :: acc else digitsAux fuel (n / 10) ((48 + n % 10) :: acc)

/-- The decimal representation of a natural number. -/
def decimalDigits (n : Nat) : List Nat := digitsAux (n + 1) n []

/-- The natural number a list of decimal digits (code units) denotes. -/
def ofDigits (ds : List Nat) : Nat := ds.foldl (fun acc c => acc * 10 + (c - 48)) 0

/-- A list of digits without its trailing zeros. -/
def stripZeros (ds : List Nat) : List Nat := (ds.reverse.dropWhile (· == 48)).reverse

/-- The text `e+x` or `e-x` of an exponent. -/
def exponentPart (x : Int) : JsString :=
  101 :: (if x < 0 then 45 else 43) :: decimalDigits x.natAbs

/-- The algorithm `Number::toString` of ECMA-262 (radix 10) on a positive number
whose significant digits are `s` and whose decimal point stands after the `n`-th
of them. -/
def formatDecimal (s : List Nat) (n : Int) : JsString :=
  let k : Int := s.length
  if k ≤ n ∧ n ≤ 21 then s ++ List.replicate (n - k).toNat 48
  else if 0 < n ∧ n ≤ 21 then s.take n.toNat ++ 46 :: s.drop n.toNat
  else if -6 < n ∧ n ≤ 0 then 48 :: 46 :: (List.replicate (-n).toNat 48 ++ s)
  else if s.length = 1 then s ++ exponentPart (n - 1)
  else s.take 1 ++ 46 :: (s.drop 1 ++ exponentPart (n - 1))

/-- The conversion of a number to a string (`"" + x`, `String(x)`). -/
def JsNumber.toString (x : JsNumber) : JsString :=
  if x.num = 0 then [48]
  else
    let d := decimalDigits x.num.natAbs
    (if x.num < 0 then [45] else []) ++
      formatDecimal (stripZeros d) ((d.length : Int) - (x.scale : Int))

/-- The longest run of decimal digits at the front of a string, and what follows it. -/
def takeDigits : List Nat → List Nat × List Nat
  | [] => ([], [])
  | c :: r =>
    if isDigit c then ((takeDigits r).1.cons c, (takeDigits r).2) else ([], c :: r)

/-- The optional fraction of a JSON number: its digits, and the rest of the input. -/
def parseFraction : List Nat → Option (List Nat × List Nat)
  | 46 :: r =>
    let p := takeDigits r
    if p.1 = [] then none else some p
  | s => some ([], s)

/-- The optional exponent of a JSON number, and the rest of the input. -/
def parseExponent : List Nat → Option (Int × List Nat)
  | [] => some (0, [])
  | c :: r =>
    if c = 101 ∨ c = 69 then
      match r with
      | 45 :: r1 =>
        let p := takeDigits r1
        if p.1 = [] then none else some (-(ofDigits p.1 : Int), p.2)
      | 43 :: r1 =>
        let p := takeDigits r1
        if p.1 = [] then none else some ((ofDigits p.1 : Int), p.2)
      | r1 =>
        let p := takeDigits r1
        if p.1 = [] then none else some ((ofDigits p.1 : Int), p.2)
    else some (0, c :: r)

/-- An unsigned JSON number at the front of the input: no leading zero, an
optional fraction, an optional exponent. -/
def parseUnsigned (s : List Nat) : Option (Nat × Int × List Nat) :=
  let i := takeDigits s
  if i.1 = [] then none
  else if i.1.head? = some 48 ∧ 1 < i.1.length then none
  else
    match parseFraction i.2 with
    | none => none
    | some (f, r) =>
      match parseExponent r with
      | none => none
      | some (x, r1) => some (ofDigits (i.1 ++ f), x - (f.length : Int), r1)

/-- A JSON number at the front of the input, and the rest of the input. -/
def parseNumber : List Nat → Option (JsNumber × List Nat)
  | 45 :: r =>
    match parseUnsigned r with
    | some (m, e, r1) => some (JsNumber.ofDecimal (-(m : Int)) e, r1)
    | none => none
  | s =>
    match parseUnsigned s with
    | some (m, e, r1) => some (JsNumber.ofDecimal (m : Int) e, r1)
    | none => none

/-! ## JSON values -/

/-- A JSON value. An object is the list of its members in the order written. -/
inductive Json where
  | null
  | bool (b : Bool)
  | num (n : JsNumber)
  | str (s : JsString)
  | arr (xs : List Json)
  | obj (ms : List (JsString × Json))
deriving Repr

mutual
/-- Equality of JSON values is decidable. -/
def Json.decEq : (a b : Json) → Decidable (a = b)
  | .null, .null => isTrue rfl
  | .bool a, .bool b => decidable_of_iff (a = b) ⟨congrArg _, Json.bool.inj⟩
  | .num a, .num b => decidable_of_iff (a = b) ⟨congrArg _, Json.num.inj⟩
  | .str a, .str b => decidable_of_iff (a = b) ⟨congrArg _, Json.str.inj⟩
  | .arr xs, .arr ys =>
    @decidable_of_iff _ (xs = ys) ⟨congrArg _, Json.arr.inj⟩ (Json.decEqList xs ys)
  | .obj xs, .obj ys =>
    @decidable_of_iff _ (xs = ys) ⟨congrArg _, Json.obj.inj⟩ (Json.decEqMembers xs ys)
  | .null, .bool _ => isFalse (fun h => Json.noConfusion h)
  | .null, .num _ => isFalse (fun h => Json.noConfusion h)
  | .null, .str _ => isFalse (fun h => Json.noConfusion h)
  | .null, .arr _ => isFalse (fun h => Json.noConfusion h)
  | .null, .obj _ => isFalse (fun h => Json.noConfusion h)
  | .bool _, .null => isFalse (fun h => Json.noConfusion h)
  | .bool _, .num _ => isFalse (fun h => Json.noConfusion h)
  | .bool _, .str _ => isFalse (fun h => Json.noConfusion h)
  | .bool _, .arr _ => isFalse (fun h => Json.noConfusion h)
  | .bool _, .obj _ => isFalse (fun h => Json.noConfusion h)
  | .num _, .null => isFalse (fun h => Json.noConfusion h)
  | .num _, .bool _ => isFalse (fun h => Json.noConfusion h)
  | .num _, .str _ => isFalse (fun h => Json.noConfusion h)
  | .num _, .arr _ => isFalse (fun h => Json.noConfusion h)
  | .num _, .obj _ => isFalse (fun h => Json.noConfusion h)
  | .str _, .null => isFalse (fun h => Json.noConfusion h)
  | .str _, .bool _ => isFalse (fun h => Json.noConfusion h)
  | .str _, .num _ => isFalse (fun h => Json.noConfusion h)
  | .str _, .arr _ => isFalse (fun h => Json.noConfusion h)
  | .str _, .obj _ => isFalse (fun h => Json.noConfusion h)
  | .arr _, .null => isFalse (fun h => Json.noConfusion h)
  | .arr _, .bool _ => isFalse (fun h => Json.noConfusion h)
  | .arr _, .num _ => isFalse (fun h => Json.noConfusion h)
  | .arr _, .str _ => isFalse (fun h => Json.noConfusion h)
  | .arr _, .obj _ => isFalse (fun h => Json.noConfusion h)
  | .obj _, .null => isFalse (fun h => Json.noConfusion h)
  | .obj _, .bool _ => isFalse (fun h => Json.noConfusion h)
  | .obj _, .num _ => isFalse (fun h => Json.noConfusion h)
  | .obj _, .str _ => isFalse (fun h => Json.noConfusion h)
  | .obj _, .arr _ => isFalse (fun h => Json.noConfusion h)
/-- Equality of lists of JSON values is decidable. -/
def Json.decEqList : (xs ys : List Json) → Decidable (xs = ys)
  | [], [] => isTrue rfl
  | [], _ :: _ => isFalse (fun h => List.noConfusion h)
  | _ :: _, [] => isFalse (fun h => List.noConfusion h)
  | x :: xs, y :: ys =>
    @decidable_of_iff _ (x = y ∧ xs = ys)
      ⟨fun h => by rw [h.1, h.2], fun h => List.cons.inj h⟩
      (@instDecidableAnd _ _ (Json.decEq x y) (Json.decEqList xs ys))
/-- Equality of member lists is decidable. -/
def Json.decEqMembers : (xs ys : List (JsString × Json)) → Decidable (xs = ys)
  | [], [] => isTrue rfl
  | [], _ :: _ => isFalse (fun h => List.noConfusion h)
  | _ :: _, [] => isFalse (fun h => List.noConfusion h)
  | (k, x) :: xs, (l, y) :: ys =>
    @decidable_of_iff _ (k = l ∧ x = y ∧ xs = ys)
      ⟨fun h => by rw [h.1, h.2.1, h.2.2],
       fun h => ⟨congrArg (fun p => p.1) (List.cons.inj h).1,
                 congrArg (fun p => p.2) (List.cons.inj h).1, (List.cons.inj h).2⟩⟩
      (@instDecidableAnd _ _ inferInstance
        (@instDecidableAnd _ _ (Json.decEq x y) (Json.decEqMembers xs ys)))
end

instance : DecidableEq Json := Json.decEq

/-- The results of the operator `typeof` that a JSON value or `undefined` can give. -/
inductive JsType where
  | undefined
  | boolean
  | number
  | string
  | object
deriving DecidableEq, Repr

/-- The operator `typeof` on a JSON value, or on `undefined` (`none`): `null`, the
arrays and the objects all give `"object"`. -/
def typeof : Option Json → JsType
  | none => .undefined
  | some (.bool _) => .boolean
  | some (.num _) => .number
  | some (.str _) => .string
  | some .null => .object
  | some (.arr _) => .object
  | some (.obj _) => .object

/-- The truth value a condition gives a JSON value, or `undefined` (`none`). -/
def truthy : Option Json → Bool
  | none => false
  | some .null => false
  | some (.bool b) => b
  | some (.num n) => decide (n.num ≠ 0)
  | some (.str s) => decide (s ≠ [])
  | some (.arr _) => true
  | some (.obj _) => true

/-- The last member of the given name, as `JSON.parse` keeps it. -/
def lookup (key : JsString) : List (JsString × Json) → Option Json
  | [] => none
  | (k, v) :: ms =>
    match lookup key ms with
    | some w => some w
    | none => if k = key then some v else none

/-- An exception thrown by the program or the platform. -/
inductive JsError where
  | TypeError
  | SyntaxError
  | Error (message : JsString)
deriving DecidableEq, Repr

/-- Equality of results is decidable. -/
instance instDecidableEqExcept {ε α : Type} [DecidableEq ε] [DecidableEq α] :
    DecidableEq (Except ε α)
  | .ok a, .ok b => decidable_of_iff (a = b) ⟨congrArg _, Except.ok.inj⟩
  | .error a, .error b => decidable_of_iff (a = b) ⟨congrArg _, Except.error.inj⟩
  | .ok _, .error _ => isFalse (fun h => Except.noConfusion h)
  | .error _, .ok _ => isFalse (fun h => Except.noConfusion h)

/-- The read `v.key` of a property that no built-in prototype defines (the source
reads `sid`, `pingInterval` and `pingTimeout`): `undefined` (`none`) unless `v` is
an object with such a member, and a `TypeError` when `v` is `null`. -/
def Json.getProp (v : Json) (key : JsString) : Except JsError (Option Json) :=
  match v with
  | .null => .error .TypeError
  | .obj ms => .ok (lookup key ms)
  | _ => .ok none

/-! ## JSON text -/

/-- JSON white space: space, tab, line feed, carriage return. -/
def isWs (c : Nat) : Bool := c == 32 || c == 9 || c == 10 || c == 13

/-- The input without its leading white space. -/
def skipWs : List Nat → List Nat
  | [] => []
  | c :: r => if isWs c then skipWs r else c :: r

/-- The value of a hexadecimal digit. -/
def hexVal (c : Nat) : Option Nat :=
  if 48 ≤ c ∧ c ≤ 57 then some (c - 48)
  else if 97 ≤ c ∧ c ≤ 102 then some (c - 87)
  else if 65 ≤ c ∧ c ≤ 70 then some (c - 55)
  else none

/-- The character a one-letter escape stands for. -/
def unescape (e : Nat) : Option Nat :=
  if e = 34 then some 34        -- \"
  else if e = 92 then some 92   -- \\
  else if e = 47 then some 47   -- \/
  else if e = 98 then some 8    -- \b
  else if e = 102 then some 12  -- \f
  else if e = 110 then some 10  -- \n
  else if e = 114 then some 13  -- \r
  else if e = 116 then some 9   -- \t
  else none

/-- A JSON string after its opening quote: its code units, and the input after
the closing quote. -/
def parseString : List Nat → Option (JsString × List Nat)
  | [] => none
  | c :: r =>
    if c = 34 then some ([], r)
    else if c = 92 then
      match r with
      | [] => none
      | e :: r1 =>
        if e = 117 then
          match r1 with
          | h3 :: h2 :: h1 :: h0 :: r2 =>
            match hexVal h3, hexVal h2, hexVal h1, hexVal h0 with
            | some a3, some a2, some a1, some a0 =>
              (parseString r2).map
                (fun p => ((a3 * 4096 + a2 * 256 + a1 * 16 + a0) :: p.1, p.2))
            | _, _, _, _ => none
          | _ => none
        else
          match unescape e with
          | some u => (parseString r1).map (fun p => (u :: p.1, p.2))
          | none => none
    else if c < 32 then none
    else (parseString r).map (fun p => (c :: p.1, p.2))

/-- The input after the given literal text, when it starts with it. -/
def expect : List Nat → List Nat → Option (List Nat)
  | [], s => some s
  | _ :: _, [] => none
  | l :: ls, c :: s => if c = l then expect ls s else none

mutual
/-- A JSON value at the front of the input (no leading white space), and the
rest of the input. The first argument bounds the number of nested calls. -/
def parseValue : Nat → List Nat → Option (Json × List Nat)
  | 0, _ => none
  | _ + 1, [] => none
  | fuel + 1, c :: r =>
    if c = 34 then (parseString r).map (fun p => (Json.str p.1, p.2))
    else if c = 91 then
      if (skipWs r).head? = some 93 then some (Json.arr [], (skipWs r).tail)
      else (parseElements fuel (skipWs r)).map (fun p => (Json.arr p.1, p.2))
    else if c = 123 then
      if (skipWs r).head? = some 125 then some (Json.obj [], (skipWs r).tail)
      else (parseMembers fuel (skipWs r)).map (fun p => (Json.obj p.1, p.2))
    else if c = 110 then (expect [117, 108, 108] r).map (fun r1 => (Json.null, r1))
    else if c = 116 then (expect [114, 117, 101] r).map (fun r1 => (Json.bool true, r1))
    else if c = 102 then (expect [97, 108, 115, 101] r).map (fun r1 => (Json.bool false, r1))
    else (parseNumber (c :: r)).map (fun p => (Json.num p.1, p.2))
/-- The elements of a non-empty array up to its closing bracket. -/
def parseElements : Nat → List Nat → Option (List Json × List Nat)
  | 0, _ => none
  | fuel + 1, s =>
    match parseValue fuel s with
    | none => none
    | some (v, r) =>
      if (skipWs r).head? = some 44 then
        (parseElements fuel (skipWs (skipWs r).tail)).map (fun p => (v :: p.1, p.2))
      else if (skipWs r).head? = some 93 then some ([v], (skipWs r).tail)
      else none
/-- The members of a non-empty object up to its closing brace. -/
def parseMembers : Nat → List Nat → Option (List (JsString × Json) × List Nat)
  | 0, _ => none
  | _ + 1, [] => none
  | fuel + 1, c :: r =>
    if c = 34 then
      match parseString r with
      | none => none
      | some (k, r1) =>
        if (skipWs r1).head? = some 58 then
          match parseValue fuel (skipWs (skipWs r1).tail) with
          | none => none
          | some (v, r3) =>
            if (skipWs r3).head? = some 44 then
              (parseMembers fuel (skipWs (skipWs r3).tail)).map (fun p => ((k, v) :: p.1, p.2))
            else if (skipWs r3).head? = some 125 then some ([(k, v)], (skipWs r3).tail)
            else none
        else none
    else none
end

/-- The function `JSON.parse` on a string: the value of a JSON text, or a
`SyntaxError`. -/
def JSON.parse (text : JsString) : Except JsError Json :=
  match parseValue (text.length + 1) (skipWs text) with
  | some (v, r) => if skipWs r = [] then .ok v else .error .SyntaxError
  | none => .error .SyntaxError

/-- A hexadecimal digit in lower case. -/
def hexDigit (n : Nat) : Nat := if n < 10 then 48 + n else 87 + n

/-- The escape `\uXXXX` of a code unit. -/
def unicodeEscape (c : Nat) : List Nat :=
  [92, 117, hexDigit (c / 4096 % 16), hexDigit (c / 256 % 16), hexDigit (c / 16 % 16),
    hexDigit (c % 16)]

/-- A leading (high) surrogate. -/
def isLead (c : Nat) : Bool := decide (55296 ≤ c) && decide (c ≤ 56319)

/-- A trailing (low) surrogate. -/
def isTrail (c : Nat) : Bool := decide (56320 ≤ c) && decide (c ≤ 57343)

/-- Whether the input starts with a trailing surrogate. -/
def headIsTrail : List Nat → Bool
  | [] => false
  | d :: _ => isTrail d

/-- The body of `QuoteJSONString` of ECMA-262: the escaped code units of a string.
A surrogate that is not part of a pair is written as an escape; the flag tells
that the code unit before was the leading surrogate of a pair. -/
def quoteChars : Bool → List Nat → List Nat
  | _, [] => []
  | paired, c :: r =>
    if c = 8 then 92 :: 98 :: quoteChars false r
    else if c = 9 then 92 :: 116 :: quoteChars false r
    else if c = 10 then 92 :: 110 :: quoteChars false r
    else if c = 12 then 92 :: 102 :: quoteChars false r
    else if c = 13 then 92 :: 114 :: quoteChars false r
    else if c = 34 then 92 :: 34 :: quoteChars false r
    else if c = 92 then 92 :: 92 :: quoteChars false r
    else if c < 32 then unicodeEscape c ++ quoteChars false r
    else if isLead c then
      if headIsTrail r then c :: quoteChars true r else unicodeEscape c ++ quoteChars false r
    else if isTrail c then
      if paired then c :: quoteChars false r else unicodeEscape c ++ quoteChars false r
    else c :: quoteChars false r

/-- The JSON text of a string, in quotes. -/
def quote (s : JsString) : List Nat := 34 :: (quoteChars false s ++ [34])

mutual
/-- The function `JSON.stringify` on a JSON value (no indentation). -/
def JSON.stringify : Json → JsString
  | .null => [110, 117, 108, 108]
  | .bool true => [116, 114, 117, 101]
  | .bool false => [102, 97, 108, 115, 101]
  | .num n => n.toString
  | .str s => quote s
  | .arr xs => 91 :: (stringifyElements xs ++ [93])
  | .obj ms => 123 :: (stringifyMembers ms ++ [125])
/-- The elements of an array, separated by commas. -/
def stringifyElements : List Json → JsString
  | [] => []
  | x :: xs =>
    match xs with
    | [] => JSON.stringify x
    | _ :: _ => JSON.stringify x ++ 44 :: stringifyElements xs
/-- The members of an object, separated by commas. -/
def stringifyMembers : List (JsString × Json) → JsString
  | [] => []
  | (k, v) :: ms =>
    match ms with
    | [] => quote k ++ 58 :: JSON.stringify v
    | _ :: _ => quote k ++ 58 :: (JSON.stringify v ++ 44 :: stringifyMembers ms)
end

/-! ## The codec -/

/-- The white space `parseInt` skips (`StrWhiteSpaceChar` of ECMA-262). -/
def isStrWhiteSpace (c : Nat) : Bool :=
  (decide (9 ≤ c) && decide (c ≤ 13)) || c == 32 || c == 160 || c == 5760 ||
  (decide (8192 ≤ c) && decide (c ≤ 8202)) || c == 8232 || c == 8233 || c == 8239 ||
  c == 8287 || c == 12288 || c == 65279

/-- The digits `parseInt` reads after the sign: `NaN` (`none`) when there is none. -/
def parseIntDigits (neg : Bool) (s : JsString) : Option Int :=
  if (takeDigits s).1 = [] then none
  else if neg then some (-(ofDigits (takeDigits s).1 : Int))
  else some (ofDigits (takeDigits s).1 : Int)

/-- The call `parseInt(s, 10)`; `none` is `NaN`. -/
def parseInt (s : JsString) : Option Int :=
  match s.dropWhile isStrWhiteSpace with
  | 45 :: r => parseIntDigits true r
  | 43 :: r => parseIntDigits false r
  | r => parseIntDigits false r

/-- The Engine.IO packet types, the first character of a frame. -/
def EIOPacketType.OPEN : Nat := 48
/-- The frame that announces the end of the transport. -/
def EIOPacketType.CLOSE : Nat := 49
/-- The heartbeat of the server. -/
def EIOPacketType.PING : Nat := 50
/-- The answer to a heartbeat. -/
def EIOPacketType.PONG : Nat := 51
/-- The frame that carries a Socket.IO packet. -/
def EIOPacketType.MESSAGE : Nat := 52
/-- Used during an upgrade. -/
def EIOPacketType.UPGRADE : Nat := 53
/-- Used during an upgrade too. -/
def EIOPacketType.NOOP : Nat := 54

/-- The Socket.IO packet types. -/
def SIOPacketType.CONNECT : Int := 0
/-- Leaving the namespace. -/
def SIOPacketType.DISCONNECT : Int := 1
/-- Data for the other side. -/
def SIOPacketType.EVENT : Int := 2
/-- The acknowledgement of an event. -/
def SIOPacketType.ACK : Int := 3
/-- A refused connection. -/
def SIOPacketType.CONNECT_ERROR : Int := 4
/-- Binary data for the other side. -/
def SIOPacketType.BINARY_EVENT : Int := 5
/-- The acknowledgement of an event, with binary data. -/
def SIOPacketType.BINARY_ACK : Int := 6

/-- A Socket.IO packet `{ type, data }`: the type is a number or `NaN` (`none`),
the data a JSON value or `undefined` (`none`). -/
structure Packet where
  type : Option Int
  data : Option Json
deriving DecidableEq, Repr

/-- The string `"" + type`. -/
def typeToString : Option Int → JsString
  | none => [78, 97, 78]  -- "NaN"
  | some n => (JsNumber.ofInt n).toString

/-- The function `encode`: the type, then the JSON text of the data when the data is
truthy. -/
def encode (packet : Packet) : JsString :=
  match packet.data with
  | some d => if truthy (some d) then typeToString packet.type ++ JSON.stringify d
              else typeToString packet.type
  | none => typeToString packet.type

/-- The function `isPacketValid`. -/
def isPacketValid (packet : Packet) : Bool :=
  if packet.type = some SIOPacketType.CONNECT then
    decide (typeof packet.data = JsType.object)
  else if packet.type = some SIOPacketType.DISCONNECT then
    decide (packet.data = none)
  else if packet.type = some SIOPacketType.EVENT then
    match packet.data with
    | some (.arr args) => decide (args.length > 0) && decide (typeof args.head? = JsType.string)
    | _ => false
  else false

/-- The function `decode` on the text of a whole MESSAGE frame: the code unit at
index 0 (the `"4"` of the frame) is skipped, the type is read at index 1 and the
data from index 2 on. It throws the `SyntaxError` of `JSON.parse`, or
`Error("invalid format")`. -/
def decode (data : JsString) : Except JsError Packet :=
  if charAt data 2 ≠ [] then
    match JSON.parse (substring data 2) with
    | .error e => .error e
    | .ok d =>
      if isPacketValid ⟨parseInt (charAt data 1), some d⟩ then
        .ok ⟨parseInt (charAt data 1), some d⟩
      else .error (.Error (js "invalid format"))
  else if isPacketValid ⟨parseInt (charAt data 1), none⟩ then
    .ok ⟨parseInt (charAt data 1), none⟩
  else .error (.Error (js "invalid format"))

/-! ## The event emitter -/

/-- A listener: the identity of a function of the caller. What a listener does
when it is called is not modelled; its calls are recorded. -/
abbrev Listener := Nat

/-- The class `EventEmitter`: the map from event names to their listeners, in the
order of insertion. -/
structure EventEmitter where
  listeners : List (JsString × List Listener)
deriving DecidableEq, Repr

/-- The lookup `Map.prototype.get`. -/
def mapGet (event : JsString) : List (JsString × List Listener) → Option (List Listener)
  | [] => none
  | (k, ls) :: m => if k = event then some ls else mapGet event m

/-- The list of an event with one more listener at its end. -/
def mapPush (event : JsString) (listener : Listener) :
    List (JsString × List Listener) → List (JsString × List Listener)
  | [] => []
  | (k, ls) :: m =>
    if k = event then (k, ls ++ [listener]) :: m else (k, ls) :: mapPush event listener m

/-- The method `EventEmitter.on`. -/
def EventEmitter.on (e : EventEmitter) (event : JsString) (listener : Listener) : EventEmitter :=
  match mapGet event e.listeners with
  | none => ⟨e.listeners ++ [(event, [listener])]⟩
  | some _ => ⟨mapPush event listener e.listeners⟩

/-- The method `EventEmitter.emit`: the calls it makes, in order. -/
def EventEmitter.emit (e : EventEmitter) (event : JsString) (args : List Json) :
    List (Listener × List Json) :=
  match mapGet event e.listeners with
  | some ls => ls.map (fun l => (l, args))
  | none => []

/-- The emitter of a new object: no listener. -/
def EventEmitter.new : EventEmitter := ⟨[]⟩

/-- The calls `on(event, listener)` of a caller, one after another. -/
def EventEmitter.onAll (e : EventEmitter) : List (JsString × Listener) → EventEmitter
  | [] => e
  | r :: regs => (e.on r.1 r.2).onAll regs

/-- The listeners of an event, in the order of their registration. -/
def EventEmitter.listenersOf (e : EventEmitter) (event : JsString) : List Listener :=
  (mapGet event e.listeners).getD []

/-! ## Timers and transports -/

/-- The value of `a + b` for two properties of a handshake, and the delay given to
`setTimeout`: a finite number (its exact decimal value), an infinity or `NaN`
when both are numbers; otherwise JavaScript coerces the operands (to `NaN` or
to a string), which is kept unevaluated. -/
inductive Delay where
  | number (n : JsNumber)
  | infinity (negative : Bool)
  | nan
  | coerced (a b : Option Json)
deriving DecidableEq, Repr

/-- A double as the value of a sum. -/
def JsDouble.toDelay : JsDouble → Delay
  | .finite negative m e => .number (JsNumber.ofDouble negative m e)
  | .infinity negative => .infinity negative
  | .nan => .nan

/-- The operator `+` on two properties read from a handshake: two numbers are added
as doubles. -/
def jsAdd : Option Json → Option Json → Delay
  | some (.num a), some (.num b) => (a.toDouble.add b.toDouble).toDelay
  | a, b => .coerced a b

/-- What a timer does when it fires. -/
inductive TimerAction where
  | pingTimeout
  | reconnect
deriving DecidableEq, Repr

/-- A pending timer of the platform: the handle `setTimeout` returned, the callback
and the delay (`none` is `undefined`). -/
structure Timer where
  id : Nat
  action : TimerAction
  delay : Option Delay
deriving DecidableEq, Repr

/-- The states of a WebSocket. -/
inductive ReadyState where
  | CONNECTING
  | OPEN
  | CLOSING
  | CLOSED
deriving DecidableEq, Repr

/-- The two functions the source assigns to `onclose`. -/
inductive CloseHandler where
  | transportClose
  | noop
deriving DecidableEq, Repr

/-- A WebSocket of the platform: its URL, its state, its `onclose` handler, the
frames given to `send` and the number of calls of `close`. Its `onmessage`
handler is always the method `onMessage` of the socket. -/
structure WebSocket where
  url : JsString
  readyState : ReadyState
  onclose : CloseHandler
  sent : List JsString
  closeCalls : Nat
deriving DecidableEq, Repr

/-- The method `WebSocket.close`. -/
def WebSocket.close (w : WebSocket) : WebSocket :=
  { w with
    readyState := match w.readyState with
      | .CONNECTING => .CLOSING
      | .OPEN => .CLOSING
      | .CLOSING => .CLOSING
      | .CLOSED => .CLOSED
    closeCalls := w.closeCalls + 1 }

/-! ## The socket -/

/-- The options after the defaults are filled in. -/
structure Opts where
  path : JsString
  reconnectionDelay : Nat
deriving DecidableEq, Repr

/-- The options of the caller: `none` is an absent property. The delay is a number
of milliseconds. -/
structure UserOpts where
  path : Option JsString
  reconnectionDelay : Option Nat
deriving DecidableEq, Repr

/-- The call `Object.assign({ path: "/socket.io/", reconnectionDelay: 2000 }, opts)`. -/
def assignOpts (opts : UserOpts) : Opts :=
  { path := match opts.path with
      | some p => p
      | none => js "/socket.io/"
    reconnectionDelay := match opts.reconnectionDelay with
      | some d => d
      | none => 2000 }

/-- The class `Socket`, with the part of the platform it owns. The fields up to
`shouldReconnect` are those of the source. `discarded` holds the transports that
`open` replaced, `timers` the pending timers and `nextTimerId` the next handle of
`setTimeout`; `emitted` records the calls of `super.emit` and `invoked` the calls
of listeners, oldest first. -/
structure Socket extends EventEmitter where
  id : Option Json
  connected : Bool
  uri : JsString
  opts : Opts
  ws : Option WebSocket
  pingTimeoutTimer : Option Nat
  pingTimeoutDelay : Option Delay
  sendBuffer : List Packet
  reconnectTimer : Option Nat
  shouldReconnect : Bool
  discarded : List WebSocket
  timers : List Timer
  nextTimerId : Nat
  emitted : List (JsString × List Json)
  invoked : List (Listener × List Json)
deriving DecidableEq, Repr

/-- The call `clearTimeout(handle)`: nothing happens when no such timer is pending. -/
def Socket.clearTimeout (s : Socket) (handle : Option Nat) : Socket :=
  { s with timers := s.timers.filter (fun t => decide (some t.id ≠ handle)) }

/-- The call `setTimeout(callback, delay)`: a new pending timer under a fresh handle. -/
def Socket.setTimeout (s : Socket) (action : TimerAction) (delay : Option Delay) : Socket :=
  { s with timers := s.timers ++ [⟨s.nextTimerId, action, delay⟩], nextTimerId := s.nextTimerId + 1 }

/-- The call `super.emit(event, ...args)`: the listeners of the event are called in
order. -/
def Socket.superEmit (s : Socket) (event : JsString) (args : List Json) : Socket :=
  { s with
    emitted := s.emitted ++ [(event, args)]
    invoked := s.invoked ++ s.toEventEmitter.emit event args }

/-- The method `on`, inherited from the emitter. -/
def Socket.on (s : Socket) (event : JsString) (listener : Listener) : Socket :=
  { s with toEventEmitter := s.toEventEmitter.on event listener }

/-- The method `createUrl`: a leading `http` becomes `ws`, then the path and the
query follow. -/
def Socket.createUrl (s : Socket) : JsString :=
  (match s.uri with
    | 104 :: 116 :: 116 :: 112 :: r => 119 :: 115 :: r
    | u => u) ++ s.opts.path ++ js "?EIO=4&transport=websocket"

/-- The method `open`: a new WebSocket with its handlers; the one it replaces stays
alive on the platform. -/
def Socket.open (s : Socket) : Socket :=
  { s with
    ws := some ⟨s.createUrl, .CONNECTING, .transportClose, [], 0⟩
    discarded := match s.ws with
      | some w => w :: s.discarded
      | none => s.discarded }

/-- The constructor `new Socket(uri, opts)`, called with no listener and no timer
on the platform. -/
def Socket.new (uri : JsString) (opts : UserOpts) : Socket :=
  Socket.open
    { listeners := []
      id := none
      connected := false
      uri := uri
      opts := assignOpts opts
      ws := none
      pingTimeoutTimer := none
      pingTimeoutDelay := none
      sendBuffer := []
      reconnectTimer := none
      shouldReconnect := true
      discarded := []
      timers := []
      nextTimerId := 0
      emitted := []
      invoked := [] }

/-- The method `onClose`, the close routine. -/
def Socket.onClose (s : Socket) (reason : JsString) : Socket :=
  let s1 : Socket := match s.ws with
    | some w => { s with ws := some { w with onclose := CloseHandler.noop }.close }
    | none => s
  let s2 := (s1.clearTimeout s1.pingTimeoutTimer).clearTimeout s1.reconnectTimer
  let s3 := if s2.connected then
      Socket.superEmit { s2 with connected := false, id := none } (js "disconnect") [Json.str reason]
    else s2.superEmit (js "connect_error") [Json.str reason]
  if s3.shouldReconnect then
    { s3.setTimeout .reconnect (some (.number (JsNumber.ofInt s3.opts.reconnectionDelay))) with
      reconnectTimer := some s3.nextTimerId }
  else s3

/-- The method `resetPingTimeout`. -/
def Socket.resetPingTimeout (s : Socket) : Socket :=
  { (s.clearTimeout s.pingTimeoutTimer).setTimeout .pingTimeout s.pingTimeoutDelay with
    pingTimeoutTimer := some s.nextTimerId }

/-- The method `send`: the frame goes out only when the WebSocket is open. Reading
the state of an absent WebSocket throws. -/
def Socket.send (s : Socket) (data : JsString) : Except JsError Socket :=
  match s.ws with
  | none => .error .TypeError
  | some w =>
    if w.readyState = .OPEN then .ok { s with ws := some { w with sent := w.sent ++ [data] } }
    else .ok s

/-- The method `sendPacket`. -/
def Socket.sendPacket (s : Socket) (packet : Packet) : Except JsError Socket :=
  s.send (EIOPacketType.MESSAGE :: encode packet)

/-- The method `doConnect`. -/
def Socket.doConnect (s : Socket) : Except JsError Socket :=
  s.sendPacket ⟨some SIOPacketType.CONNECT, none⟩

/-- The loop `packets.forEach((packet) => this.sendPacket(packet))`. -/
def Socket.forEachSendPacket (s : Socket) : List Packet → Except JsError Socket
  | [] => .ok s
  | p :: ps =>
    match s.sendPacket p with
    | .ok s1 => s1.forEachSendPacket ps
    | .error e => .error e

/-- The method `Array.prototype.slice` with one argument: a copy from the index on;
the array itself is left as it is. -/
def slice {α : Type} (xs : List α) (start : Nat) : List α := xs.drop start

/-- The method `onConnect`. The result of `slice(0)` is dropped, as in the source. -/
def Socket.onConnect (s : Socket) (packet : Packet) : Except JsError Socket :=
  match packet.data with
  | none => .error .TypeError
  | some d =>
    match d.getProp (js "sid") with
    | .error e => .error e
    | .ok sid =>
      match Socket.forEachSendPacket { s with id := sid, connected := true } s.sendBuffer with
      | .error e => .error e
      | .ok s1 =>
        let _ := slice s1.sendBuffer 0
        .ok (s1.superEmit (js "connect") [])

/-- The call `super.emit.apply(this, data)`. An array is the list of the arguments,
the event name first; a name that is not a string has no listener, since `on`
takes string names here. `undefined` and `null` stand for no argument at all, and
another value that is not an object throws. An object is read as an array-like by
JavaScript; `decode` never passes one, and it is taken as one without elements. -/
def Socket.superEmitApply (s : Socket) (data : Option Json) : Except JsError Socket :=
  match data with
  | none => .ok s
  | some .null => .ok s
  | some (.arr (.str event :: args)) => .ok (s.superEmit event args)
  | some (.arr _) => .ok s
  | some (.obj _) => .ok s
  | some _ => .error .TypeError

/-- The method `onPacket`. -/
def Socket.onPacket (s : Socket) (packet : Packet) : Except JsError Socket :=
  if packet.type = some SIOPacketType.CONNECT then s.onConnect packet
  else if packet.type = some SIOPacketType.DISCONNECT then
    .ok (Socket.onClose { s with shouldReconnect := false } (js "io server disconnect"))
  else if packet.type = some SIOPacketType.EVENT then s.superEmitApply packet.data
  else .ok (s.onClose (js "parse error"))

/-- The method `onOpen`. -/
def Socket.onOpen (s : Socket) (data : JsString) : Except JsError Socket :=
  match JSON.parse (substring data 1) with
  | .error _ => .ok (s.onClose (js "parse error"))
  | .ok handshake =>
    match handshake.getProp (js "pingInterval") with
    | .error e => .error e
    | .ok pingInterval =>
      match handshake.getProp (js "pingTimeout") with
      | .error e => .error e
      | .ok pingTimeout =>
        Socket.doConnect
          (Socket.resetPingTimeout { s with pingTimeoutDelay := some (jsAdd pingInterval pingTimeout) })

/-- What a WebSocket delivers to `onmessage`: a string, or binary data. -/
inductive MessageData where
  | text (data : JsString)
  | binary
deriving DecidableEq, Repr

/-- The method `onMessage`. -/
def Socket.onMessage (s : Socket) (message : MessageData) : Except JsError Socket :=
  match message with
  | .binary => .ok s
  | .text data =>
    if data.head? = some EIOPacketType.OPEN then s.onOpen data
    else if data.head? = some EIOPacketType.CLOSE then .ok (s.onClose (js "transport close"))
    else if data.head? = some EIOPacketType.PING then
      s.resetPingTimeout.send [EIOPacketType.PONG]
    else if data.head? = some EIOPacketType.MESSAGE then
      match decode data with
      | .error _ => .ok (s.onClose (js "parse error"))
      | .ok packet => s.onPacket packet
    else .ok (s.onClose (js "parse error"))

/-- The method `emit` of the socket: an EVENT packet with the arguments as data. -/
def Socket.emit (s : Socket) (args : List Json) : Except JsError Socket :=
  if s.connected then s.sendPacket ⟨some SIOPacketType.EVENT, some (.arr args)⟩
  else .ok { s with sendBuffer := s.sendBuffer ++ [⟨some SIOPacketType.EVENT, some (.arr args)⟩] }

/-- The method `disconnect`. -/
def Socket.disconnect (s : Socket) : Socket :=
  Socket.onClose { s with shouldReconnect := false } (js "io client disconnect")

/-! ## The platform around the socket -/

/-- The platform opens the transport: a connecting WebSocket becomes open. (The
source sets no `onopen` handler.) -/
def Socket.transportOpens (s : Socket) : Socket :=
  match s.ws with
  | some w =>
    if w.readyState = .CONNECTING then { s with ws := some { w with readyState := .OPEN } } else s
  | none => s

/-- The peer starts the closing handshake: an open WebSocket becomes closing. -/
def Socket.transportClosing (s : Socket) : Socket :=
  match s.ws with
  | some w =>
    if w.readyState = .OPEN then { s with ws := some { w with readyState := .CLOSING } } else s
  | none => s

/-- The close signal of the transport: the WebSocket becomes closed and its
`onclose` handler runs. A closed WebSocket gives no second signal. -/
def Socket.transportCloses (s : Socket) : Socket :=
  match s.ws with
  | some w =>
    if w.readyState = .CLOSED then s
    else
      match w.onclose with
      | .transportClose =>
        Socket.onClose { s with ws := some { w with readyState := .CLOSED } } (js "transport close")
      | .noop => { s with ws := some { w with readyState := .CLOSED } }
  | none => s

/-- A pending timer fires: it is no longer pending, and its callback runs. -/
def Socket.timerFires (s : Socket) (t : Timer) : Socket :=
  match t.action with
  | .pingTimeout =>
    Socket.onClose { s with timers := s.timers.filter (fun u => decide (u.id ≠ t.id)) }
      (js "ping timeout")
  | .reconnect => Socket.open { s with timers := s.timers.filter (fun u => decide (u.id ≠ t.id)) }

/-- One step of the system: a call of the public interface by the caller, or an
event of the platform. A message may arrive in every state (whatever the
platform does with the messages of a WebSocket that is not open, and whichever
WebSocket delivers it: the handler is the same), and an exception thrown by a
handler leaves the state as it was (no step). The close signal of a WebSocket
that `open` replaced gives no step: the close routine set its `onclose` handler
to `noop` before the reconnect timer that replaced it was armed. -/
inductive Step : Socket → Socket → Prop where
  | callOn (s : Socket) (event : JsString) (listener : Listener) : Step s (s.on event listener)
  | callEmit (s t : Socket) (args : List Json) : s.emit args = .ok t → Step s t
  | callDisconnect (s : Socket) : Step s s.disconnect
  | transportOpens (s : Socket) : Step s s.transportOpens
  | transportClosing (s : Socket) : Step s s.transportClosing
  | transportCloses (s : Socket) : Step s s.transportCloses
  | message (s t : Socket) (m : MessageData) : s.onMessage m = .ok t → Step s t
  | timerFires (s : Socket) (t : Timer) : t ∈ s.timers → Step s (s.timerFires t)

/-- The states a socket constructed by `new Socket(uri, opts)` can reach. -/
inductive Reachable (uri : JsString) (opts : UserOpts) : Socket → Prop where
  | init : Reachable uri opts (Socket.new uri opts)
  | step (s t : Socket) : Reachable uri opts s → Step s t → Reachable uri opts t

/-- The invariant of the reachable states: the handles of the pending timers are
below the next handle and are held by the field of their kind, the two fields
hold different handles, a socket that is not connected has no id, and there is
a WebSocket. -/
structure Socket.Inv (s : Socket) : Prop where
  fresh : ∀ t ∈ s.timers, t.id < s.nextTimerId
  pingFresh : ∀ h, s.pingTimeoutTimer = some h → h < s.nextTimerId
  reconnectFresh : ∀ h, s.reconnectTimer = some h → h < s.nextTimerId
  pingOwned : ∀ t ∈ s.timers, t.action = .pingTimeout → s.pingTimeoutTimer = some t.id
  reconnectOwned : ∀ t ∈ s.timers, t.action = .reconnect → s.reconnectTimer = some t.id
  distinct : ∀ h, s.pingTimeoutTimer = some h → s.reconnectTimer ≠ some h
  idCleared : s.connected = false → s.id = none
  hasWs : s.ws ≠ none

/-- The calls `emit(...args)` of the caller, one after another. -/
def Socket.emitAll (s : Socket) : List (List Json) → Except JsError Socket
  | [] => .ok s
  | args :: calls =>
    match s.emit args with
    | .ok t => t.emitAll calls
    | .error e => .error e

/-- The EVENT packet the method `emit` builds from its arguments. -/
def eventPacket (args : List Json) : Packet := ⟨some SIOPacketType.EVENT, some (.arr args)⟩

/-- The packets the round trip is stated for: a CONNECT packet whose data is an
object, a DISCONNECT packet without data, an EVENT packet whose data is an array
with a string in front. -/
def Packet.WellFormed (p : Packet) : Prop :=
  (p.type = some SIOPacketType.CONNECT ∧ ∃ ms, p.data = some (.obj ms)) ∨
  (p.type = some SIOPacketType.DISCONNECT ∧ p.data = none) ∨
  (p.type = some SIOPacketType.EVENT ∧ ∃ name args, p.data = some (.arr (.str name :: args)))

/-- What may follow a value inside a JSON text written by `JSON.stringify`: nothing,
a comma, a closing bracket or a closing brace. -/
def Terminated : List Nat → Prop
  | [] => True
  | c :: _ => c = 44 ∨ c = 93 ∨ c = 125

mutual
/-- A bound on the nested calls the parser makes to read a value back. -/
def Json.cost : Json → Nat
  | .arr xs => costElements xs + 1
  | .obj ms => costMembers ms + 1
  | _ => 1
/-- The bound for the elements of an array. -/
def costElements : List Json → Nat
  | [] => 0
  | x :: xs => x.cost + costElements xs + 1
/-- The bound for the members of an object. -/
def costMembers : List (JsString × Json) → Nat
  | [] => 0
  | (_, v) :: ms => v.cost + costMembers ms + 1
end

/-- A WebSocket the close routine has torn down: its close signal is ignored, and it
is closing or closed. -/
def WebSocket.Torn (w : WebSocket) : Prop :=
  w.onclose = CloseHandler.noop ∧
    (w.readyState = ReadyState.CLOSING ∨ w.readyState = ReadyState.CLOSED)

/-- Whether a WebSocket is torn down is decidable. -/
instance (w : WebSocket) : Decidable w.Torn := by
  unfold WebSocket.Torn; infer_instance

/-- What every method of the socket and every event of the platform keeps, `open`
and `on` apart: the origin, the options, the listeners, the replaced transports
and the URL of the WebSocket; reconnection is never enabled again; a WebSocket
that is torn down stays so and sends nothing more; and a reconnect timer that
is pending afterwards either was pending before, or reconnection was enabled
and the WebSocket is torn down. -/
structure Socket.Kept (s t : Socket) : Prop where
  uri : t.uri = s.uri
  opts : t.opts = s.opts
  listeners : t.listeners = s.listeners
  discarded : t.discarded = s.discarded
  url : t.ws.map (fun w => w.url) = s.ws.map (fun w => w.url)
  flag : t.shouldReconnect = true → s.shouldReconnect = true
  torn : (∀ w, s.ws = some w → w.Torn) → ∀ w, t.ws = some w → w.Torn
  sent : (∀ w, s.ws = some w → w.Torn) →
    t.ws.map (fun w => w.sent) = s.ws.map (fun w => w.sent)
  reconnect : ∀ u ∈ t.timers, u.action = TimerAction.reconnect →
    u ∈ s.timers ∨ (s.shouldReconnect = true ∧ ∀ w, t.ws = some w → w.Torn)

/-- The second invariant of the reachable states: the transports that `open`
replaced are torn down, and so is the WebSocket while a reconnect timer is
pending. -/
structure Socket.TornInv (s : Socket) : Prop where
  discarded : ∀ w ∈ s.discarded, w.Torn
  pending : (∃ u ∈ s.timers, u.action = TimerAction.reconnect) → ∀ w, s.ws = some w → w.Torn

/-- One event of a platform that delivers a message only from a WebSocket that is
open, as the WebSocket standard has it: the transport opens, starts to close or
closes, a message arrives, or a pending timer fires. -/
inductive PlatformStep : Socket → Socket → Prop where
  | transportOpens (s : Socket) : PlatformStep s s.transportOpens
  | transportClosing (s : Socket) : PlatformStep s s.transportClosing
  | transportCloses (s : Socket) : PlatformStep s s.transportCloses
  | message (s t : Socket) (w : WebSocket) (m : MessageData) : s.ws = some w →
      w.readyState = ReadyState.OPEN → s.onMessage m = .ok t → PlatformStep s t
  | timerFires (s : Socket) (t : Timer) : t ∈ s.timers → PlatformStep s (s.timerFires t)

/-- The value parser with the fuel `f`: a result is a result with every fuel from the
number of code units read on, and at least one code unit is read. -/
def FuelEnough (f : Nat) : Prop :=
  (∀ s v r, parseValue f s = some (v, r) →
    r.length < s.length ∧ ∀ g, s.length - r.length ≤ g → parseValue g s = some (v, r)) ∧
  (∀ s l r, parseElements f s = some (l, r) →
    r.length < s.length ∧ ∀ g, s.length - r.length ≤ g → parseElements g s = some (l, r)) ∧
  (∀ s l r, parseMembers f s = some (l, r) →
    r.length < s.length ∧ ∀ g, s.length - r.length ≤ g → parseMembers g s = some (l, r))

/-! ## The invariant of the reachable states -/

/-- The close routine on a connected socket: it disconnects, clears the id and emits `disconnect`. -/
theorem Socket.onClose_emitted_connected (s : Socket) (r : JsString) (h : s.connected = true) :
    (s.onClose r).connected = false ∧ (s.onClose r).id = none ∧
    (s.onClose r).emitted = s.emitted ++ [(js "disconnect", [Json.str r])] := by
  unfold Socket.onClose
  cases hw : s.ws <;> simp [Socket.clearTimeout, Socket.superEmit, Socket.setTimeout, h] <;>
    split <;> simp

/-- The close routine on a socket that is not connected: it emits `connect_error`. -/
theorem Socket.onClose_emitted_not_connected (s : Socket) (r : JsString) (h : s.connected = false) :
    (s.onClose r).connected = false ∧ (s.onClose r).id = s.id ∧
    (s.onClose r).emitted = s.emitted ++ [(js "connect_error", [Json.str r])] := by
  unfold Socket.onClose
  cases hw : s.ws <;> simp [Socket.clearTimeout, Socket.superEmit, Socket.setTimeout, h] <;>
    split <;> simp [h]

/-- Under the invariant every pending timer is held by one of the two fields. -/
theorem Socket.Inv.owned {s : Socket} (hi : s.Inv) :
    ∀ a ∈ s.timers, ¬some a.id = s.reconnectTimer → some a.id = s.pingTimeoutTimer := by
  intro t ht hne
  cases ha : t.action
  · exact (hi.pingOwned t ht ha).symm
  · exact absurd (hi.reconnectOwned t ht ha).symm hne

/-- The pending timers after the close routine. -/
theorem Socket.onClose_timers (s : Socket) (r : JsString) (hi : s.Inv) :
    (s.onClose r).timers =
      if s.shouldReconnect then
        [⟨s.nextTimerId, .reconnect, some (.number (JsNumber.ofInt s.opts.reconnectionDelay))⟩]
      else [] := by
  have hown := hi.owned
  unfold Socket.onClose
  cases hw : s.ws <;> cases hc : s.connected <;> cases hr : s.shouldReconnect <;>
    simp [Socket.clearTimeout, Socket.superEmit, Socket.setTimeout, hc, hr, List.filter_filter] <;>
    exact hown


/-- The fields the close routine leaves alone, and those it sets. -/
theorem Socket.onClose_fields (s : Socket) (r : JsString) :
    (s.onClose r).nextTimerId = (if s.shouldReconnect then s.nextTimerId + 1 else s.nextTimerId) ∧
    (s.onClose r).pingTimeoutTimer = s.pingTimeoutTimer ∧
    (s.onClose r).reconnectTimer =
      (if s.shouldReconnect then some s.nextTimerId else s.reconnectTimer) ∧
    (s.onClose r).shouldReconnect = s.shouldReconnect ∧
    (s.onClose r).sendBuffer = s.sendBuffer ∧
    (s.onClose r).opts = s.opts ∧ (s.onClose r).uri = s.uri ∧
    (s.onClose r).listeners = s.listeners ∧ (s.onClose r).discarded = s.discarded ∧
    (s.onClose r).pingTimeoutDelay = s.pingTimeoutDelay ∧
    (s.onClose r).ws = s.ws.map (fun w => { w with onclose := CloseHandler.noop }.close) := by
  unfold Socket.onClose
  cases hw : s.ws <;> cases hc : s.connected <;> cases hr : s.shouldReconnect <;>
    simp [Socket.clearTimeout, Socket.superEmit, Socket.setTimeout, hc, hr, hw]

/-- The close routine keeps the invariant. -/
theorem Socket.onClose_inv (s : Socket) (r : JsString) (hi : s.Inv) : (s.onClose r).Inv := by
  obtain ⟨h1, h2, h3, h4, h5, h6, h7, h8, h9, h10, h11⟩ := s.onClose_fields r
  have ht := s.onClose_timers r hi
  constructor
  · rw [ht, h1]; cases s.shouldReconnect <;> simp
  · rw [h2, h1]; intro h hh; have := hi.pingFresh h hh; split <;> omega
  · rw [h3, h1]; intro h hh
    cases hr : s.shouldReconnect
    · rw [hr] at hh; simpa using hi.reconnectFresh h hh
    · rw [hr] at hh; simp at hh; simp; omega
  · rw [ht]; cases s.shouldReconnect <;> simp
  · rw [ht, h3]; cases s.shouldReconnect <;> simp
  · rw [h2, h3]; intro h hh
    cases hr : s.shouldReconnect
    · simpa using hi.distinct h hh
    · have := hi.pingFresh h hh; simp; omega
  · intro hc
    cases hcc : s.connected
    · rw [(s.onClose_emitted_not_connected r hcc).2.1]; exact hi.idCleared hcc
    · exact (s.onClose_emitted_connected r hcc).2.1
  · rw [h11]; have := hi.hasWs; cases hw : s.ws <;> simp_all


/-- The invariant reads only the timers, the handles, `connected`, `id` and `ws`. -/
theorem Socket.Inv.congr {s t : Socket} (hi : s.Inv) (h1 : t.timers = s.timers)
    (h2 : t.nextTimerId = s.nextTimerId) (h3 : t.pingTimeoutTimer = s.pingTimeoutTimer)
    (h4 : t.reconnectTimer = s.reconnectTimer) (h5 : t.connected = s.connected)
    (h6 : t.id = s.id) (h7 : t.ws ≠ none) : t.Inv := by
  constructor
  · rw [h1, h2]; exact hi.fresh
  · rw [h3, h2]; exact hi.pingFresh
  · rw [h4, h2]; exact hi.reconnectFresh
  · rw [h1, h3]; exact hi.pingOwned
  · rw [h1, h4]; exact hi.reconnectOwned
  · rw [h3, h4]; exact hi.distinct
  · rw [h5, h6]; exact hi.idCleared
  · exact h7

/-- The method `send` keeps the invariant. -/
theorem Socket.send_inv {s t : Socket} {d : JsString} (h : s.send d = .ok t) (hi : s.Inv) :
    t.Inv := by
  unfold Socket.send at h
  cases hw : s.ws with
  | none => simp [hw] at h
  | some w =>
    simp only [hw] at h
    split at h
    · cases h; exact hi.congr rfl rfl rfl rfl rfl rfl (by simp)
    · cases h; exact hi

/-- The loop over the buffer keeps the invariant. -/
theorem Socket.forEachSendPacket_inv (ps : List Packet) :
    ∀ {s t : Socket}, s.forEachSendPacket ps = .ok t → s.Inv → t.Inv := by
  induction ps with
  | nil => intro s t h hi; simp [Socket.forEachSendPacket] at h; cases h; exact hi
  | cons p ps ih =>
    intro s t h hi
    simp only [Socket.forEachSendPacket] at h
    cases h1 : s.sendPacket p with
    | error e => simp [h1] at h
    | ok s1 =>
      simp only [h1] at h
      exact ih h (Socket.send_inv h1 hi)

/-- A local event keeps the invariant. -/
theorem Socket.superEmit_inv {s : Socket} (event : JsString) (args : List Json) (hi : s.Inv) :
    (s.superEmit event args).Inv :=
  hi.congr rfl rfl rfl rfl rfl rfl hi.hasWs

/-- The method `onConnect` keeps the invariant. -/
theorem Socket.onConnect_inv {s t : Socket} {p : Packet} (h : s.onConnect p = .ok t)
    (hi : s.Inv) : t.Inv := by
  unfold Socket.onConnect at h
  cases hd : p.data with
  | none => simp [hd] at h
  | some d =>
    simp only [hd] at h
    cases hg : d.getProp (js "sid") with
    | error e => simp [hg] at h
    | ok sid =>
      simp only [hg] at h
      cases hf : Socket.forEachSendPacket { s with id := sid, connected := true } s.sendBuffer with
      | error e => simp [hf] at h
      | ok s1 =>
        simp only [hf] at h
        cases h
        apply Socket.superEmit_inv
        refine Socket.forEachSendPacket_inv _ hf ?_
        exact ⟨hi.fresh, hi.pingFresh, hi.reconnectFresh, hi.pingOwned, hi.reconnectOwned,
          hi.distinct, by simp, hi.hasWs⟩

/-- The method `resetPingTimeout` keeps the invariant. -/
theorem Socket.resetPingTimeout_inv {s : Socket} (hi : s.Inv) : s.resetPingTimeout.Inv := by
  unfold Socket.resetPingTimeout
  constructor
  · intro t ht
    simp [Socket.clearTimeout, Socket.setTimeout] at ht ⊢
    rcases ht with ht | ht
    · have := hi.fresh t ht.1; omega
    · simp [ht]
  · simp [Socket.clearTimeout, Socket.setTimeout]
  · intro h hh
    simp [Socket.clearTimeout, Socket.setTimeout] at hh ⊢
    have := hi.reconnectFresh h hh; omega
  · intro t ht ha
    simp [Socket.clearTimeout, Socket.setTimeout] at ht ⊢
    rcases ht with ht | ht
    · exact absurd (hi.pingOwned t ht.1 ha).symm ht.2
    · simp [ht]
  · intro t ht ha
    simp [Socket.clearTimeout, Socket.setTimeout] at ht ⊢
    rcases ht with ht | ht
    · exact hi.reconnectOwned t ht.1 ha
    · simp [ht] at ha
  · intro h hh
    simp [Socket.clearTimeout, Socket.setTimeout] at hh ⊢
    intro hr
    have := hi.reconnectFresh h hr; omega
  · simpa [Socket.clearTimeout, Socket.setTimeout] using hi.idCleared
  · simpa [Socket.clearTimeout, Socket.setTimeout] using hi.hasWs

/-- The method `onOpen` keeps the invariant. -/
theorem Socket.onOpen_inv {s t : Socket} {d : JsString} (h : s.onOpen d = .ok t)
    (hi : s.Inv) : t.Inv := by
  unfold Socket.onOpen at h
  cases hp : JSON.parse (substring d 1) with
  | error e => simp [hp] at h; cases h; exact Socket.onClose_inv _ _ hi
  | ok hs =>
    simp only [hp] at h
    cases h1 : hs.getProp (js "pingInterval") with
    | error e => simp [h1] at h
    | ok a =>
      cases h2 : hs.getProp (js "pingTimeout") with
      | error e => simp [h1, h2] at h
      | ok b =>
        simp only [h1, h2] at h
        refine Socket.send_inv h (Socket.resetPingTimeout_inv ?_)
        exact hi.congr rfl rfl rfl rfl rfl rfl hi.hasWs

/-- The dispatch of an EVENT packet keeps the invariant. -/
theorem Socket.superEmitApply_inv {s t : Socket} {d : Option Json}
    (h : s.superEmitApply d = .ok t) (hi : s.Inv) : t.Inv := by
  unfold Socket.superEmitApply at h
  split at h <;> first | (cases h; first | exact hi | exact Socket.superEmit_inv _ _ hi) | simp at h

/-- The method `disconnect` keeps the invariant. -/
theorem Socket.disconnect_inv {s : Socket} (hi : s.Inv) : s.disconnect.Inv :=
  Socket.onClose_inv _ _ (hi.congr rfl rfl rfl rfl rfl rfl hi.hasWs)

/-- The method `onPacket` keeps the invariant. -/
theorem Socket.onPacket_inv {s t : Socket} {p : Packet} (h : s.onPacket p = .ok t)
    (hi : s.Inv) : t.Inv := by
  unfold Socket.onPacket at h
  split at h
  · exact Socket.onConnect_inv h hi
  · split at h
    · cases h; exact Socket.onClose_inv _ _ (hi.congr rfl rfl rfl rfl rfl rfl hi.hasWs)
    · split at h
      · exact Socket.superEmitApply_inv h hi
      · cases h; exact Socket.onClose_inv _ _ hi

/-- The method `onMessage` keeps the invariant. -/
theorem Socket.onMessage_inv {s t : Socket} {m : MessageData} (h : s.onMessage m = .ok t)
    (hi : s.Inv) : t.Inv := by
  unfold Socket.onMessage at h
  cases m with
  | binary => simp at h; cases h; exact hi
  | text data =>
    simp only at h
    split at h
    · exact Socket.onOpen_inv h hi
    · split at h
      · cases h; exact Socket.onClose_inv _ _ hi
      · split at h
        · exact Socket.send_inv h (Socket.resetPingTimeout_inv hi)
        · split at h
          · cases hd : decode data with
            | error e => simp [hd] at h; cases h; exact Socket.onClose_inv _ _ hi
            | ok p => simp only [hd] at h; exact Socket.onPacket_inv h hi
          · cases h; exact Socket.onClose_inv _ _ hi

/-- The method `emit` keeps the invariant. -/
theorem Socket.emit_inv {s t : Socket} {args : List Json} (h : s.emit args = .ok t)
    (hi : s.Inv) : t.Inv := by
  unfold Socket.emit at h
  split at h
  · exact Socket.send_inv h hi
  · cases h; exact hi.congr rfl rfl rfl rfl rfl rfl hi.hasWs

/-- The method `open` keeps the invariant. -/
theorem Socket.open_inv {s : Socket} (hi : s.Inv) : s.open.Inv :=
  hi.congr rfl rfl rfl rfl rfl rfl (by simp [Socket.open])

/-- The constructor establishes the invariant. -/
theorem Socket.new_inv (uri : JsString) (opts : UserOpts) : (Socket.new uri opts).Inv := by
  constructor <;> simp [Socket.new, Socket.open]

/-- The opening of the transport keeps the invariant. -/
theorem Socket.transportOpens_inv {s : Socket} (hi : s.Inv) : s.transportOpens.Inv := by
  unfold Socket.transportOpens
  split
  · split
    · exact hi.congr rfl rfl rfl rfl rfl rfl (by simp)
    · exact hi
  · exact hi

/-- The start of the closing handshake keeps the invariant. -/
theorem Socket.transportClosing_inv {s : Socket} (hi : s.Inv) : s.transportClosing.Inv := by
  unfold Socket.transportClosing
  split
  · split
    · exact hi.congr rfl rfl rfl rfl rfl rfl (by simp)
    · exact hi
  · exact hi

/-- The close signal keeps the invariant. -/
theorem Socket.transportCloses_inv {s : Socket} (hi : s.Inv) : s.transportCloses.Inv := by
  unfold Socket.transportCloses
  split
  · split
    · exact hi
    · split
      · exact Socket.onClose_inv _ _ (hi.congr rfl rfl rfl rfl rfl rfl (by simp))
      · exact hi.congr rfl rfl rfl rfl rfl rfl (by simp)
  · exact hi

/-- The invariant survives the removal of pending timers. -/
theorem Socket.Inv.filter {s : Socket} (hi : s.Inv) (p : Timer → Bool) :
    Socket.Inv { s with timers := s.timers.filter p } :=
  ⟨fun t ht => hi.fresh t (List.mem_of_mem_filter ht), hi.pingFresh, hi.reconnectFresh,
   fun t ht => hi.pingOwned t (List.mem_of_mem_filter ht),
   fun t ht => hi.reconnectOwned t (List.mem_of_mem_filter ht), hi.distinct, hi.idCleared,
   hi.hasWs⟩

/-- A timer that fires keeps the invariant. -/
theorem Socket.timerFires_inv {s : Socket} (t : Timer) (hi : s.Inv) : (s.timerFires t).Inv := by
  unfold Socket.timerFires
  split
  · exact Socket.onClose_inv _ _ (hi.filter _)
  · exact Socket.open_inv (hi.filter _)

/-- Every step keeps the invariant. -/
theorem Step.inv_step {s t : Socket} (h : Step s t) (hi : s.Inv) : t.Inv := by
  cases h with
  | callOn event listener => exact hi.congr rfl rfl rfl rfl rfl rfl hi.hasWs
  | callEmit _ args h => exact Socket.emit_inv h hi
  | callDisconnect => exact Socket.disconnect_inv hi
  | transportOpens => exact Socket.transportOpens_inv hi
  | transportClosing => exact Socket.transportClosing_inv hi
  | transportCloses => exact Socket.transportCloses_inv hi
  | message _ m h => exact Socket.onMessage_inv h hi
  | timerFires t _ => exact Socket.timerFires_inv t hi

/-- Every reachable state satisfies the invariant. -/
theorem Reachable.inv {uri : JsString} {opts : UserOpts} {s : Socket}
    (h : Reachable uri opts s) : s.Inv := by
  induction h with
  | init => exact Socket.new_inv uri opts
  | step s t _ hst ih => exact hst.inv_step ih

/-! ## The operations of the socket -/

/-- The method `send` on a socket with a WebSocket. -/
theorem Socket.send_ok {s : Socket} {w : WebSocket} (d : JsString) (hw : s.ws = some w) :
    s.send d = .ok (if w.readyState = .OPEN then
      { s with ws := some { w with sent := w.sent ++ [d] } } else s) := by
  unfold Socket.send
  simp only [hw]
  split <;> rfl

/-- The loop over the buffer on an open WebSocket: one frame for each packet, in order. -/
theorem Socket.forEachSendPacket_open (ps : List Packet) :
    ∀ (s : Socket) (w : WebSocket), s.ws = some w → w.readyState = .OPEN →
      s.forEachSendPacket ps = .ok { s with ws := some { w with
        sent := w.sent ++ ps.map (fun p => EIOPacketType.MESSAGE :: encode p) } } := by
  induction ps with
  | nil => intro s w hw _; simp [Socket.forEachSendPacket, ← hw]
  | cons p ps ih =>
    intro s w hw ho
    obtain ⟨url, rs, oc, sent, cc⟩ := w
    simp only at ho
    subst ho
    simp only [Socket.forEachSendPacket, Socket.sendPacket, Socket.send_ok _ hw, if_true]
    rw [ih _ _ rfl rfl]
    simp

/-- The method `send` changes nothing but the WebSocket. -/
theorem Socket.send_frame {s t : Socket} {d : JsString} (h : s.send d = .ok t) :
    t.sendBuffer = s.sendBuffer ∧ t.opts = s.opts ∧ t.uri = s.uri ∧ t.timers = s.timers ∧
    t.connected = s.connected ∧ t.id = s.id ∧ t.emitted = s.emitted ∧
    t.shouldReconnect = s.shouldReconnect := by
  unfold Socket.send at h
  cases hw : s.ws with
  | none => simp [hw] at h
  | some w =>
    simp only [hw] at h
    split at h <;> cases h <;> simp

/-- The loop over the buffer changes nothing but the WebSocket. -/
theorem Socket.forEachSendPacket_frame (ps : List Packet) :
    ∀ {s t : Socket}, s.forEachSendPacket ps = .ok t →
      t.sendBuffer = s.sendBuffer ∧ t.opts = s.opts ∧ t.uri = s.uri ∧ t.timers = s.timers ∧
      t.connected = s.connected ∧ t.id = s.id ∧ t.emitted = s.emitted ∧
      t.shouldReconnect = s.shouldReconnect := by
  induction ps with
  | nil => intro s t h; simp [Socket.forEachSendPacket] at h; cases h; simp
  | cons p ps ih =>
    intro s t h
    simp only [Socket.forEachSendPacket] at h
    cases h1 : s.sendPacket p with
    | error e => simp [h1] at h
    | ok s1 =>
      simp only [h1] at h
      have h2 := ih h
      have h3 := Socket.send_frame h1
      simp only [h2, h3, and_self]

/-- The method `onConnect` never changes the buffer. -/
theorem Socket.onConnect_sendBuffer {s t : Socket} {p : Packet} (h : s.onConnect p = .ok t) :
    t.sendBuffer = s.sendBuffer := by
  unfold Socket.onConnect at h
  cases hd : p.data with
  | none => simp [hd] at h
  | some d =>
    simp only [hd] at h
    cases hg : d.getProp (js "sid") with
    | error e => simp [hg] at h
    | ok sid =>
      simp only [hg] at h
      cases hf : Socket.forEachSendPacket { s with id := sid, connected := true } s.sendBuffer with
      | error e => simp [hf] at h
      | ok s1 =>
        simp only [hf] at h
        cases h
        simp [Socket.superEmit, (Socket.forEachSendPacket_frame _ hf).1]

/-- C4, at the failing inputs. The function `decode` accepts the CONNECT packets `40null`
and `40[]`, whose data is not an object: `typeof` gives `object` for `null` and
for an array. -/
theorem C4_decode_accepts_null_and_array :
    decode (js "40null") = .ok ⟨some SIOPacketType.CONNECT, some .null⟩ ∧
    decode (js "40[]") = .ok ⟨some SIOPacketType.CONNECT, some (.arr [])⟩ := by
  decide

/-- C2, at a failing input. One call of `emit` on a new socket, then the CONNECT packet
of the peer on the open transport: the packet is transmitted and is still in the
buffer afterwards, and a second CONNECT packet transmits it a second time. -/
theorem C2_buffer_kept :
    ∃ s t u w,
      (Socket.new (js "http://h") ⟨none, none⟩).emit [.str (js "a")] = .ok s ∧
      s.transportOpens.onMessage (.text (js "40\x7b\"sid\":\"x\"\x7d")) = .ok t ∧
      t.sendBuffer = [eventPacket [.str (js "a")]] ∧
      t.onMessage (.text (js "40\x7b\"sid\":\"y\"\x7d")) = .ok u ∧
      u.ws = some w ∧ w.sent = [js "42[\"a\"]", js "42[\"a\"]"] := by
  refine ⟨_, _, _, _, rfl, rfl, rfl, rfl, rfl, rfl⟩


/-- The method `onConnect` keeps the options. -/
theorem Socket.onConnect_opts {s t : Socket} {p : Packet} (h : s.onConnect p = .ok t) :
    t.opts = s.opts := by
  unfold Socket.onConnect at h
  cases hd : p.data with
  | none => simp [hd] at h
  | some d =>
    simp only [hd] at h
    cases hg : d.getProp (js "sid") with
    | error e => simp [hg] at h
    | ok sid =>
      simp only [hg] at h
      cases hf : Socket.forEachSendPacket { s with id := sid, connected := true } s.sendBuffer with
      | error e => simp [hf] at h
      | ok s1 =>
        simp only [hf] at h
        cases h
        simp [Socket.superEmit, (Socket.forEachSendPacket_frame _ hf).2.1]

/-- The method `onOpen` keeps the options. -/
theorem Socket.onOpen_opts {s t : Socket} {d : JsString} (h : s.onOpen d = .ok t) :
    t.opts = s.opts := by
  unfold Socket.onOpen at h
  cases hp : JSON.parse (substring d 1) with
  | error e => simp [hp] at h; cases h; exact (s.onClose_fields _).2.2.2.2.2.1
  | ok hs =>
    simp only [hp] at h
    cases h1 : hs.getProp (js "pingInterval") with
    | error e => simp [h1] at h
    | ok a =>
      cases h2 : hs.getProp (js "pingTimeout") with
      | error e => simp [h1, h2] at h
      | ok b =>
        simp only [h1, h2] at h
        rw [(Socket.send_frame h).2.1]
        simp [Socket.resetPingTimeout, Socket.setTimeout, Socket.clearTimeout]

/-- The method `onMessage` keeps the options. -/
theorem Socket.onMessage_opts {s t : Socket} {m : MessageData} (h : s.onMessage m = .ok t) :
    t.opts = s.opts := by
  unfold Socket.onMessage at h
  cases m with
  | binary => simp at h; cases h; rfl
  | text data =>
    simp only at h
    split at h
    · exact Socket.onOpen_opts h
    · split at h
      · cases h; exact (s.onClose_fields _).2.2.2.2.2.1
      · split at h
        · rw [(Socket.send_frame h).2.1]
          simp [Socket.resetPingTimeout, Socket.setTimeout, Socket.clearTimeout]
        · split at h
          · cases hd : decode data with
            | error e => simp [hd] at h; cases h; exact (s.onClose_fields _).2.2.2.2.2.1
            | ok p =>
              simp only [hd] at h
              unfold Socket.onPacket at h
              split at h
              · exact Socket.onConnect_opts h
              · split at h
                · cases h; exact (Socket.onClose_fields _ _).2.2.2.2.2.1
                · split at h
                  · unfold Socket.superEmitApply at h
                    split at h <;> first | (cases h; rfl) | simp at h
                  · cases h; exact (s.onClose_fields _).2.2.2.2.2.1
          · cases h; exact (s.onClose_fields _).2.2.2.2.2.1

/-- Every step keeps the options. -/
theorem Step.opts_step {s t : Socket} (h : Step s t) : t.opts = s.opts := by
  cases h with
  | callOn event listener => rfl
  | callEmit _ args h =>
    unfold Socket.emit at h
    split at h
    · exact (Socket.send_frame h).2.1
    · cases h; rfl
  | callDisconnect => exact (Socket.onClose_fields _ _).2.2.2.2.2.1
  | transportOpens => unfold Socket.transportOpens; split <;> [split; skip] <;> rfl
  | transportClosing => unfold Socket.transportClosing; split <;> [split; skip] <;> rfl
  | transportCloses =>
    unfold Socket.transportCloses
    split
    · split
      · rfl
      · split
        · exact (Socket.onClose_fields _ _).2.2.2.2.2.1
        · rfl
    · rfl
  | message _ m h => exact Socket.onMessage_opts h
  | timerFires t _ =>
    unfold Socket.timerFires
    split
    · exact (Socket.onClose_fields _ _).2.2.2.2.2.1
    · rfl

/-- The options of a reachable state are those the constructor computed. -/
theorem Reachable.opts {uri : JsString} {opts : UserOpts} {s : Socket}
    (h : Reachable uri opts s) : s.opts = assignOpts opts := by
  induction h with
  | init => rfl
  | step s t _ hst ih => rw [hst.opts_step, ih]

/-- C6. For every state and every reason, the close routine emits exactly one local
event: `disconnect` with the reason when the socket was connected (it is then no
longer connected and has no id), `connect_error` with the reason when it was not
(`connected` and `id` are left as they were). In every reachable state no heartbeat
timer is pending afterwards. -/
theorem C6_close_routine_emits_one_event (s : Socket) (reason : JsString) :
    (s.connected = true →
      (s.onClose reason).connected = false ∧ (s.onClose reason).id = none ∧
      (s.onClose reason).emitted = s.emitted ++ [(js "disconnect", [Json.str reason])]) ∧
    (s.connected = false →
      (s.onClose reason).connected = s.connected ∧ (s.onClose reason).id = s.id ∧
      (s.onClose reason).emitted = s.emitted ++ [(js "connect_error", [Json.str reason])]) ∧
    (∀ uri opts, Reachable uri opts s →
      ∀ t ∈ (s.onClose reason).timers, t.action ≠ TimerAction.pingTimeout) := by
  refine ⟨Socket.onClose_emitted_connected s reason, ?_, ?_⟩
  · intro h
    have := Socket.onClose_emitted_not_connected s reason h
    rw [h]; exact this
  · intro uri opts hr t ht
    rw [Socket.onClose_timers s reason hr.inv] at ht
    split at ht
    · simp at ht; simp [ht]
    · simp at ht

/-- C7. After the close routine has run in a reachable state where reconnection is
enabled, exactly one timer is pending: the call of `open`, at the configured
delay (2000 when the caller gave none), whatever the reason and whatever was
pending before. -/
theorem C7_one_reconnect_pending (uri : JsString) (opts : UserOpts) (s : Socket)
    (reason : JsString) (hr : Reachable uri opts s) (he : s.shouldReconnect = true) :
    (s.onClose reason).timers =
      [⟨s.nextTimerId, TimerAction.reconnect,
        some (Delay.number (JsNumber.ofInt ((opts.reconnectionDelay.getD 2000 : Nat) : Int)))⟩] ∧
    (s.onClose reason).reconnectTimer = some s.nextTimerId := by
  rw [Socket.onClose_timers s reason hr.inv, (s.onClose_fields reason).2.2.1, he, hr.opts]
  cases h : opts.reconnectionDelay <;> simp [assignOpts, h]

/-- A reachable state to apply C7 to: the new socket of the caller. -/
theorem C7_one_reconnect_pending_witness :
    (Socket.new (js "http://h") ⟨none, none⟩).shouldReconnect = true ∧
    ((Socket.new (js "http://h") ⟨none, none⟩).onClose (js "ping timeout")).timers =
      [⟨0, TimerAction.reconnect, some (Delay.number (JsNumber.ofInt 2000))⟩] :=
  ⟨rfl, (C7_one_reconnect_pending (js "http://h") ⟨none, none⟩ _ (js "ping timeout")
    Reachable.init rfl).1⟩

/-- C8. In every reachable state `disconnect()` returns (it cannot throw); afterwards
reconnection is disabled, `close` has been called on the WebSocket, which is
closing or closed and whose close signal is ignored, the socket is not connected
and has no id, and no timer is pending. When the socket was connected the one
local event emitted is `disconnect` with the reason `io client disconnect`. -/
theorem C8_disconnect (uri : JsString) (opts : UserOpts) (s : Socket)
    (hr : Reachable uri opts s) :
    s.disconnect.shouldReconnect = false ∧
    (∃ w, s.ws = some w ∧
      s.disconnect.ws = some { w with onclose := CloseHandler.noop }.close ∧
      { w with onclose := CloseHandler.noop }.close.closeCalls = w.closeCalls + 1 ∧
      ({ w with onclose := CloseHandler.noop }.close.readyState = ReadyState.CLOSING ∨
       { w with onclose := CloseHandler.noop }.close.readyState = ReadyState.CLOSED)) ∧
    s.disconnect.connected = false ∧ s.disconnect.id = none ∧
    s.disconnect.timers = [] ∧
    (s.connected = true →
      s.disconnect.emitted = s.emitted ++
        [(js "disconnect", [Json.str (js "io client disconnect")])]) := by
  have hi : Socket.Inv { s with shouldReconnect := false } :=
    hr.inv.congr rfl rfl rfl rfl rfl rfl hr.inv.hasWs
  have hd : s.disconnect =
      Socket.onClose { s with shouldReconnect := false } (js "io client disconnect") := rfl
  have hf := Socket.onClose_fields { s with shouldReconnect := false } (js "io client disconnect")
  have ht := Socket.onClose_timers { s with shouldReconnect := false }
    (js "io client disconnect") hi
  rw [hd]
  refine ⟨hf.2.2.2.1, ?_, ?_, ?_, by simpa using ht, ?_⟩
  · obtain ⟨w, hw⟩ := Option.ne_none_iff_exists'.mp hr.inv.hasWs
    refine ⟨w, hw, ?_, rfl, ?_⟩
    · rw [hf.2.2.2.2.2.2.2.2.2.2]; simp [hw]
    · cases hs : w.readyState <;> simp [WebSocket.close, hs]
  · rcases Bool.eq_false_or_eq_true s.connected with hc | hc
    · exact (Socket.onClose_emitted_connected { s with shouldReconnect := false } _ hc).1
    · exact (Socket.onClose_emitted_not_connected
        { s with shouldReconnect := false } _ hc).1
  · rcases Bool.eq_false_or_eq_true s.connected with hc | hc
    · exact (Socket.onClose_emitted_connected { s with shouldReconnect := false } _ hc).2.1
    · rw [(Socket.onClose_emitted_not_connected { s with shouldReconnect := false } _ hc).2.1]
      exact hr.inv.idCleared hc
  · intro hc
    exact (Socket.onClose_emitted_connected { s with shouldReconnect := false } _ hc).2.2


/-- A packet of a type other than CONNECT, DISCONNECT and EVENT is not valid. -/
theorem isPacketValid_unsupported (t : Option Int) (d : Option Json)
    (h0 : t ≠ some SIOPacketType.CONNECT) (h1 : t ≠ some SIOPacketType.DISCONNECT)
    (h2 : t ≠ some SIOPacketType.EVENT) : isPacketValid ⟨t, d⟩ = false := by
  simp [isPacketValid, h0, h1, h2]

/-- The function `decode` throws on a text whose type is not CONNECT, DISCONNECT or
EVENT. -/
theorem decode_unsupported (data : JsString)
    (h0 : parseInt (charAt data 1) ≠ some SIOPacketType.CONNECT)
    (h1 : parseInt (charAt data 1) ≠ some SIOPacketType.DISCONNECT)
    (h2 : parseInt (charAt data 1) ≠ some SIOPacketType.EVENT) :
    ∃ e, decode data = .error e := by
  unfold decode
  split
  · cases JSON.parse (substring data 2) with
    | error e => exact ⟨e, rfl⟩
    | ok d => simp [isPacketValid_unsupported _ _ h0 h1 h2]
  · simp [isPacketValid_unsupported _ _ h0 h1 h2]

/-- A MESSAGE frame that `decode` rejects runs the close routine. -/
theorem Socket.onMessage_undecodable (s : Socket) (data : JsString) (e : JsError)
    (h4 : data.head? = some EIOPacketType.MESSAGE) (hd : decode data = .error e) :
    s.onMessage (.text data) = .ok (s.onClose (js "parse error")) := by
  unfold Socket.onMessage
  simp [h4, hd, EIOPacketType.MESSAGE, EIOPacketType.OPEN, EIOPacketType.CLOSE,
    EIOPacketType.PING]

/-- C9. A MESSAGE frame whose payload `decode` rejects makes `onMessage` run the close
routine with the reason `parse error` and do nothing else; `decode` rejects every
payload of the type ACK, CONNECT_ERROR, BINARY_EVENT or BINARY_ACK, so that such
a frame leaves the socket exactly as a malformed frame received in the same
state does. -/
theorem C9_undecodable_message_closes (s : Socket) (data : JsString)
    (h4 : data.head? = some EIOPacketType.MESSAGE) :
    (∀ e, decode data = .error e →
      s.onMessage (.text data) = .ok (s.onClose (js "parse error"))) ∧
    (∀ k, parseInt (charAt data 1) = some k →
      k = SIOPacketType.ACK ∨ k = SIOPacketType.CONNECT_ERROR ∨
        k = SIOPacketType.BINARY_EVENT ∨ k = SIOPacketType.BINARY_ACK →
      (∃ e, decode data = .error e) ∧
      s.onMessage (.text data) = .ok (s.onClose (js "parse error")) ∧
      ∀ other e, other.head? = some EIOPacketType.MESSAGE → decode other = .error e →
        s.onMessage (.text data) = s.onMessage (.text other)) := by
  refine ⟨fun e hd => Socket.onMessage_undecodable s data e h4 hd, ?_⟩
  intro k hk hkind
  have hu : ∃ e, decode data = .error e := by
    apply decode_unsupported <;> rw [hk] <;>
      rcases hkind with h | h | h | h <;> rw [h] <;> decide
  obtain ⟨e, he⟩ := hu
  refine ⟨⟨e, he⟩, Socket.onMessage_undecodable s data e h4 he, ?_⟩
  intro other e2 ho hd
  rw [Socket.onMessage_undecodable s data e h4 he, Socket.onMessage_undecodable s other e2 ho hd]

/-- An ACK frame and a malformed frame to apply C9 to. -/
theorem C9_undecodable_message_closes_witness :
    (js "43[1]").head? = some EIOPacketType.MESSAGE ∧
    decode (js "4x") = .error (JsError.Error (js "invalid format")) ∧
    ((Socket.new (js "http://h") ⟨none, none⟩).transportOpens.onMessage (.text (js "43[1]")) =
      (Socket.new (js "http://h") ⟨none, none⟩).transportOpens.onMessage (.text (js "4x"))) :=
  ⟨rfl, rfl,
    ((C9_undecodable_message_closes (Socket.new (js "http://h") ⟨none, none⟩).transportOpens
      (js "43[1]") rfl).2 3 rfl (Or.inl rfl)).2.2 (js "4x") _ rfl rfl⟩

/-- The close routine sends nothing. -/
theorem Socket.onClose_sent (s : Socket) (reason : JsString) :
    (s.onClose reason).ws.map (fun w => w.sent) = s.ws.map (fun w => w.sent) := by
  rw [(s.onClose_fields reason).2.2.2.2.2.2.2.2.2.2]
  cases s.ws <;> simp [WebSocket.close]

/-- C10, the counterexample. The OPEN frame `0{}` carries an object without
`pingInterval` and `pingTimeout`: the close routine does not run, a heartbeat timer
is armed and the CONNECT packet is sent. -/
theorem C10_counterexample :
    (Socket.new (js "http://h") ⟨none, none⟩).transportOpens.onMessage
        (.text (js "0\x7b\x7d")) ≠
      .ok ((Socket.new (js "http://h") ⟨none, none⟩).transportOpens.onClose (js "parse error")) ∧
    ∃ t w, (Socket.new (js "http://h") ⟨none, none⟩).transportOpens.onMessage
        (.text (js "0\x7b\x7d")) = .ok t ∧
      t.timers = [⟨0, TimerAction.pingTimeout, some (Delay.coerced none none)⟩] ∧
      t.ws = some w ∧ w.sent = [js "40"] ∧ t.emitted = [] := by
  refine ⟨by decide, _, _, rfl, rfl, rfl, rfl, rfl⟩

/-- C10, amended. An OPEN frame whose payload is not a JSON text makes `onMessage` run
the close routine with the reason `parse error` and do nothing else: no frame is
sent, and in a reachable state no heartbeat timer is pending afterwards. -/
theorem C10_invalid_json_handshake_closes (s : Socket) (data : JsString) (e : JsError)
    (h0 : data.head? = some EIOPacketType.OPEN)
    (hp : JSON.parse (substring data 1) = .error e) :
    s.onMessage (.text data) = .ok (s.onClose (js "parse error")) ∧
    (s.onClose (js "parse error")).ws.map (fun w => w.sent) = s.ws.map (fun w => w.sent) ∧
    (∀ uri opts, Reachable uri opts s →
      ∀ t ∈ (s.onClose (js "parse error")).timers, t.action ≠ TimerAction.pingTimeout) := by
  refine ⟨?_, Socket.onClose_sent s _, ?_⟩
  · unfold Socket.onMessage
    simp [h0, Socket.onOpen, hp]
  · intro uri opts hr t ht
    rw [Socket.onClose_timers s _ hr.inv] at ht
    split at ht
    · simp at ht; simp [ht]
    · simp at ht

/-- An OPEN frame that is not a JSON text, to apply the amended C10 to. -/
theorem C10_invalid_json_handshake_closes_witness :
    (js "0\x7bsid").head? = some EIOPacketType.OPEN ∧
    JSON.parse (substring (js "0\x7bsid") 1) = .error JsError.SyntaxError ∧
    (Socket.new (js "http://h") ⟨none, none⟩).transportOpens.onMessage (.text (js "0\x7bsid")) =
      .ok ((Socket.new (js "http://h") ⟨none, none⟩).transportOpens.onClose (js "parse error")) :=
  ⟨rfl, rfl, (C10_invalid_json_handshake_closes _ (js "0\x7bsid") _ rfl rfl).1⟩


/-- Calls of `emit` on a socket that is not connected only grow the buffer. -/
theorem Socket.emitAll_not_connected (calls : List (List Json)) :
    ∀ (s : Socket), s.connected = false →
      s.emitAll calls = .ok { s with sendBuffer := s.sendBuffer ++ calls.map eventPacket } := by
  induction calls with
  | nil => intro s _; simp [Socket.emitAll]
  | cons args calls ih =>
    intro s hc
    simp only [Socket.emitAll, Socket.emit, hc]
    rw [if_neg (by simp)]
    simp only
    rw [ih _ rfl]
    simp [eventPacket]

/-- The method `onMessage` on a MESSAGE frame that carries a CONNECT packet with an
object as data, on an open WebSocket. -/
theorem Socket.onMessage_connect (s : Socket) (w : WebSocket) (data : JsString)
    (ms : List (JsString × Json)) (hw : s.ws = some w) (ho : w.readyState = .OPEN)
    (h4 : data.head? = some EIOPacketType.MESSAGE)
    (hd : decode data = .ok ⟨some SIOPacketType.CONNECT, some (.obj ms)⟩) :
    s.onMessage (.text data) = .ok
      (Socket.superEmit
        { s with
          id := lookup (js "sid") ms
          connected := true
          ws := some { w with
            sent := w.sent ++ s.sendBuffer.map (fun p => EIOPacketType.MESSAGE :: encode p) } }
        (js "connect") []) := by
  unfold Socket.onMessage
  simp only [h4, hd, EIOPacketType.MESSAGE, EIOPacketType.OPEN, EIOPacketType.CLOSE,
    EIOPacketType.PING]
  have key := Socket.forEachSendPacket_open s.sendBuffer
    { s with id := lookup (js "sid") ms, connected := true } w hw ho
  simp [Socket.onPacket, Socket.onConnect, Json.getProp, key, EIOPacketType.MESSAGE]

/-- C3, the counterexample. A connected socket whose WebSocket is closing (the peer
has started the closing handshake) drops the frame of `emit`: nothing is
transmitted and nothing is buffered. And a packet that an earlier CONNECT packet
flushed is still in the buffer: after a reconnection one call of `emit` and the
CONNECT packet of the peer transmit two frames. -/
theorem C3_counterexample :
    (∃ c w, (Socket.new (js "http://h") ⟨none, none⟩).transportOpens.onMessage
        (.text (js "40\x7b\"sid\":\"x\"\x7d")) = .ok c ∧
      c.connected = true ∧ c.transportClosing.connected = true ∧
      c.transportClosing.ws = some w ∧ w.readyState = ReadyState.CLOSING ∧ w.sent = [] ∧
      c.transportClosing.emit [.str (js "a")] = .ok c.transportClosing) ∧
    (∃ s1 s2 s3 s6 s7 w7,
      (Socket.new (js "http://h") ⟨none, none⟩).emit [.str (js "a")] = .ok s1 ∧
      s1.transportOpens.onMessage (.text (js "40\x7b\"sid\":\"x\"\x7d")) = .ok s2 ∧
      s2.onMessage (.text (js "1")) = .ok s3 ∧
      s3.timers = [⟨0, TimerAction.reconnect, some (Delay.number (JsNumber.ofInt 2000))⟩] ∧
      (s3.timerFires
        ⟨0, TimerAction.reconnect, some (Delay.number (JsNumber.ofInt 2000))⟩).transportOpens.emit
          [.str (js "b")] = .ok s6 ∧
      s6.connected = false ∧
      s6.onMessage (.text (js "40\x7b\"sid\":\"y\"\x7d")) = .ok s7 ∧
      s7.ws = some w7 ∧ w7.sent = [js "42[\"a\"]", js "42[\"b\"]"]) := by
  refine ⟨⟨_, _, rfl, rfl, rfl, rfl, rfl, rfl, rfl⟩,
    ⟨_, _, _, _, _, _, rfl, rfl, rfl, rfl, rfl, rfl, rfl, rfl, rfl⟩⟩

/-- C3, amended. On a socket that is not connected and whose buffer is empty, a
sequence of calls of `emit` transmits nothing and leaves the packets of the
calls in the buffer, in the order of the calls; when the CONNECT packet of the
peer is then processed on the open WebSocket, the frames transmitted are `4`
followed by the encoded EVENT packet of each call, in the order of the calls.
A call of `emit` on a connected socket never touches the buffer: on an open
WebSocket it transmits its one frame at once, and on a WebSocket that is not
open it transmits nothing and changes nothing. -/
theorem C3_buffered_emits_flush_in_order (s : Socket) (w : WebSocket)
    (calls : List (List Json)) (data : JsString) (ms : List (JsString × Json))
    (hc : s.connected = false) (hb : s.sendBuffer = []) (hw : s.ws = some w)
    (ho : w.readyState = ReadyState.OPEN)
    (h4 : data.head? = some EIOPacketType.MESSAGE)
    (hd : decode data = .ok ⟨some SIOPacketType.CONNECT, some (.obj ms)⟩) :
    (∃ t u, s.emitAll calls = .ok t ∧ t.ws = some w ∧
      t.sendBuffer = calls.map eventPacket ∧
      t.onMessage (.text data) = .ok u ∧
      u.ws = some { w with sent := (w.sent ++
        calls.map (fun args => EIOPacketType.MESSAGE :: encode (eventPacket args))) }) ∧
    (∀ (c : Socket) (v : WebSocket) (args : List Json), c.connected = true → c.ws = some v →
      ∃ t, c.emit args = .ok t ∧ t.sendBuffer = c.sendBuffer ∧
        (v.readyState = ReadyState.OPEN →
          t = { c with ws := some { v with
            sent := (v.sent ++ [EIOPacketType.MESSAGE :: encode (eventPacket args)]) } }) ∧
        (v.readyState ≠ ReadyState.OPEN → t = c)) := by
  constructor
  · refine ⟨_, _, Socket.emitAll_not_connected calls s hc, hw, by simp [hb],
      Socket.onMessage_connect _ w data ms hw ho h4 hd, ?_⟩
    simp [Socket.superEmit, hb, eventPacket]
  · intro c v args hcc hv
    refine ⟨_, by simp only [Socket.emit, hcc, if_true, Socket.sendPacket]; exact Socket.send_ok _ hv,
      ?_, ?_, ?_⟩
    · split <;> rfl
    · intro hvo
      simp [hvo, eventPacket]
    · intro hvo
      simp [hvo]

/-- Three calls of `emit` before the CONNECT packet of the peer, to apply C3 to. -/
theorem C3_buffered_emits_flush_in_order_witness :
    ∃ t u w, (Socket.new (js "http://h") ⟨none, none⟩).transportOpens.emitAll
        [[.str (js "a")], [.str (js "b"), .num (.ofInt 1)], [.str (js "c")]] = .ok t ∧
      t.onMessage (.text (js "40\x7b\"sid\":\"abc\"\x7d")) = .ok u ∧ u.ws = some w ∧
      w.sent = [js "42[\"a\"]", js "42[\"b\",1]", js "42[\"c\"]"] := by
  obtain ⟨t, u, h1, _, _, h2, h3⟩ :=
    (C3_buffered_emits_flush_in_order (Socket.new (js "http://h") ⟨none, none⟩).transportOpens
      ⟨_, .OPEN, .transportClose, [], 0⟩
      [[.str (js "a")], [.str (js "b"), .num (.ofInt 1)], [.str (js "c")]]
      (js "40\x7b\"sid\":\"abc\"\x7d") [(js "sid", .str (js "abc"))] rfl rfl rfl rfl rfl rfl).1
  exact ⟨t, u, _, h1, h2, h3, rfl⟩

/-- The empty string is not a JSON text. -/
theorem JSON.parse_nil : JSON.parse [] = .error JsError.SyntaxError := rfl

/-- The function `decode` on a frame whose type is the digit `0` and whose data is a
JSON text: the CONNECT packet with that data, when `typeof` gives `object` for it. -/
theorem decode_connect (c : Nat) (text : JsString) (d : Json) (ht : JSON.parse text = .ok d)
    (ho : typeof (some d) = JsType.object) :
    decode (c :: 48 :: text) = .ok ⟨some SIOPacketType.CONNECT, some d⟩ := by
  have hne : text ≠ [] := by
    intro h; rw [h, JSON.parse_nil] at ht; cases ht
  obtain ⟨x, r, rfl⟩ := List.exists_cons_of_ne_nil hne
  have hp : parseInt [48] = some SIOPacketType.CONNECT := by decide
  simp [decode, charAt, substring, ht, hp, isPacketValid, ho]

/-- C5. A new socket whose transport has opened receives an OPEN frame whose payload
is a handshake with numeric `pingInterval` and `pingTimeout`: it transmits exactly
one frame, `40`, and is still not connected. It then receives a MESSAGE frame
`40` followed by an object whose `sid` is the string `sid`: it becomes connected,
its id is `sid`, and the one local event emitted is `connect` without arguments. -/
theorem C5_handshake_scenario (uri : JsString) (opts : UserOpts)
    (payload : JsString) (handshake : Json) (a b : JsNumber)
    (text : JsString) (d : Json) (sid : JsString)
    (hp : JSON.parse payload = .ok handshake)
    (h1 : handshake.getProp (js "pingInterval") = .ok (some (.num a)))
    (h2 : handshake.getProp (js "pingTimeout") = .ok (some (.num b)))
    (ht : JSON.parse text = .ok d)
    (hs : d.getProp (js "sid") = .ok (some (.str sid))) :
    ∃ c1 w1 c2 w2,
      (Socket.new uri opts).transportOpens.onMessage (.text (EIOPacketType.OPEN :: payload)) =
        .ok c1 ∧
      c1.ws = some w1 ∧ w1.sent = [js "40"] ∧ c1.connected = false ∧ c1.emitted = [] ∧
      c1.onMessage (.text (EIOPacketType.MESSAGE :: 48 :: text)) = .ok c2 ∧
      c2.connected = true ∧ c2.id = some (.str sid) ∧ c2.emitted = [(js "connect", [])] ∧
      c2.ws = some w2 ∧ w2.sent = [js "40"] := by
  obtain ⟨ms, rfl⟩ : ∃ ms, d = Json.obj ms := by
    cases d <;> simp [Json.getProp] at hs
    exact ⟨_, rfl⟩
  have hd := decode_connect EIOPacketType.MESSAGE text (Json.obj ms) ht rfl
  have hsid : lookup (js "sid") ms = some (.str sid) := by
    simpa [Json.getProp] using hs
  have hopen : (Socket.new uri opts).transportOpens.onMessage
      (.text (EIOPacketType.OPEN :: payload)) =
      .ok { (Socket.new uri opts).transportOpens with
        pingTimeoutDelay := some (jsAdd (some (.num a)) (some (.num b)))
        pingTimeoutTimer := some 0
        timers := [⟨0, TimerAction.pingTimeout, some (jsAdd (some (.num a)) (some (.num b)))⟩]
        nextTimerId := 1
        ws := some ⟨Socket.createUrl (Socket.new uri opts), .OPEN, .transportClose,
          [js "40"], 0⟩ } := by
    simp [Socket.onMessage, Socket.onOpen, substring, hp, h1, h2, Socket.new, Socket.open,
      Socket.transportOpens, Socket.doConnect, Socket.sendPacket, Socket.send,
      Socket.resetPingTimeout, Socket.setTimeout, Socket.clearTimeout,
      EIOPacketType.OPEN, Socket.createUrl]
    rfl
  refine ⟨_, _, _, _, hopen, rfl, rfl, rfl, rfl,
    Socket.onMessage_connect _ _ _ ms rfl rfl rfl hd, rfl, ?_, ?_, rfl, ?_⟩
  · simp [Socket.superEmit, hsid]
  · simp [Socket.superEmit, Socket.new, Socket.open, Socket.transportOpens]
  · simp [Socket.new, Socket.open, Socket.transportOpens]

/-- The frames of the scenario, to apply C5 to: the session id `abc`, a ping interval
of 20 and a ping timeout of 5. -/
theorem C5_handshake_scenario_witness :
    ∃ c1 c2,
      (Socket.new (js "http://h") ⟨none, none⟩).transportOpens.onMessage
        (.text (js "0\x7b\"sid\":\"abc\",\"pingInterval\":20,\"pingTimeout\":5\x7d")) = .ok c1 ∧
      c1.connected = false ∧
      c1.onMessage (.text (js "40\x7b\"sid\":\"abc\"\x7d")) = .ok c2 ∧
      c2.connected = true ∧ c2.id = some (.str (js "abc")) ∧
      c2.emitted = [(js "connect", [])] := by
  obtain ⟨c1, w1, c2, w2, h1, _, _, h2, _, h3, h4, h5, h6, _⟩ :=
    C5_handshake_scenario (js "http://h") ⟨none, none⟩
      (js "\x7b\"sid\":\"abc\",\"pingInterval\":20,\"pingTimeout\":5\x7d")
      (.obj [(js "sid", .str (js "abc")), (js "pingInterval", .num (.ofInt 20)),
        (js "pingTimeout", .num (.ofInt 5))])
      (.ofInt 20) (.ofInt 5) (js "\x7b\"sid\":\"abc\"\x7d") (.obj [(js "sid", .str (js "abc"))])
      (js "abc") rfl rfl rfl rfl rfl
  exact ⟨c1, c2, h1, h2, h3, h4, h5, h6⟩

/-- A connected socket and a socket that is not connected, to apply C6 to. -/
theorem C6_close_routine_emits_one_event_witness :
    ((Socket.new (js "http://h") ⟨none, none⟩).onClose (js "transport close")).emitted =
      [(js "connect_error", [Json.str (js "transport close")])] ∧
    (∀ t ∈ ((Socket.new (js "http://h") ⟨none, none⟩).onClose (js "transport close")).timers,
      t.action ≠ TimerAction.pingTimeout) :=
  ⟨((C6_close_routine_emits_one_event (Socket.new (js "http://h") ⟨none, none⟩)
      (js "transport close")).2.1 rfl).2.2,
   (C6_close_routine_emits_one_event (Socket.new (js "http://h") ⟨none, none⟩)
      (js "transport close")).2.2 _ _ Reachable.init⟩

/-- The new socket of the caller, to apply C8 to. -/
theorem C8_disconnect_witness :
    (Socket.new (js "http://h") ⟨none, none⟩).disconnect.shouldReconnect = false ∧
    (Socket.new (js "http://h") ⟨none, none⟩).disconnect.timers = [] :=
  ⟨(C8_disconnect (js "http://h") ⟨none, none⟩ _ Reachable.init).1,
   (C8_disconnect (js "http://h") ⟨none, none⟩ _ Reachable.init).2.2.2.2.1⟩

/-! ## The round trip of JSON and of the codec -/

/-- The digits are the code units from 48 to 57. -/
theorem isDigit_iff (c : Nat) : isDigit c = true ↔ 48 ≤ c ∧ c ≤ 57 := by
  simp [isDigit]

/-- The digits of a number below ten. -/
theorem decimalDigits_lt {n : Nat} (h : n < 10) : decimalDigits n = [48 + n] := by
  simp [decimalDigits, digitsAux, h]

/-- The accumulator of `digitsAux` stays behind the digits. -/
theorem digitsAux_append : ∀ (fuel n : Nat) (acc : List Nat),
    digitsAux fuel n acc = digitsAux fuel n [] ++ acc := by
  intro fuel
  induction fuel with
  | zero => intro n acc; simp [digitsAux]
  | succ f ih =>
    intro n acc
    simp only [digitsAux]
    split
    · simp
    · rw [ih (n / 10) ((48 + n % 10) :: acc), ih (n / 10) [48 + n % 10]]
      simp

/-- With enough fuel the digits do not depend on the fuel. -/
theorem digitsAux_fuel : ∀ (f g n : Nat), n < f → n < g →
    digitsAux f n [] = digitsAux g n [] := by
  intro f
  induction f with
  | zero => intro g n h; omega
  | succ f ih =>
    intro g n h hg
    cases g with
    | zero => omega
    | succ g =>
      simp only [digitsAux]
      split
      · rfl
      · rw [digitsAux_append f, digitsAux_append g, ih g (n / 10) (by omega) (by omega)]

/-- The digits of a number from ten on. -/
theorem decimalDigits_ge {n : Nat} (h : 10 ≤ n) :
    decimalDigits n = decimalDigits (n / 10) ++ [48 + n % 10] := by
  have h2 : n / 10 < n := by omega
  unfold decimalDigits
  rw [digitsAux, if_neg (by omega), digitsAux_append,
    digitsAux_fuel n (n / 10 + 1) (n / 10) h2 (by omega)]

/-- Every code unit of a decimal representation is a digit. -/
theorem decimalDigits_isDigit (n : Nat) : ∀ c ∈ decimalDigits n, isDigit c = true := by
  induction n using Nat.strong_induction_on with
  | _ n ih =>
    by_cases h : n < 10
    · rw [decimalDigits_lt h]; intro c hc; simp at hc; subst hc; simp [isDigit]; omega
    · rw [decimalDigits_ge (by omega)]
      intro c hc
      simp only [List.mem_append, List.mem_singleton] at hc
      rcases hc with hc | hc
      · exact ih (n / 10) (by omega) c hc
      · subst hc; simp [isDigit]; omega

/-- The number of a concatenation of digits, as a fold. -/
theorem ofDigits_append (a b : List Nat) :
    ofDigits (a ++ b) = b.foldl (fun acc c => acc * 10 + (c - 48)) (ofDigits a) := by
  simp [ofDigits, List.foldl_append]

/-- One more digit at the end. -/
theorem ofDigits_snoc (a : List Nat) (c : Nat) : ofDigits (a ++ [c]) = ofDigits a * 10 + (c - 48) := by
  simp [ofDigits_append]

/-- A decimal representation denotes its number. -/
theorem ofDigits_decimalDigits (n : Nat) : ofDigits (decimalDigits n) = n := by
  induction n using Nat.strong_induction_on with
  | _ n ih =>
    by_cases h : n < 10
    · rw [decimalDigits_lt h]; simp [ofDigits]
    · rw [decimalDigits_ge (by omega), ofDigits_snoc, ih (n / 10) (by omega)]
      omega

/-- A decimal representation is not empty. -/
theorem decimalDigits_ne_nil (n : Nat) : decimalDigits n ≠ [] := by
  by_cases h : n < 10
  · rw [decimalDigits_lt h]; simp
  · rw [decimalDigits_ge (by omega)]; simp

/-- The representation of a positive number does not start with a zero. -/
theorem decimalDigits_head (n : Nat) (hn : 0 < n) :
    ∃ c r, decimalDigits n = c :: r ∧ 49 ≤ c ∧ c ≤ 57 := by
  induction n using Nat.strong_induction_on with
  | _ n ih =>
    by_cases h : n < 10
    · rw [decimalDigits_lt h]; exact ⟨48 + n, [], rfl, by omega, by omega⟩
    · rw [decimalDigits_ge (by omega)]
      obtain ⟨c, r, hc, h1, h2⟩ := ih (n / 10) (by omega) (by omega)
      exact ⟨c, r ++ [48 + n % 10], by simp [hc], h1, h2⟩

/-- The last digit of a representation. -/
theorem decimalDigits_getLast (n : Nat) :
    ∃ r, decimalDigits n = r ++ [48 + n % 10] := by
  by_cases h : n < 10
  · rw [decimalDigits_lt h]; exact ⟨[], by simp; omega⟩
  · rw [decimalDigits_ge (by omega)]; exact ⟨_, rfl⟩

/-- What follows a value is neither a digit, nor a point, an exponent or a sign. -/
theorem Terminated.not_digit {rest : List Nat} (h : Terminated rest) :
    ∀ c r, rest = c :: r → isDigit c = false ∧ c ≠ 46 ∧ c ≠ 101 ∧ c ≠ 69 ∧ c ≠ 45 := by
  intro c r hr
  subst hr
  simp only [Terminated] at h
  rcases h with h | h | h <;> subst h <;> decide

/-- The digits at the front of the input are taken, up to a code unit that is no digit. -/
theorem takeDigits_append (ds rest : List Nat) (hd : ∀ c ∈ ds, isDigit c = true)
    (hr : ∀ c r, rest = c :: r → isDigit c = false) : takeDigits (ds ++ rest) = (ds, rest) := by
  induction ds with
  | nil =>
    cases rest with
    | nil => rfl
    | cons c r => simp [takeDigits, hr c r rfl]
  | cons d ds ih =>
    have h1 := hd d (by simp)
    have h2 := ih (fun c hc => hd c (by simp [hc]))
    simp [takeDigits, h1, h2]

/-- The number of a concatenation of digits. -/
theorem ofDigits_append_pow (a b : List Nat) :
    ofDigits (a ++ b) = ofDigits a * 10 ^ b.length + ofDigits b := by
  induction b using List.reverseRecOn with
  | nil => simp [ofDigits]
  | append_singleton b c ih =>
    rw [← List.append_assoc, ofDigits_snoc, ih, ofDigits_snoc]
    simp [pow_succ]
    ring

/-- Zeros denote zero. -/
theorem ofDigits_replicate_zero (z : Nat) : ofDigits (List.replicate z 48) = 0 := by
  induction z with
  | zero => rfl
  | succ z ih => rw [List.replicate_succ', ofDigits_snoc, ih]

/-- Zeros in front do not change the number. -/
theorem ofDigits_zeros_append (z : Nat) (d : List Nat) :
    ofDigits (List.replicate z 48 ++ d) = ofDigits d := by
  rw [ofDigits_append_pow, ofDigits_replicate_zero]; simp

/-- Zeros at the end multiply by a power of ten. -/
theorem ofDigits_append_zeros (s : List Nat) (z : Nat) :
    ofDigits (s ++ List.replicate z 48) = ofDigits s * 10 ^ z := by
  rw [ofDigits_append_pow, ofDigits_replicate_zero]; simp

/-- A list of digits is its significant digits followed by zeros. -/
theorem stripZeros_append (d : List Nat) :
    stripZeros d ++ List.replicate (d.length - (stripZeros d).length) 48 = d := by
  unfold stripZeros
  induction d using List.reverseRecOn with
  | nil => simp
  | append_singleton d c ih =>
    simp only [List.reverse_append, List.reverse_cons, List.reverse_nil, List.nil_append,
      List.singleton_append, List.dropWhile_cons]
    by_cases hc : c = 48
    · subst hc
      simp only [beq_self_eq_true, if_true, List.length_append, List.length_singleton]
      have hle : (List.dropWhile (fun x => x == 48) d.reverse).reverse.length ≤ d.length := by
        rw [List.length_reverse]
        exact ((List.dropWhile_sublist _).length_le).trans (by simp)
      rw [Nat.sub_add_comm hle, List.replicate_succ', ← List.append_assoc, ih]
    · simp [hc]

/-- The significant digits of a list that does not end in a zero are the list. -/
theorem stripZeros_of_last (d : List Nat) (c : Nat) (hc : c ≠ 48) :
    stripZeros (d ++ [c]) = d ++ [c] := by
  simp [stripZeros, hc]

/-- The significant digits are digits of the list. -/
theorem stripZeros_subset (d : List Nat) : ∀ c ∈ stripZeros d, c ∈ d := by
  intro c hc
  have := stripZeros_append d
  rw [← this]; simp [hc]

/-- The significant digits keep the first digit when it is not a zero. -/
theorem stripZeros_head (c : Nat) (r : List Nat) (hc : c ≠ 48) :
    ∃ r1, stripZeros (c :: r) = c :: r1 := by
  have h := stripZeros_append (c :: r)
  cases hs : stripZeros (c :: r) with
  | nil =>
    rw [hs] at h
    simp at h
    have : c ∈ List.replicate (r.length + 1) 48 := by rw [h]; simp
    simp at this
    exact absurd this hc
  | cons x r1 =>
    rw [hs] at h
    simp at h
    exact ⟨r1, by rw [h.1]⟩

/-- No fraction where no point stands. -/
theorem parseFraction_none (s : List Nat) (h : ∀ c r, s = c :: r → c ≠ 46) :
    parseFraction s = some ([], s) := by
  unfold parseFraction
  split
  · exact absurd rfl (h 46 _ rfl)
  · rfl

/-- The fraction after a point. -/
theorem parseFraction_some (f rest : List Nat) (hf : f ≠ []) (hd : ∀ c ∈ f, isDigit c = true)
    (hr : ∀ c r, rest = c :: r → isDigit c = false) :
    parseFraction (46 :: (f ++ rest)) = some (f, rest) := by
  simp [parseFraction, takeDigits_append f rest hd hr, hf]

/-- No exponent where no `e` stands. -/
theorem parseExponent_none (s : List Nat) (h : ∀ c r, s = c :: r → c ≠ 101 ∧ c ≠ 69) :
    parseExponent s = some (0, s) := by
  cases s with
  | nil => rfl
  | cons c r => simp [parseExponent, h c r rfl]

/-- The parser reads an exponent back. -/
theorem parseExponent_exponentPart (x : Int) (rest : List Nat) (h : Terminated rest) :
    parseExponent (exponentPart x ++ rest) = some (x, rest) := by
  have hr : ∀ c r, rest = c :: r → isDigit c = false := fun c r e => (h.not_digit c r e).1
  have ht := takeDigits_append (decimalDigits x.natAbs) rest (decimalDigits_isDigit _) hr
  have hne := decimalDigits_ne_nil x.natAbs
  by_cases hx : x < 0
  · simp [exponentPart, parseExponent, hx, ht, hne, ofDigits_decimalDigits]
    rw [abs_of_neg hx]; omega
  · obtain ⟨c, r, hc, h1, h2⟩ : ∃ c r, decimalDigits x.natAbs = c :: r ∧ 48 ≤ c ∧ c ≤ 57 := by
      cases hd : decimalDigits x.natAbs with
      | nil => exact absurd hd hne
      | cons c r =>
        have := decimalDigits_isDigit x.natAbs c (by simp [hd])
        simp [isDigit] at this
        exact ⟨c, r, rfl, this.1, this.2⟩
    simp only [exponentPart, hx, if_false, parseExponent, List.cons_append]
    simp only [true_or, if_true, ht, hne, if_false, ofDigits_decimalDigits]
    congr 2
    omega


/-- The parser reads back the digits, the decimal point and the exponent that
`formatDecimal` writes. -/
theorem parseUnsigned_formatDecimal (c : Nat) (r : List Nat) (n : Int) (rest : List Nat)
    (hc1 : 49 ≤ c) (hd : ∀ x ∈ c :: r, isDigit x = true) (h : Terminated rest) :
    parseUnsigned (formatDecimal (c :: r) n ++ rest) =
      some (if ((c :: r).length : Int) ≤ n ∧ n ≤ 21
          then (ofDigits (c :: r) * 10 ^ (n - ((c :: r).length : Int)).toNat, 0, rest)
          else (ofDigits (c :: r), n - ((c :: r).length : Int), rest)) := by
  have hr : ∀ x y, rest = x :: y → isDigit x = false := fun x y e => (h.not_digit x y e).1
  have hr46 : ∀ x y, rest = x :: y → x ≠ 46 := fun x y e => (h.not_digit x y e).2.1
  have hre : ∀ x y, rest = x :: y → x ≠ 101 ∧ x ≠ 69 :=
    fun x y e => ⟨(h.not_digit x y e).2.2.1, (h.not_digit x y e).2.2.2.1⟩
  have hc48 : c ≠ 48 := by omega
  have hcd : isDigit c = true := hd c (by simp)
  unfold formatDecimal
  simp only
  split_ifs with h1 h2 h3 h4
  · -- digits followed by zeros
    have hds : ∀ x ∈ (c :: r) ++ List.replicate (n - ((c :: r).length : Int)).toNat 48,
        isDigit x = true := by
      intro x hx
      rcases List.mem_append.mp hx with hx | hx
      · exact hd x hx
      · rw [(List.mem_replicate.mp hx).2]; rfl
    unfold parseUnsigned
    rw [takeDigits_append _ rest hds hr]
    simp only [List.cons_append, List.head?_cons, List.length_cons]
    rw [if_neg (by simp), if_neg (by simp [hc48])]
    rw [parseFraction_none rest hr46]
    simp only
    rw [parseExponent_none rest hre]
    simp only [List.append_nil, List.length_nil, Int.ofNat_zero, Nat.cast_zero, sub_zero,
      Option.some.injEq, Prod.mk.injEq, and_true]
    rw [← List.cons_append, ofDigits_append_zeros]
  · -- a decimal point inside the digits
    have hn : n.toNat < (c :: r).length := by
      have : ¬ ((c :: r).length : Int) ≤ n := fun hh => h1 ⟨hh, h2.2⟩
      omega
    have hpos : 0 < n.toNat := by omega
    obtain ⟨m, hm⟩ : ∃ m, n.toNat = m + 1 := ⟨n.toNat - 1, by omega⟩
    have htake : ∀ x ∈ (c :: r).take n.toNat, isDigit x = true :=
      fun x hx => hd x (List.mem_of_mem_take hx)
    have hdrop : ∀ x ∈ (c :: r).drop n.toNat, isDigit x = true :=
      fun x hx => hd x (List.mem_of_mem_drop hx)
    have hdne : (c :: r).drop n.toNat ≠ [] := by
      intro hh
      have := congrArg List.length hh
      simp only [List.length_drop, List.length_nil] at this
      omega
    unfold parseUnsigned
    rw [List.append_assoc, takeDigits_append _ _ htake (by intro x y e; simp at e; rw [← e.1]; rfl)]
    simp only
    rw [if_neg (by rw [hm]; simp), if_neg (by rw [hm]; simp [hc48])]
    rw [List.cons_append, parseFraction_some _ rest hdne hdrop hr]
    simp only
    rw [parseExponent_none rest hre]
    simp only [List.take_append_drop, List.length_drop, Option.some.injEq, Prod.mk.injEq,
      true_and, and_true]
    omega
  · -- zeros in front of the digits
    have hds : ∀ x ∈ List.replicate (-n).toNat 48 ++ (c :: r), isDigit x = true := by
      intro x hx
      rcases List.mem_append.mp hx with hx | hx
      · rw [(List.mem_replicate.mp hx).2]; rfl
      · exact hd x hx
    unfold parseUnsigned
    have ht : takeDigits (48 :: 46 :: (List.replicate (-n).toNat 48 ++ c :: r) ++ rest) =
        ([48], 46 :: ((List.replicate (-n).toNat 48 ++ c :: r) ++ rest)) := by
      simp [takeDigits, isDigit]
    rw [ht]
    simp only
    rw [if_neg (by simp), if_neg (by simp)]
    rw [parseFraction_some _ rest (by simp) hds hr]
    simp only
    rw [parseExponent_none rest hre]
    simp only [Option.some.injEq, Prod.mk.injEq, true_and, and_true]
    constructor
    · rw [show [48] ++ (List.replicate (-n).toNat 48 ++ c :: r) =
        List.replicate ((-n).toNat + 1) 48 ++ c :: r from by simp [List.replicate_succ]]
      exact ofDigits_zeros_append _ _
    · simp only [List.length_append, List.length_replicate, List.length_cons]
      push_cast
      omega
  · -- one digit and an exponent
    have hrn : r = [] := by simpa using h4
    subst hrn
    unfold parseUnsigned
    have ht : takeDigits ([c] ++ exponentPart (n - 1) ++ rest) =
        ([c], exponentPart (n - 1) ++ rest) := by
      rw [List.append_assoc]
      exact takeDigits_append [c] _ (by simpa using hcd) (by intro x y e; simp [exponentPart] at e; rw [← e.1]; rfl)
    rw [ht]
    simp only
    rw [if_neg (by simp), if_neg (by simp)]
    rw [parseFraction_none _ (by intro x y e; simp [exponentPart] at e; omega)]
    simp only
    rw [parseExponent_exponentPart _ rest h]
    simp
  · -- a digit, a decimal point, digits and an exponent
    have hrne : r ≠ [] := by simpa using h4
    have hdr : ∀ x ∈ r, isDigit x = true := fun x hx => hd x (by simp [hx])
    unfold parseUnsigned
    have ht : takeDigits (List.take 1 (c :: r) ++ 46 :: (List.drop 1 (c :: r) ++
        exponentPart (n - 1)) ++ rest) =
        ([c], 46 :: (r ++ (exponentPart (n - 1) ++ rest))) := by
      simp [takeDigits, isDigit] at hcd ⊢
      simp [takeDigits, isDigit, hcd]
    rw [ht]
    simp only
    rw [if_neg (by simp), if_neg (by simp)]
    rw [parseFraction_some r _ hrne hdr (by intro x y e; simp [exponentPart] at e; rw [← e.1]; rfl)]
    simp only
    rw [parseExponent_exponentPart _ rest h]
    simp only [List.singleton_append, Option.some.injEq, Prod.mk.injEq, true_and, and_true,
      List.length_cons]
    push_cast
    omega

/-- Two numbers with the same numerator and scale are equal. -/
theorem JsNumber.eq_of {x y : JsNumber} (h1 : x.num = y.num) (h2 : x.scale = y.scale) : x = y := by
  cases x; cases y; simp at h1 h2; subst h1; subst h2; rfl

/-- A number is its own normal form. -/
theorem JsNumber.normalize_self (x : JsNumber) : JsNumber.normalize x.num x.scale = x := by
  obtain ⟨num, scale, normal⟩ := x
  cases scale with
  | zero => rfl
  | succ s =>
    have h : ¬ num % 10 = 0 := by simpa using normal
    simp [JsNumber.normalize, h]

/-- The significant digits of a representation, and the number they denote. -/
theorem stripZeros_decimalDigits (N : Nat) (hN : 0 < N) :
    ∃ c r, stripZeros (decimalDigits N) = c :: r ∧ 49 ≤ c ∧
      (∀ x ∈ c :: r, isDigit x = true) ∧
      (c :: r).length ≤ (decimalDigits N).length ∧
      ofDigits (c :: r) * 10 ^ ((decimalDigits N).length - (c :: r).length) = N ∧
      (N % 10 ≠ 0 → c :: r = decimalDigits N) := by
  obtain ⟨c, r0, hd, h1, h2⟩ := decimalDigits_head N hN
  obtain ⟨r, hr⟩ := stripZeros_head c r0 (by omega)
  have happ := stripZeros_append (decimalDigits N)
  rw [hd, hr] at happ
  refine ⟨c, r, by rw [hd, hr], h1, ?_, ?_, ?_, ?_⟩
  · intro x hx
    apply decimalDigits_isDigit N
    rw [hd, ← happ]
    exact List.mem_append_left _ hx
  · have := congrArg List.length happ
    rw [hd]; simp only [List.length_append] at this; omega
  · rw [hd, ← ofDigits_append_zeros, happ, ← hd, ofDigits_decimalDigits]
  · intro hmod
    obtain ⟨q, hq⟩ := decimalDigits_getLast N
    rw [← hr, ← hd, hq]
    exact stripZeros_of_last q _ (by omega)

/-- The text of a positive number starts with a digit. -/
theorem formatDecimal_head (c : Nat) (r : List Nat) (n : Int) (hc : 49 ≤ c) :
    ∃ x t, formatDecimal (c :: r) n = x :: t ∧ 48 ≤ x := by
  unfold formatDecimal
  simp only
  split_ifs with h1 h2 h3 h4
  · exact ⟨c, _, rfl, by omega⟩
  · have : 0 < n.toNat := by omega
    obtain ⟨m, hm⟩ : ∃ m, n.toNat = m + 1 := ⟨n.toNat - 1, by omega⟩
    rw [hm]; exact ⟨c, _, rfl, by omega⟩
  · exact ⟨48, _, rfl, by omega⟩
  · exact ⟨c, _, rfl, by omega⟩
  · exact ⟨c, _, rfl, by omega⟩

/-- The parser on a text without a sign. -/
theorem parseNumber_of_head (x : Nat) (t : List Nat) (hx : x ≠ 45) :
    parseNumber (x :: t) =
      match parseUnsigned (x :: t) with
      | some (m, e, r1) => some (JsNumber.ofDecimal (m : Int) e, r1)
      | none => none := by
  unfold parseNumber
  split
  · rename_i heq; simp at heq; exact absurd heq.1.symm (by omega)
  · rfl

/-- The parser on a text with a sign. -/
theorem parseNumber_neg (t : List Nat) :
    parseNumber (45 :: t) =
      match parseUnsigned t with
      | some (m, e, r1) => some (JsNumber.ofDecimal (-(m : Int)) e, r1)
      | none => none := rfl

/-- The number denoted by the significant digits `M` (`k` of them) of a
representation of `L` digits, when they stand in front. -/
theorem JsNumber.ofDecimal_int (x : JsNumber) (σ : Int) (N M L k : Nat) (hk : k ≤ L)
    (hσ : σ * (N : Int) = x.num) (hval : M * 10 ^ (L - k) = N) (hsc : x.scale = 0) :
    JsNumber.ofDecimal (σ * ((M * 10 ^ ((L : Int) - (x.scale : Int) - (k : Int)).toNat : Nat) : Int)) 0
      = x ∧
    JsNumber.ofDecimal (σ * (M : Int)) ((L : Int) - (x.scale : Int) - (k : Int)) = x := by
  have hz : ((L : Int) - (x.scale : Int) - (k : Int)).toNat = L - k := by rw [hsc]; omega
  have hge : (0 : Int) ≤ (L : Int) - (x.scale : Int) - (k : Int) := by rw [hsc]; omega
  constructor
  · apply JsNumber.eq_of
    · simp only [JsNumber.ofDecimal, le_refl, if_true, JsNumber.ofInt, Int.toNat_zero,
        pow_zero, mul_one]
      rw [hz, hval, hσ]
    · simp [JsNumber.ofDecimal, JsNumber.ofInt, hsc]
  · apply JsNumber.eq_of
    · simp only [JsNumber.ofDecimal, hge, if_true, JsNumber.ofInt]
      rw [hz, ← hσ, ← hval, mul_assoc]
      push_cast
      rfl
    · rw [JsNumber.ofDecimal, if_pos hge]; simp [JsNumber.ofInt, hsc]

/-- The number denoted by all the digits of a representation and a negative exponent. -/
theorem JsNumber.ofDecimal_frac (x : JsNumber) (σ : Int) (N L : Nat)
    (hσ : σ * (N : Int) = x.num) (hsc : x.scale ≠ 0) :
    JsNumber.ofDecimal (σ * (N : Int)) ((L : Int) - (x.scale : Int) - (L : Int)) = x := by
  have hneg : ¬ (0 : Int) ≤ (L : Int) - (x.scale : Int) - (L : Int) := by omega
  have hto : (-((L : Int) - (x.scale : Int) - (L : Int))).toNat = x.scale := by omega
  simp only [JsNumber.ofDecimal, hneg, if_false, hto, hσ]
  exact JsNumber.normalize_self x

/-- The parser reads a number back from its string. -/
theorem parseNumber_toString (x : JsNumber) (rest : List Nat) (h : Terminated rest) :
    parseNumber (x.toString ++ rest) = some (x, rest) := by
  by_cases h0 : x.num = 0
  · obtain ⟨num, scale, normal⟩ := x
    simp only at h0
    subst h0
    have hs : scale = 0 := by simpa using normal
    subst hs
    have hr : ∀ c r, rest = c :: r → isDigit c = false := fun c r e => (h.not_digit c r e).1
    have ht : takeDigits (48 :: rest) = ([48], rest) :=
      takeDigits_append [48] rest (by simp [isDigit]) hr
    simp only [JsNumber.toString, if_true, List.singleton_append]
    rw [parseNumber_of_head 48 rest (by decide)]
    unfold parseUnsigned
    rw [ht]
    simp only
    rw [if_neg (by simp), if_neg (by simp),
      parseFraction_none rest (fun c r e => (h.not_digit c r e).2.1)]
    simp only
    rw [parseExponent_none rest (fun c r e => ⟨(h.not_digit c r e).2.2.1, (h.not_digit c r e).2.2.2.1⟩)]
    simp only [List.append_nil, List.length_nil, Nat.cast_zero, sub_zero, Option.some.injEq,
      Prod.mk.injEq, and_true]
    apply JsNumber.eq_of <;> simp [JsNumber.ofDecimal, JsNumber.ofInt, ofDigits]
  · have hN : 0 < x.num.natAbs := Int.natAbs_pos.mpr h0
    obtain ⟨c, r, hS, hc, hdig, hlen, hval, hself⟩ := stripZeros_decimalDigits x.num.natAbs hN
    have hpu := parseUnsigned_formatDecimal c r
      (((decimalDigits x.num.natAbs).length : Int) - (x.scale : Int)) rest hc hdig h
    -- the value read back, for the sign `σ`
    have hvalue : ∀ σ : Int, σ * (x.num.natAbs : Int) = x.num →
        (((c :: r).length : Int) ≤ ((decimalDigits x.num.natAbs).length : Int) - (x.scale : Int) ∧
            ((decimalDigits x.num.natAbs).length : Int) - (x.scale : Int) ≤ 21 →
          JsNumber.ofDecimal (σ * ((ofDigits (c :: r) * 10 ^
            (((decimalDigits x.num.natAbs).length : Int) - (x.scale : Int) -
              ((c :: r).length : Int)).toNat : Nat) : Int)) 0 = x) ∧
        (¬ (((c :: r).length : Int) ≤ ((decimalDigits x.num.natAbs).length : Int) - (x.scale : Int) ∧
            ((decimalDigits x.num.natAbs).length : Int) - (x.scale : Int) ≤ 21) →
          JsNumber.ofDecimal (σ * (ofDigits (c :: r) : Int))
            (((decimalDigits x.num.natAbs).length : Int) - (x.scale : Int) -
              ((c :: r).length : Int)) = x) := by
      intro σ hσ
      by_cases hsc : x.scale = 0
      · have := JsNumber.ofDecimal_int x σ _ _ _ _ hlen hσ hval hsc
        exact ⟨fun _ => this.1, fun _ => this.2⟩
      · have hmod : x.num % 10 ≠ 0 := by
          rcases x.normal with h1 | h1
          · exact absurd h1 hsc
          · exact h1
        have hmodN : x.num.natAbs % 10 ≠ 0 := by omega
        have hSd := hself hmodN
        have hpos : 0 < x.scale := Nat.pos_of_ne_zero hsc
        have hN2 : ofDigits (c :: r) = x.num.natAbs := by
          rw [hSd, ofDigits_decimalDigits]
        constructor
        · intro hcond
          rw [hSd] at hcond
          omega
        · intro _
          rw [hN2, hSd]
          exact JsNumber.ofDecimal_frac x σ _ _ hσ hsc
    unfold JsNumber.toString
    rw [if_neg h0]
    simp only
    rw [hS]
    by_cases hneg : x.num < 0
    · rw [if_pos hneg, List.singleton_append, List.cons_append, parseNumber_neg, hpu]
      have hv := hvalue (-1) (by omega)
      simp only [neg_mul, one_mul] at hv
      split_ifs with hcond
      · simp only [Option.some.injEq, Prod.mk.injEq, and_true]
        exact hv.1 hcond
      · simp only [Option.some.injEq, Prod.mk.injEq, and_true]
        exact hv.2 hcond
    · rw [if_neg hneg, List.nil_append]
      obtain ⟨y, t, hy, hy48⟩ := formatDecimal_head c r
        (((decimalDigits x.num.natAbs).length : Int) - (x.scale : Int)) hc
      have hpn : parseNumber (formatDecimal (c :: r)
          (((decimalDigits x.num.natAbs).length : Int) - (x.scale : Int)) ++ rest) =
          match parseUnsigned (formatDecimal (c :: r)
            (((decimalDigits x.num.natAbs).length : Int) - (x.scale : Int)) ++ rest) with
          | some (m, e, r1) => some (JsNumber.ofDecimal (m : Int) e, r1)
          | none => none := by
        rw [hy]; exact parseNumber_of_head y _ (by omega)
      rw [hpn, hpu]
      have hv := hvalue 1 (by omega)
      simp only [one_mul] at hv
      split_ifs with hcond
      · simp only [Option.some.injEq, Prod.mk.injEq, and_true]
        exact hv.1 hcond
      · simp only [Option.some.injEq, Prod.mk.injEq, and_true]
        exact hv.2 hcond

/-- The parser reads a hexadecimal digit back. -/
theorem hexVal_hexDigit (n : Nat) (h : n < 16) : hexVal (hexDigit n) = some n := by
  interval_cases n <;> rfl

/-- The closing quote ends a string. -/
theorem parseString_end (rest : List Nat) : parseString (34 :: rest) = some ([], rest) := by
  rw [parseString.eq_def]; simp

/-- The parser reads a one-letter escape back. -/
theorem parseString_escape (e u : Nat) (he : e ≠ 117) (hu : unescape e = some u) (t : List Nat) :
    parseString (92 :: e :: t) = (parseString t).map (fun p => (u :: p.1, p.2)) := by
  rw [parseString.eq_def]; simp [he, hu]

/-- The parser reads an escape `\uXXXX` back. -/
theorem parseString_unicodeEscape (c : Nat) (hc : c < 65536) (t : List Nat) :
    parseString (unicodeEscape c ++ t) = (parseString t).map (fun p => (c :: p.1, p.2)) := by
  have h3 := hexVal_hexDigit (c / 4096 % 16) (Nat.mod_lt _ (by decide))
  have h2 := hexVal_hexDigit (c / 256 % 16) (Nat.mod_lt _ (by decide))
  have h1 := hexVal_hexDigit (c / 16 % 16) (Nat.mod_lt _ (by decide))
  have h0 := hexVal_hexDigit (c % 16) (Nat.mod_lt _ (by decide))
  have hv : c / 4096 % 16 * 4096 + c / 256 % 16 * 256 + c / 16 % 16 * 16 + c % 16 = c := by
    omega
  rw [parseString.eq_def]
  simp [unicodeEscape, h3, h2, h1, h0, hv]

/-- The parser reads a code unit back that stands for itself. -/
theorem parseString_raw (c : Nat) (h1 : c ≠ 34) (h2 : c ≠ 92) (h3 : ¬ c < 32) (t : List Nat) :
    parseString (c :: t) = (parseString t).map (fun p => (c :: p.1, p.2)) := by
  rw [parseString.eq_def]; simp [h1, h2, h3]

/-- The parser reads a string back from its JSON text. -/
theorem parseString_quoteChars (s : JsString) :
    ∀ (paired : Bool) (rest : List Nat),
      parseString (quoteChars paired s ++ 34 :: rest) = some (s, rest) := by
  induction s with
  | nil => intro paired rest; rw [quoteChars, List.nil_append, parseString_end]
  | cons c r ih =>
    intro paired rest
    rw [quoteChars]
    by_cases h8 : c = 8
    · rw [if_pos h8]; subst h8
      rw [List.cons_append, List.cons_append, parseString_escape 98 8 (by decide) rfl, ih]; rfl
    rw [if_neg h8]
    by_cases h9 : c = 9
    · rw [if_pos h9]; subst h9
      rw [List.cons_append, List.cons_append, parseString_escape 116 9 (by decide) rfl, ih]; rfl
    rw [if_neg h9]
    by_cases h10 : c = 10
    · rw [if_pos h10]; subst h10
      rw [List.cons_append, List.cons_append, parseString_escape 110 10 (by decide) rfl, ih]; rfl
    rw [if_neg h10]
    by_cases h12 : c = 12
    · rw [if_pos h12]; subst h12
      rw [List.cons_append, List.cons_append, parseString_escape 102 12 (by decide) rfl, ih]; rfl
    rw [if_neg h12]
    by_cases h13 : c = 13
    · rw [if_pos h13]; subst h13
      rw [List.cons_append, List.cons_append, parseString_escape 114 13 (by decide) rfl, ih]; rfl
    rw [if_neg h13]
    by_cases h34 : c = 34
    · rw [if_pos h34]; subst h34
      rw [List.cons_append, List.cons_append, parseString_escape 34 34 (by decide) rfl, ih]; rfl
    rw [if_neg h34]
    by_cases h92 : c = 92
    · rw [if_pos h92]; subst h92
      rw [List.cons_append, List.cons_append, parseString_escape 92 92 (by decide) rfl, ih]; rfl
    rw [if_neg h92]
    by_cases h32 : c < 32
    · rw [if_pos h32, List.append_assoc, parseString_unicodeEscape c (by omega), ih]; rfl
    rw [if_neg h32]
    by_cases hl : isLead c = true
    · rw [if_pos hl]
      have hlt : c < 65536 := by
        simp only [isLead, Bool.and_eq_true, decide_eq_true_eq] at hl; omega
      by_cases ht : headIsTrail r = true
      · rw [if_pos ht, List.cons_append, parseString_raw c h34 h92 h32, ih]; rfl
      · rw [if_neg ht, List.append_assoc, parseString_unicodeEscape c hlt, ih]; rfl
    rw [if_neg hl]
    by_cases htr : isTrail c = true
    · rw [if_pos htr]
      have hlt : c < 65536 := by
        simp only [isTrail, Bool.and_eq_true, decide_eq_true_eq] at htr; omega
      by_cases hp : paired = true
      · rw [if_pos hp, List.cons_append, parseString_raw c h34 h92 h32, ih]; rfl
      · rw [if_neg hp, List.append_assoc, parseString_unicodeEscape c hlt, ih]; rfl
    rw [if_neg htr, List.cons_append, parseString_raw c h34 h92 h32, ih]; rfl

/-- The parser reads a quoted string back. -/
theorem parseString_quote (s : JsString) (rest : List Nat) :
    ∃ t, quote s ++ rest = 34 :: t ∧ parseString t = some (s, rest) :=
  ⟨quoteChars false s ++ 34 :: rest, by simp [quote], parseString_quoteChars s false rest⟩

/-- Nothing is skipped in front of a code unit that is no white space. -/
theorem skipWs_cons (c : Nat) (t : List Nat) (h : isWs c = false) : skipWs (c :: t) = c :: t := by
  simp [skipWs, h]

/-- The parser on a quote. -/
theorem parseValue_str (f : Nat) (t : List Nat) :
    parseValue (f + 1) (34 :: t) = (parseString t).map (fun p => (Json.str p.1, p.2)) := by
  rw [parseValue]; simp

/-- The parser on the empty array. -/
theorem parseValue_arr_nil (f : Nat) (t : List Nat) :
    parseValue (f + 1) (91 :: 93 :: t) = some (Json.arr [], t) := by
  rw [parseValue]; simp [skipWs, isWs]

/-- The parser on an opening bracket. -/
theorem parseValue_arr (f c : Nat) (t : List Nat) (h1 : isWs c = false) (h2 : c ≠ 93) :
    parseValue (f + 1) (91 :: c :: t) =
      (parseElements f (c :: t)).map (fun p => (Json.arr p.1, p.2)) := by
  rw [parseValue]; simp [skipWs_cons c t h1, h2]

/-- The parser on the empty object. -/
theorem parseValue_obj_nil (f : Nat) (t : List Nat) :
    parseValue (f + 1) (123 :: 125 :: t) = some (Json.obj [], t) := by
  rw [parseValue]; simp [skipWs, isWs]

/-- The parser on an opening brace. -/
theorem parseValue_obj (f c : Nat) (t : List Nat) (h1 : isWs c = false) (h2 : c ≠ 125) :
    parseValue (f + 1) (123 :: c :: t) =
      (parseMembers f (c :: t)).map (fun p => (Json.obj p.1, p.2)) := by
  rw [parseValue]; simp [skipWs_cons c t h1, h2]

/-- The parser on `null`. -/
theorem parseValue_null (f : Nat) (t : List Nat) :
    parseValue (f + 1) (110 :: 117 :: 108 :: 108 :: t) = some (Json.null, t) := by
  rw [parseValue]; simp [expect]

/-- The parser on `true`. -/
theorem parseValue_true (f : Nat) (t : List Nat) :
    parseValue (f + 1) (116 :: 114 :: 117 :: 101 :: t) = some (Json.bool true, t) := by
  rw [parseValue]; simp [expect]

/-- The parser on `false`. -/
theorem parseValue_false (f : Nat) (t : List Nat) :
    parseValue (f + 1) (102 :: 97 :: 108 :: 115 :: 101 :: t) = some (Json.bool false, t) := by
  rw [parseValue]; simp [expect]

/-- The parser on a sign or a digit. -/
theorem parseValue_num (f c : Nat) (t : List Nat) (h : c = 45 ∨ (48 ≤ c ∧ c ≤ 57)) :
    parseValue (f + 1) (c :: t) = (parseNumber (c :: t)).map (fun p => (Json.num p.1, p.2)) := by
  rw [parseValue]
  have h34 : c ≠ 34 := by omega
  have h91 : c ≠ 91 := by omega
  have h123 : c ≠ 123 := by omega
  have h110 : c ≠ 110 := by omega
  have h116 : c ≠ 116 := by omega
  have h102 : c ≠ 102 := by omega
  simp [h34, h91, h123, h110, h116, h102]

/-- The parser passes from an element to the next one at a comma. -/
theorem parseElements_comma (f : Nat) (s : List Nat) (v : Json) (c : Nat) (t : List Nat)
    (h : parseValue f s = some (v, 44 :: c :: t)) (hc : isWs c = false) :
    parseElements (f + 1) s = (parseElements f (c :: t)).map (fun p => (v :: p.1, p.2)) := by
  rw [parseElements, h]
  simp [skipWs_cons 44 _ (by decide), skipWs_cons c t hc]

/-- The parser ends an array at the closing bracket. -/
theorem parseElements_close (f : Nat) (s : List Nat) (v : Json) (t : List Nat)
    (h : parseValue f s = some (v, 93 :: t)) :
    parseElements (f + 1) s = some ([v], t) := by
  rw [parseElements, h]
  simp [skipWs_cons 93 _ (by decide)]

/-- The parser passes from a member to the next one at a comma. -/
theorem parseMembers_comma (f : Nat) (s : List Nat) (k : JsString) (c : Nat) (r : List Nat)
    (v : Json) (d : Nat) (t : List Nat)
    (hk : parseString s = some (k, 58 :: c :: r)) (hc : isWs c = false)
    (hv : parseValue f (c :: r) = some (v, 44 :: d :: t)) (hd : isWs d = false) :
    parseMembers (f + 1) (34 :: s) =
      (parseMembers f (d :: t)).map (fun p => ((k, v) :: p.1, p.2)) := by
  rw [parseMembers]
  simp [hk, skipWs_cons 58 _ (by decide), skipWs_cons c r hc, hv, skipWs_cons 44 _ (by decide),
    skipWs_cons d t hd]

/-- The parser ends an object at the closing brace. -/
theorem parseMembers_close (f : Nat) (s : List Nat) (k : JsString) (c : Nat) (r : List Nat)
    (v : Json) (t : List Nat)
    (hk : parseString s = some (k, 58 :: c :: r)) (hc : isWs c = false)
    (hv : parseValue f (c :: r) = some (v, 125 :: t)) :
    parseMembers (f + 1) (34 :: s) = some ([(k, v)], t) := by
  rw [parseMembers]
  simp [hk, skipWs_cons 58 _ (by decide), skipWs_cons c r hc, hv, skipWs_cons 125 _ (by decide)]

/-- The string of a number is not empty and starts with a sign or a digit. -/
theorem JsNumber.toString_head (x : JsNumber) :
    ∃ c t, x.toString = c :: t ∧ (c = 45 ∨ (48 ≤ c ∧ c ≤ 57)) := by
  unfold JsNumber.toString
  by_cases h0 : x.num = 0
  · rw [if_pos h0]; exact ⟨48, [], rfl, Or.inr (by omega)⟩
  · rw [if_neg h0]
    simp only
    by_cases hneg : x.num < 0
    · rw [if_pos hneg]; exact ⟨45, _, rfl, Or.inl rfl⟩
    · rw [if_neg hneg, List.nil_append]
      have hN : 0 < x.num.natAbs := Int.natAbs_pos.mpr h0
      obtain ⟨c, r, hS, hc, hdig, -⟩ := stripZeros_decimalDigits x.num.natAbs hN
      rw [hS]
      obtain ⟨y, t, hy, hy48⟩ := formatDecimal_head c r
        (((decimalDigits x.num.natAbs).length : Int) - (x.scale : Int)) hc
      refine ⟨y, t, hy, Or.inr ⟨hy48, ?_⟩⟩
      -- the first code unit is a digit
      have : y = c ∨ y = 48 := by
        unfold formatDecimal at hy
        simp only at hy
        split_ifs at hy with h1 h2 h3 h4
        · simp at hy; exact Or.inl hy.1.symm
        · have : 0 < (((decimalDigits x.num.natAbs).length : Int) - (x.scale : Int)).toNat := by
            omega
          obtain ⟨m, hm⟩ : ∃ m, (((decimalDigits x.num.natAbs).length : Int) -
              (x.scale : Int)).toNat = m + 1 := ⟨_, (Nat.succ_pred_eq_of_pos this).symm⟩
          rw [hm] at hy; simp at hy; exact Or.inl hy.1.symm
        · simp at hy; exact Or.inr hy.1.symm
        · simp at hy; exact Or.inl hy.1.symm
        · simp at hy; exact Or.inl hy.1.symm
      have hcd := hdig c (by simp)
      simp only [isDigit, Bool.and_eq_true, decide_eq_true_eq] at hcd
      rcases this with h | h <;> omega

/-- The text of a value is not empty, and starts neither with white space nor with
a comma, a closing bracket or a closing brace. -/
theorem JSON.stringify_head (v : Json) :
    ∃ c t, JSON.stringify v = c :: t ∧ isWs c = false ∧ c ≠ 93 ∧ c ≠ 125 ∧ c ≠ 44 := by
  cases v with
  | null => exact ⟨110, _, by rw [JSON.stringify], by decide, by decide, by decide, by decide⟩
  | bool b =>
    cases b
    · exact ⟨102, _, by rw [JSON.stringify], by decide, by decide, by decide, by decide⟩
    · exact ⟨116, _, by rw [JSON.stringify], by decide, by decide, by decide, by decide⟩
  | num n =>
    obtain ⟨c, t, h, hc⟩ := n.toString_head
    refine ⟨c, t, by rw [JSON.stringify, h], ?_, ?_, ?_, ?_⟩
    · rcases hc with hc | hc
      · subst hc; decide
      · simp [isWs]; omega
    all_goals omega
  | str s => exact ⟨34, _, by rw [JSON.stringify, quote], by decide, by decide, by decide, by decide⟩
  | arr xs => exact ⟨91, _, by rw [JSON.stringify], by decide, by decide, by decide, by decide⟩
  | obj ms => exact ⟨123, _, by rw [JSON.stringify], by decide, by decide, by decide, by decide⟩

/-- A comma may follow a value. -/
theorem Terminated.comma (t : List Nat) : Terminated (44 :: t) := Or.inl rfl
/-- A closing bracket may follow a value. -/
theorem Terminated.bracket (t : List Nat) : Terminated (93 :: t) := Or.inr (Or.inl rfl)
/-- A closing brace may follow a value. -/
theorem Terminated.brace (t : List Nat) : Terminated (125 :: t) := Or.inr (Or.inr rfl)

/-- The bound is positive. -/
theorem Json.cost_pos (v : Json) : 1 ≤ v.cost := by
  cases v <;> simp [Json.cost]

/-- The bound of an array. -/
theorem Json.cost_arr (xs : List Json) : (Json.arr xs).cost = costElements xs + 1 := by
  rw [Json.cost]

/-- The bound of an object. -/
theorem Json.cost_obj (ms : List (JsString × Json)) : (Json.obj ms).cost = costMembers ms + 1 := by
  rw [Json.cost]

/-- The bound of the elements of an array. -/
theorem costElements_cons (x : Json) (xs : List Json) :
    costElements (x :: xs) = x.cost + costElements xs + 1 := by
  rw [costElements]

/-- The bound of the members of an object. -/
theorem costMembers_cons (k : JsString) (v : Json) (ms : List (JsString × Json)) :
    costMembers ((k, v) :: ms) = v.cost + costMembers ms + 1 := by
  rw [costMembers]

/-- Fuel above the bound of a value is positive. -/
theorem Json.fuel_succ {v : Json} {fuel : Nat} (hf : v.cost ≤ fuel) : ∃ f, fuel = f + 1 :=
  ⟨fuel - 1, by have := Json.cost_pos v; omega⟩

/-- The text of one element. -/
theorem stringifyElements_single (x : Json) : stringifyElements [x] = JSON.stringify x := by
  rw [stringifyElements.eq_def]

/-- The text of an element and the following ones. -/
theorem stringifyElements_cons (x y : Json) (ys : List Json) :
    stringifyElements (x :: y :: ys) = JSON.stringify x ++ 44 :: stringifyElements (y :: ys) := by
  rw [stringifyElements.eq_def]

/-- The text of one member. -/
theorem stringifyMembers_single (k : JsString) (v : Json) :
    stringifyMembers [(k, v)] = quote k ++ 58 :: JSON.stringify v := by
  rw [stringifyMembers.eq_def]

/-- The text of a member and the following ones. -/
theorem stringifyMembers_cons (k : JsString) (v : Json) (m : JsString × Json)
    (ms : List (JsString × Json)) :
    stringifyMembers ((k, v) :: m :: ms) =
      quote k ++ 58 :: (JSON.stringify v ++ 44 :: stringifyMembers (m :: ms)) := by
  rw [stringifyMembers.eq_def]

/-- The text of the elements of an array starts like the text of a value. -/
theorem stringifyElements_head (x : Json) (xs : List Json) (rest : List Nat) :
    ∃ c t, stringifyElements (x :: xs) ++ rest = c :: t ∧
      isWs c = false ∧ c ≠ 93 ∧ c ≠ 125 ∧ c ≠ 44 := by
  obtain ⟨c, t, h, hh⟩ := JSON.stringify_head x
  cases xs with
  | nil => exact ⟨c, _, by rw [stringifyElements_single, h]; rfl, hh⟩
  | cons y ys => exact ⟨c, _, by rw [stringifyElements_cons, h]; rfl, hh⟩

/-- The text of the members of an object starts with a quote. -/
theorem stringifyMembers_head (m : JsString × Json) (ms : List (JsString × Json))
    (rest : List Nat) : ∃ t, stringifyMembers (m :: ms) ++ rest = 34 :: t := by
  obtain ⟨k, v⟩ := m
  cases ms with
  | nil => exact ⟨_, by rw [stringifyMembers_single, quote]; rfl⟩
  | cons y ys => exact ⟨_, by rw [stringifyMembers_cons, quote]; rfl⟩

mutual
/-- The parser reads a value back from its text, given enough fuel. -/
theorem parseValue_stringify : ∀ (v : Json) (fuel : Nat) (rest : List Nat),
    v.cost ≤ fuel → Terminated rest →
    parseValue fuel (JSON.stringify v ++ rest) = some (v, rest)
  | .null, fuel, rest, hf, _ => by
    obtain ⟨f, rfl⟩ := Json.fuel_succ hf
    rw [JSON.stringify]; exact parseValue_null f rest
  | .bool true, fuel, rest, hf, _ => by
    obtain ⟨f, rfl⟩ := Json.fuel_succ hf
    rw [JSON.stringify]; exact parseValue_true f rest
  | .bool false, fuel, rest, hf, _ => by
    obtain ⟨f, rfl⟩ := Json.fuel_succ hf
    rw [JSON.stringify]; exact parseValue_false f rest
  | .num n, fuel, rest, hf, ht => by
    obtain ⟨f, rfl⟩ := Json.fuel_succ hf
    obtain ⟨c, t, h, hc⟩ := n.toString_head
    rw [JSON.stringify]
    have := parseNumber_toString n rest ht
    rw [h] at this ⊢
    rw [List.cons_append, parseValue_num f c _ hc, ← List.cons_append, this]; rfl
  | .str s, fuel, rest, hf, _ => by
    obtain ⟨f, rfl⟩ := Json.fuel_succ hf
    obtain ⟨t, h1, h2⟩ := parseString_quote s rest
    rw [JSON.stringify, h1, parseValue_str, h2]; rfl
  | .arr [], fuel, rest, hf, _ => by
    obtain ⟨f, rfl⟩ := Json.fuel_succ hf
    rw [JSON.stringify, stringifyElements]; exact parseValue_arr_nil f rest
  | .arr (x :: xs), fuel, rest, hf, _ => by
    obtain ⟨f, rfl⟩ := Json.fuel_succ hf
    have hf2 : costElements (x :: xs) ≤ f := by rw [Json.cost_arr] at hf; omega
    have ih := parseElements_stringify (x :: xs) f rest (by simp) hf2
    obtain ⟨c, t, hc, hws, h93, -, -⟩ := stringifyElements_head x xs (93 :: rest)
    rw [JSON.stringify, List.cons_append, List.append_assoc, List.singleton_append, hc,
      parseValue_arr f c t hws h93, ← hc, ih]
    rfl
  | .obj [], fuel, rest, hf, _ => by
    obtain ⟨f, rfl⟩ := Json.fuel_succ hf
    rw [JSON.stringify, stringifyMembers]; exact parseValue_obj_nil f rest
  | .obj (m :: ms), fuel, rest, hf, _ => by
    obtain ⟨f, rfl⟩ := Json.fuel_succ hf
    have hf2 : costMembers (m :: ms) ≤ f := by rw [Json.cost_obj] at hf; omega
    have ih := parseMembers_stringify (m :: ms) f rest (by simp) hf2
    obtain ⟨t, hc⟩ := stringifyMembers_head m ms (125 :: rest)
    rw [JSON.stringify, List.cons_append, List.append_assoc, List.singleton_append, hc,
      parseValue_obj f 34 t (by decide) (by decide), ← hc, ih]
    rfl
/-- The parser reads the elements of an array back. -/
theorem parseElements_stringify : ∀ (l : List Json) (fuel : Nat) (rest : List Nat),
    l ≠ [] → costElements l ≤ fuel →
    parseElements fuel (stringifyElements l ++ 93 :: rest) = some (l, rest)
  | [], _, _, h, _ => absurd rfl h
  | [x], fuel, rest, _, hf => by
    obtain ⟨f, rfl⟩ : ∃ f, fuel = f + 1 := ⟨fuel - 1, by rw [costElements_cons] at hf; omega⟩
    have hx : x.cost ≤ f := by rw [costElements_cons] at hf; omega
    have ih := parseValue_stringify x f (93 :: rest) hx (Terminated.bracket rest)
    rw [stringifyElements_single]
    exact parseElements_close f _ x rest ih
  | x :: y :: ys, fuel, rest, _, hf => by
    obtain ⟨f, rfl⟩ : ∃ f, fuel = f + 1 := ⟨fuel - 1, by rw [costElements_cons] at hf; omega⟩
    have hx : x.cost ≤ f := by rw [costElements_cons] at hf; omega
    have hys : costElements (y :: ys) ≤ f := by rw [costElements_cons] at hf; omega
    obtain ⟨c, t, hc, hws, -⟩ := stringifyElements_head y ys (93 :: rest)
    have ih1 := parseValue_stringify x f (44 :: (stringifyElements (y :: ys) ++ 93 :: rest)) hx
      (Terminated.comma _)
    have ih2 := parseElements_stringify (y :: ys) f rest (by simp) hys
    rw [hc] at ih1 ih2
    rw [stringifyElements_cons]
    simp only [List.append_assoc, List.cons_append]
    rw [hc, parseElements_comma f _ x c t ih1 hws, ih2]
    rfl
/-- The parser reads the members of an object back. -/
theorem parseMembers_stringify : ∀ (l : List (JsString × Json)) (fuel : Nat) (rest : List Nat),
    l ≠ [] → costMembers l ≤ fuel →
    parseMembers fuel (stringifyMembers l ++ 125 :: rest) = some (l, rest)
  | [], _, _, h, _ => absurd rfl h
  | [(k, v)], fuel, rest, _, hf => by
    obtain ⟨f, rfl⟩ : ∃ f, fuel = f + 1 := ⟨fuel - 1, by rw [costMembers_cons] at hf; omega⟩
    have hv : v.cost ≤ f := by rw [costMembers_cons] at hf; omega
    obtain ⟨c, t, hc, hws, -⟩ := JSON.stringify_head v
    have ih := parseValue_stringify v f (125 :: rest) hv (Terminated.brace rest)
    rw [hc] at ih
    have hk := parseString_quoteChars k false (58 :: (c :: t ++ 125 :: rest))
    rw [stringifyMembers_single, hc]
    simp only [quote, List.append_assoc, List.cons_append, List.nil_append]
    exact parseMembers_close f _ k c _ v rest hk hws ih
  | (k, v) :: m :: ms, fuel, rest, _, hf => by
    obtain ⟨f, rfl⟩ : ∃ f, fuel = f + 1 := ⟨fuel - 1, by rw [costMembers_cons] at hf; omega⟩
    have hv : v.cost ≤ f := by rw [costMembers_cons] at hf; omega
    have hms : costMembers (m :: ms) ≤ f := by rw [costMembers_cons] at hf; omega
    obtain ⟨c, t, hc, hws, -⟩ := JSON.stringify_head v
    obtain ⟨u, hu⟩ := stringifyMembers_head m ms (125 :: rest)
    have ih1 := parseValue_stringify v f (44 :: (stringifyMembers (m :: ms) ++ 125 :: rest)) hv
      (Terminated.comma _)
    have ih2 := parseMembers_stringify (m :: ms) f rest (by simp) hms
    rw [hc, hu] at ih1
    rw [hu] at ih2
    have hk := parseString_quoteChars k false (58 :: (c :: t ++ 44 :: 34 :: u))
    rw [stringifyMembers_cons, hc]
    simp only [quote, List.append_assoc, List.cons_append, List.nil_append]
    simp only [List.cons_append] at hk ih1
    rw [hu, parseMembers_comma f _ k c _ v 34 u hk hws ih1 (by decide), ih2]
    rfl
end

/-- The text of a value is not empty. -/
theorem JSON.stringify_length_pos (v : Json) : 1 ≤ (JSON.stringify v).length := by
  obtain ⟨c, t, h, -⟩ := JSON.stringify_head v
  rw [h]; simp

mutual
/-- The text of a value is at least as long as the bound on the calls of the parser. -/
theorem Json.cost_le_length : ∀ (v : Json), v.cost ≤ (JSON.stringify v).length
  | .null => by
    have := JSON.stringify_length_pos .null
    have h : Json.null.cost = 1 := rfl
    omega
  | .bool b => by
    have := JSON.stringify_length_pos (.bool b)
    have h : (Json.bool b).cost = 1 := by cases b <;> rfl
    omega
  | .num n => by
    have := JSON.stringify_length_pos (.num n)
    have h : (Json.num n).cost = 1 := rfl
    omega
  | .str s => by
    have := JSON.stringify_length_pos (.str s)
    have h : (Json.str s).cost = 1 := rfl
    omega
  | .arr xs => by
    have := costElements_le_length xs
    rw [Json.cost_arr, JSON.stringify]
    simp only [List.length_cons, List.length_append, List.length_nil]
    omega
  | .obj ms => by
    have := costMembers_le_length ms
    rw [Json.cost_obj, JSON.stringify]
    simp only [List.length_cons, List.length_append, List.length_nil]
    omega
/-- The same for the elements of an array. -/
theorem costElements_le_length : ∀ (l : List Json),
    costElements l ≤ (stringifyElements l).length + 1
  | [] => by rw [costElements]; omega
  | [x] => by
    have := Json.cost_le_length x
    rw [costElements_cons, stringifyElements_single]
    have h : costElements [] = 0 := rfl
    omega
  | x :: y :: ys => by
    have h1 := Json.cost_le_length x
    have h2 := costElements_le_length (y :: ys)
    rw [costElements_cons, stringifyElements_cons]
    simp only [List.length_cons, List.length_append]
    omega
/-- The same for the members of an object. -/
theorem costMembers_le_length : ∀ (l : List (JsString × Json)),
    costMembers l ≤ (stringifyMembers l).length + 1
  | [] => by rw [costMembers]; omega
  | [(k, v)] => by
    have := Json.cost_le_length v
    rw [costMembers_cons, stringifyMembers_single]
    have h : costMembers [] = 0 := rfl
    simp only [List.length_cons, List.length_append]
    omega
  | (k, v) :: m :: ms => by
    have h1 := Json.cost_le_length v
    have h2 := costMembers_le_length (m :: ms)
    rw [costMembers_cons, stringifyMembers_cons]
    simp only [List.length_cons, List.length_append]
    omega
end

/-- The round trip of JSON: `JSON.parse` reads every value back from the text
`JSON.stringify` writes for it. -/
theorem JSON.parse_stringify (v : Json) : JSON.parse (JSON.stringify v) = .ok v := by
  obtain ⟨c, t, h, hws, -⟩ := JSON.stringify_head v
  have hp := parseValue_stringify v ((JSON.stringify v).length + 1) []
    (Nat.le_succ_of_le (Json.cost_le_length v)) trivial
  rw [List.append_nil] at hp
  unfold JSON.parse
  rw [h] at hp ⊢
  rw [skipWs_cons c t hws, hp]
  rfl

/-- The function `decode` on a frame with a type digit and a JSON text. -/
theorem decode_data (c k : Nat) (text : JsString) (d : Json) (ht : JSON.parse text = .ok d)
    (hv : isPacketValid ⟨parseInt [k], some d⟩ = true) :
    decode (c :: k :: text) = .ok ⟨parseInt [k], some d⟩ := by
  have hne : text ≠ [] := by
    intro h; rw [h, JSON.parse_nil] at ht; cases ht
  obtain ⟨x, r, rfl⟩ := List.exists_cons_of_ne_nil hne
  simp [decode, charAt, substring, ht, hv]

/-- The round trip of the codec, on the whole frame: `decode` reads every well-formed
packet back from its encoding behind one more code unit (the `4` of a MESSAGE
frame). -/
theorem decode_frame (c : Nat) (p : Packet) (h : p.WellFormed) :
    decode (c :: encode p) = .ok p := by
  obtain ⟨type, data⟩ := p
  rcases h with ⟨ht, ms, hd⟩ | ⟨ht, hd⟩ | ⟨ht, name, args, hd⟩
  · simp only at ht hd
    subst ht; subst hd
    have h48 : typeToString (some SIOPacketType.CONNECT) = [48] := by decide
    have hp : parseInt [48] = some SIOPacketType.CONNECT := by decide
    have := decode_data c 48 _ _ (JSON.parse_stringify (.obj ms))
      (by rw [hp]; simp [isPacketValid, typeof])
    rw [hp] at this
    simpa [encode, truthy, h48] using this
  · simp only at ht hd
    subst ht; subst hd
    have h49 : typeToString (some SIOPacketType.DISCONNECT) = [49] := by decide
    have hp : parseInt [49] = some SIOPacketType.DISCONNECT := by decide
    have he : encode ⟨some SIOPacketType.DISCONNECT, none⟩ = [49] := h49
    rw [he]
    have h1 : charAt [c, 49] 1 = [49] := rfl
    have h2 : charAt [c, 49] 2 = [] := rfl
    have hv : isPacketValid ⟨some SIOPacketType.DISCONNECT, none⟩ = true := by decide
    simp [decode, h1, h2, hp, hv]
  · simp only at ht hd
    subst ht; subst hd
    have h50 : typeToString (some SIOPacketType.EVENT) = [50] := by decide
    have hp : parseInt [50] = some SIOPacketType.EVENT := by decide
    have := decode_data c 50 _ _ (JSON.parse_stringify (.arr (.str name :: args)))
      (by rw [hp]; simp [isPacketValid, typeof, SIOPacketType.EVENT, SIOPacketType.CONNECT,
        SIOPacketType.DISCONNECT])
    rw [hp] at this
    simpa [encode, truthy, h50] using this

/-- The function `decode` rejects the encoding of every well-formed packet when the
code unit of the frame type is not in front of it: it reads the type at index 1,
where the data starts or nothing stands. -/
theorem decode_encode_error (p : Packet) (h : p.WellFormed) : ∃ e, decode (encode p) = .error e := by
  obtain ⟨type, data⟩ := p
  have key : parseInt (charAt (encode ⟨type, data⟩) 1) = none := by
    rcases h with ⟨ht, ms, hd⟩ | ⟨ht, hd⟩ | ⟨ht, name, args, hd⟩
    · simp only at ht hd
      subst ht; subst hd
      have h48 : typeToString (some SIOPacketType.CONNECT) = [48] := by decide
      simp only [encode, truthy, if_true, h48, JSON.stringify]
      rfl
    · simp only at ht hd
      subst ht; subst hd
      rfl
    · simp only at ht hd
      subst ht; subst hd
      have h50 : typeToString (some SIOPacketType.EVENT) = [50] := by decide
      simp only [encode, truthy, if_true, h50, JSON.stringify]
      rfl
  apply decode_unsupported <;> rw [key] <;> simp

/-- C1, the counterexample. The function `decode` does not read every well-formed packet
back from its bare encoding: the DISCONNECT packet is encoded as `1`, which
`decode` rejects. -/
theorem C1_counterexample : ¬ (∀ p : Packet, p.WellFormed → decode (encode p) = .ok p) := by
  intro h
  have h1 := h ⟨some SIOPacketType.DISCONNECT, none⟩ (Or.inr (Or.inl ⟨rfl, rfl⟩))
  revert h1
  decide

/-- C1, amended. For every well-formed packet (a CONNECT packet whose data is an object,
a DISCONNECT packet without data, an EVENT packet whose data is an array with a
string in front), `decode` succeeds on the MESSAGE frame of the packet, the
character `4` followed by its encoding, and returns the packet. -/
theorem C1_decode_message_frame (p : Packet) (h : p.WellFormed) :
    decode (EIOPacketType.MESSAGE :: encode p) = .ok p :=
  decode_frame EIOPacketType.MESSAGE p h

/-- An EVENT packet to apply the amended C1 to: `chat` with one object. -/
theorem C1_decode_message_frame_witness :
    Packet.WellFormed (eventPacket [.str (js "chat"), .obj [(js "text", .str (js "hi"))]]) ∧
    decode (EIOPacketType.MESSAGE ::
        encode (eventPacket [.str (js "chat"), .obj [(js "text", .str (js "hi"))]])) =
      .ok (eventPacket [.str (js "chat"), .obj [(js "text", .str (js "hi"))]]) :=
  ⟨Or.inr (Or.inr ⟨rfl, _, _, rfl⟩),
   C1_decode_message_frame _ (Or.inr (Or.inr ⟨rfl, _, _, rfl⟩))⟩

/-! ## The fuel of the JSON parser -/

/-- Skipping white space does not lengthen the input. -/
theorem skipWs_length_le (s : List Nat) : (skipWs s).length ≤ s.length := by
  induction s with
  | nil => simp [skipWs]
  | cons c r ih =>
    rw [skipWs]
    split
    · simp only [List.length_cons]; omega
    · exact Nat.le_refl _

/-- The digits taken and what follows them make up the input. -/
theorem takeDigits_length (s : List Nat) :
    (takeDigits s).1.length + (takeDigits s).2.length = s.length := by
  induction s with
  | nil => rfl
  | cons c r ih =>
    rw [takeDigits]
    split
    · simp only [List.length_cons]; omega
    · simp

/-- The literal expected is taken from the input. -/
theorem expect_length : ∀ (lit s r : List Nat), expect lit s = some r →
    r.length + lit.length = s.length
  | [], s, r, h => by simp [expect] at h; subst h; rfl
  | _ :: _, [], r, h => by simp [expect] at h
  | l :: ls, c :: s, r, h => by
    rw [expect] at h
    split at h
    · have := expect_length ls s r h
      simp only [List.length_cons]; omega
    · cases h

/-- What follows a fraction is not longer than the input. -/
theorem parseFraction_length (s f r : List Nat) (h : parseFraction s = some (f, r)) :
    r.length ≤ s.length := by
  unfold parseFraction at h
  split at h
  · rename_i t
    simp only at h
    split at h
    · cases h
    · have hl := takeDigits_length t
      simp only [Option.some.injEq] at h
      rw [h] at hl
      simp only [List.length_cons]; simp only at hl; omega
  · simp only [Option.some.injEq, Prod.mk.injEq] at h
    rw [h.2]

/-- What follows an exponent is not longer than the input. -/
theorem parseExponent_length (s : List Nat) (x : Int) (r : List Nat)
    (h : parseExponent s = some (x, r)) : r.length ≤ s.length := by
  unfold parseExponent at h
  split at h
  · simp only [Option.some.injEq, Prod.mk.injEq] at h; rw [← h.2]
  · rename_i c t
    split at h
    · split at h
      · rename_i u
        simp only at h
        split at h
        · cases h
        · have hl := takeDigits_length u
          simp only [Option.some.injEq, Prod.mk.injEq] at h
          rw [← h.2]
          simp only [List.length_cons]; omega
      · rename_i u
        simp only at h
        split at h
        · cases h
        · have hl := takeDigits_length u
          simp only [Option.some.injEq, Prod.mk.injEq] at h
          rw [← h.2]
          simp only [List.length_cons]; omega
      · simp only at h
        split at h
        · cases h
        · have hl := takeDigits_length t
          simp only [Option.some.injEq, Prod.mk.injEq] at h
          rw [← h.2]
          simp only [List.length_cons]; omega
    · simp only [Option.some.injEq, Prod.mk.injEq] at h; rw [← h.2]

/-- An unsigned number takes at least one code unit. -/
theorem parseUnsigned_length (s : List Nat) (m : Nat) (e : Int) (r : List Nat)
    (h : parseUnsigned s = some (m, e, r)) : r.length < s.length := by
  unfold parseUnsigned at h
  simp only at h
  split at h
  · cases h
  · rename_i hne
    split at h
    · cases h
    · split at h
      · cases h
      · rename_i f r1 hf
        split at h
        · cases h
        · rename_i x r2 hx
          simp only [Option.some.injEq, Prod.mk.injEq] at h
          have h1 := takeDigits_length s
          have h2 := parseFraction_length _ _ _ hf
          have h3 := parseExponent_length _ _ _ hx
          have h4 : 0 < (takeDigits s).1.length := List.length_pos.mpr hne
          rw [← h.2.2]; omega

/-- A number takes at least one code unit. -/
theorem parseNumber_length (s : List Nat) (n : JsNumber) (r : List Nat)
    (h : parseNumber s = some (n, r)) : r.length < s.length := by
  unfold parseNumber at h
  split at h
  · rename_i t
    split at h
    · rename_i m e r1 hu
      have := parseUnsigned_length _ _ _ _ hu
      simp only [Option.some.injEq, Prod.mk.injEq] at h
      rw [← h.2]; simp only [List.length_cons]; omega
    · cases h
  · split at h
    · rename_i m e r1 hu
      have := parseUnsigned_length _ _ _ _ hu
      simp only [Option.some.injEq, Prod.mk.injEq] at h
      rw [← h.2]; exact this
    · cases h

/-- A string takes at least its closing quote. -/
theorem parseString_length : ∀ (n : Nat) (s : List Nat) (k : JsString) (r : List Nat),
    s.length ≤ n → parseString s = some (k, r) → r.length < s.length := by
  intro n
  induction n with
  | zero =>
    intro s k r hn h
    have : s = [] := List.length_eq_zero.mp (Nat.le_zero.mp hn)
    subst this
    rw [parseString.eq_def] at h; cases h
  | succ n ih =>
    intro s k r hn h
    rw [parseString.eq_def] at h
    split at h
    · cases h
    · rename_i c t
      simp only [List.length_cons] at hn ⊢
      split at h
      · simp only [Option.some.injEq, Prod.mk.injEq] at h; rw [← h.2]; omega
      · split at h
        · split at h
          · cases h
          · rename_i e t1
            simp only [List.length_cons] at hn ⊢
            split at h
            · split at h
              · rename_i h3 h2 h1 h0 t2
                simp only [List.length_cons] at hn ⊢
                split at h
                · cases hp : parseString t2 with
                  | none => rw [hp] at h; cases h
                  | some p =>
                    rw [hp] at h
                    simp only [Option.map_some', Option.some.injEq, Prod.mk.injEq] at h
                    have := ih t2 p.1 p.2 (by omega) (by rw [hp])
                    rw [← h.2]; omega
                · cases h
              · cases h
            · split at h
              · cases hp : parseString t1 with
                | none => rw [hp] at h; cases h
                | some p =>
                  rw [hp] at h
                  simp only [Option.map_some', Option.some.injEq, Prod.mk.injEq] at h
                  have := ih t1 p.1 p.2 (by omega) (by rw [hp])
                  rw [← h.2]; omega
              · cases h
        · split at h
          · cases h
          · cases hp : parseString t with
            | none => rw [hp] at h; cases h
            | some p =>
              rw [hp] at h
              simp only [Option.map_some', Option.some.injEq, Prod.mk.injEq] at h
              have := ih t p.1 p.2 (by omega) (by rw [hp])
              rw [← h.2]; omega

/-- Reading one code unit after white space shortens the input. -/
theorem length_tail_skipWs_lt (r : List Nat) (c : Nat) (h : (skipWs r).head? = some c) :
    (skipWs r).tail.length + 1 ≤ r.length := by
  have hl := skipWs_length_le r
  cases hs : skipWs r with
  | nil => rw [hs] at h; cases h
  | cons x t => rw [hs] at hl; simpa using hl

/-- One more unit of fuel keeps `FuelEnough` for the value parser. -/
theorem fuelEnough_value (f : Nat) (ih : FuelEnough f) (s : List Nat) (v : Json) (r : List Nat)
    (h : parseValue (f + 1) s = some (v, r)) :
    r.length < s.length ∧ ∀ g, s.length - r.length ≤ g → parseValue g s = some (v, r) := by
  cases s with
  | nil => rw [parseValue] at h; cases h
  | cons c t =>
    rw [parseValue] at h
    simp only [List.length_cons]
    by_cases h34 : c = 34
    · rw [if_pos h34] at h
      cases hp : parseString t with
      | none => rw [hp] at h; cases h
      | some p =>
        have hl := parseString_length _ t p.1 p.2 (Nat.le_refl _) (by rw [hp])
        rw [hp] at h
        simp only [Option.map_some', Option.some.injEq, Prod.mk.injEq] at h
        rw [← h.2]
        refine ⟨by omega, ?_⟩
        intro g hg
        obtain ⟨g, rfl⟩ : ∃ k, g = k + 1 := ⟨g - 1, by omega⟩
        rw [parseValue, if_pos h34, hp, ← h.1]; rfl
    rw [if_neg h34] at h
    by_cases h91 : c = 91
    · rw [if_pos h91] at h
      by_cases hh : (skipWs t).head? = some 93
      · rw [if_pos hh] at h
        have hl := length_tail_skipWs_lt t 93 hh
        simp only [Option.some.injEq, Prod.mk.injEq] at h
        rw [← h.2]
        refine ⟨by omega, ?_⟩
        intro g hg
        obtain ⟨g, rfl⟩ : ∃ k, g = k + 1 := ⟨g - 1, by omega⟩
        rw [parseValue, if_neg h34, if_pos h91, if_pos hh, ← h.1]
      · rw [if_neg hh] at h
        cases hp : parseElements f (skipWs t) with
        | none => rw [hp] at h; cases h
        | some p =>
          obtain ⟨hl, hg⟩ := ih.2.1 _ p.1 p.2 (by rw [hp])
          have hws := skipWs_length_le t
          rw [hp] at h
          simp only [Option.map_some', Option.some.injEq, Prod.mk.injEq] at h
          rw [← h.2]
          refine ⟨by omega, ?_⟩
          intro g hg2
          obtain ⟨g, rfl⟩ : ∃ k, g = k + 1 := ⟨g - 1, by omega⟩
          rw [parseValue, if_neg h34, if_pos h91, if_neg hh, hg g (by omega), ← h.1]; rfl
    rw [if_neg h91] at h
    by_cases h123 : c = 123
    · rw [if_pos h123] at h
      by_cases hh : (skipWs t).head? = some 125
      · rw [if_pos hh] at h
        have hl := length_tail_skipWs_lt t 125 hh
        simp only [Option.some.injEq, Prod.mk.injEq] at h
        rw [← h.2]
        refine ⟨by omega, ?_⟩
        intro g hg
        obtain ⟨g, rfl⟩ : ∃ k, g = k + 1 := ⟨g - 1, by omega⟩
        rw [parseValue, if_neg h34, if_neg h91, if_pos h123, if_pos hh, ← h.1]
      · rw [if_neg hh] at h
        cases hp : parseMembers f (skipWs t) with
        | none => rw [hp] at h; cases h
        | some p =>
          obtain ⟨hl, hg⟩ := ih.2.2 _ p.1 p.2 (by rw [hp])
          have hws := skipWs_length_le t
          rw [hp] at h
          simp only [Option.map_some', Option.some.injEq, Prod.mk.injEq] at h
          rw [← h.2]
          refine ⟨by omega, ?_⟩
          intro g hg2
          obtain ⟨g, rfl⟩ : ∃ k, g = k + 1 := ⟨g - 1, by omega⟩
          rw [parseValue, if_neg h34, if_neg h91, if_pos h123, if_neg hh, hg g (by omega),
            ← h.1]; rfl
    rw [if_neg h123] at h
    by_cases h110 : c = 110
    · rw [if_pos h110] at h
      cases hp : expect [117, 108, 108] t with
      | none => rw [hp] at h; cases h
      | some r1 =>
        have hl := expect_length _ _ _ hp
        rw [hp] at h
        simp only [Option.map_some', Option.some.injEq, Prod.mk.injEq] at h
        rw [← h.2]
        refine ⟨by omega, ?_⟩
        intro g hg
        obtain ⟨g, rfl⟩ : ∃ k, g = k + 1 := ⟨g - 1, by omega⟩
        rw [parseValue, if_neg h34, if_neg h91, if_neg h123, if_pos h110, hp, ← h.1]; rfl
    rw [if_neg h110] at h
    by_cases h116 : c = 116
    · rw [if_pos h116] at h
      cases hp : expect [114, 117, 101] t with
      | none => rw [hp] at h; cases h
      | some r1 =>
        have hl := expect_length _ _ _ hp
        rw [hp] at h
        simp only [Option.map_some', Option.some.injEq, Prod.mk.injEq] at h
        rw [← h.2]
        refine ⟨by omega, ?_⟩
        intro g hg
        obtain ⟨g, rfl⟩ : ∃ k, g = k + 1 := ⟨g - 1, by omega⟩
        rw [parseValue, if_neg h34, if_neg h91, if_neg h123, if_neg h110, if_pos h116, hp,
          ← h.1]; rfl
    rw [if_neg h116] at h
    by_cases h102 : c = 102
    · rw [if_pos h102] at h
      cases hp : expect [97, 108, 115, 101] t with
      | none => rw [hp] at h; cases h
      | some r1 =>
        have hl := expect_length _ _ _ hp
        rw [hp] at h
        simp only [Option.map_some', Option.some.injEq, Prod.mk.injEq] at h
        rw [← h.2]
        refine ⟨by omega, ?_⟩
        intro g hg
        obtain ⟨g, rfl⟩ : ∃ k, g = k + 1 := ⟨g - 1, by omega⟩
        rw [parseValue, if_neg h34, if_neg h91, if_neg h123, if_neg h110, if_neg h116,
          if_pos h102, hp, ← h.1]; rfl
    rw [if_neg h102] at h
    cases hp : parseNumber (c :: t) with
    | none => rw [hp] at h; cases h
    | some p =>
      have hl := parseNumber_length _ p.1 p.2 (by rw [hp])
      rw [hp] at h
      simp only [Option.map_some', Option.some.injEq, Prod.mk.injEq] at h
      rw [← h.2]
      simp only [List.length_cons] at hl
      refine ⟨by omega, ?_⟩
      intro g hg
      obtain ⟨g, rfl⟩ : ∃ k, g = k + 1 := ⟨g - 1, by omega⟩
      rw [parseValue, if_neg h34, if_neg h91, if_neg h123, if_neg h110, if_neg h116,
        if_neg h102, hp, ← h.1]; rfl


/-- One more unit of fuel keeps `FuelEnough` for the elements of an array. -/
theorem fuelEnough_elements (f : Nat) (ih : FuelEnough f) (s : List Nat) (l : List Json)
    (r : List Nat) (h : parseElements (f + 1) s = some (l, r)) :
    r.length < s.length ∧ ∀ g, s.length - r.length ≤ g → parseElements g s = some (l, r) := by
  rw [parseElements] at h
  cases hv : parseValue f s with
  | none => rw [hv] at h; cases h
  | some p =>
    obtain ⟨v, r1⟩ := p
    obtain ⟨hl1, hg1⟩ := ih.1 s v r1 hv
    rw [hv] at h
    simp only at h
    by_cases h44 : (skipWs r1).head? = some 44
    · rw [if_pos h44] at h
      have ht := length_tail_skipWs_lt r1 44 h44
      have hws := skipWs_length_le (skipWs r1).tail
      cases hp : parseElements f (skipWs (skipWs r1).tail) with
      | none => rw [hp] at h; cases h
      | some q =>
        obtain ⟨hl2, hg2⟩ := ih.2.1 _ q.1 q.2 (by rw [hp])
        rw [hp] at h
        simp only [Option.map_some', Option.some.injEq, Prod.mk.injEq] at h
        rw [← h.2]
        refine ⟨by omega, ?_⟩
        intro g hg
        obtain ⟨g, rfl⟩ : ∃ k, g = k + 1 := ⟨g - 1, by omega⟩
        rw [parseElements, hg1 g (by omega)]
        simp only
        rw [if_pos h44, hg2 g (by omega), ← h.1]; rfl
    · rw [if_neg h44] at h
      by_cases h93 : (skipWs r1).head? = some 93
      · rw [if_pos h93] at h
        have ht := length_tail_skipWs_lt r1 93 h93
        simp only [Option.some.injEq, Prod.mk.injEq] at h
        rw [← h.2]
        refine ⟨by omega, ?_⟩
        intro g hg
        obtain ⟨g, rfl⟩ : ∃ k, g = k + 1 := ⟨g - 1, by omega⟩
        rw [parseElements, hg1 g (by omega)]
        simp only
        rw [if_neg h44, if_pos h93, ← h.1]
      · rw [if_neg h93] at h; cases h

/-- One more unit of fuel keeps `FuelEnough` for the members of an object. -/
theorem fuelEnough_members (f : Nat) (ih : FuelEnough f) (s : List Nat)
    (l : List (JsString × Json)) (r : List Nat) (h : parseMembers (f + 1) s = some (l, r)) :
    r.length < s.length ∧ ∀ g, s.length - r.length ≤ g → parseMembers g s = some (l, r) := by
  cases s with
  | nil => rw [parseMembers] at h; cases h
  | cons c t =>
    rw [parseMembers] at h
    simp only [List.length_cons]
    by_cases h34 : c = 34
    · rw [if_pos h34] at h
      cases hk : parseString t with
      | none => rw [hk] at h; cases h
      | some p =>
        obtain ⟨k, r1⟩ := p
        have hlk := parseString_length _ t k r1 (Nat.le_refl _) hk
        rw [hk] at h
        simp only at h
        by_cases h58 : (skipWs r1).head? = some 58
        · rw [if_pos h58] at h
          have ht1 := length_tail_skipWs_lt r1 58 h58
          have hws1 := skipWs_length_le (skipWs r1).tail
          cases hv : parseValue f (skipWs (skipWs r1).tail) with
          | none => rw [hv] at h; cases h
          | some q =>
            obtain ⟨v, r3⟩ := q
            obtain ⟨hl1, hg1⟩ := ih.1 _ v r3 hv
            rw [hv] at h
            simp only at h
            by_cases h44 : (skipWs r3).head? = some 44
            · rw [if_pos h44] at h
              have ht := length_tail_skipWs_lt r3 44 h44
              have hws := skipWs_length_le (skipWs r3).tail
              cases hp : parseMembers f (skipWs (skipWs r3).tail) with
              | none => rw [hp] at h; cases h
              | some q2 =>
                obtain ⟨hl2, hg2⟩ := ih.2.2 _ q2.1 q2.2 (by rw [hp])
                rw [hp] at h
                simp only [Option.map_some', Option.some.injEq, Prod.mk.injEq] at h
                rw [← h.2]
                refine ⟨by omega, ?_⟩
                intro g hg
                obtain ⟨g, rfl⟩ : ∃ k, g = k + 1 := ⟨g - 1, by omega⟩
                rw [parseMembers, if_pos h34, hk]
                simp only
                rw [if_pos h58, hg1 g (by omega)]
                simp only
                rw [if_pos h44, hg2 g (by omega), ← h.1]; rfl
            · rw [if_neg h44] at h
              by_cases h125 : (skipWs r3).head? = some 125
              · rw [if_pos h125] at h
                have ht := length_tail_skipWs_lt r3 125 h125
                simp only [Option.some.injEq, Prod.mk.injEq] at h
                rw [← h.2]
                refine ⟨by omega, ?_⟩
                intro g hg
                obtain ⟨g, rfl⟩ : ∃ k, g = k + 1 := ⟨g - 1, by omega⟩
                rw [parseMembers, if_pos h34, hk]
                simp only
                rw [if_pos h58, hg1 g (by omega)]
                simp only
                rw [if_neg h44, if_pos h125, ← h.1]
              · rw [if_neg h125] at h; cases h
        · rw [if_neg h58] at h; cases h
    · rw [if_neg h34] at h; cases h

/-- Every fuel is enough in the sense of `FuelEnough`. -/
theorem fuelEnough_all : ∀ f, FuelEnough f
  | 0 => by
    refine ⟨fun s v r h => ?_, fun s l r h => ?_, fun s l r h => ?_⟩
    · rw [parseValue] at h; cases h
    · rw [parseElements] at h; cases h
    · rw [parseMembers] at h; cases h
  | f + 1 =>
    ⟨fuelEnough_value f (fuelEnough_all f), fuelEnough_elements f (fuelEnough_all f),
      fuelEnough_members f (fuelEnough_all f)⟩

/-- The fuel of `JSON.parse` is enough: a value that the parser reads from a text
with some fuel is read with the fuel `JSON.parse` gives it. -/
theorem JSON.parse_fuel (text : JsString) (f : Nat) (v : Json) (r : List Nat)
    (h : parseValue f (skipWs text) = some (v, r)) :
    parseValue (text.length + 1) (skipWs text) = some (v, r) := by
  have hws := skipWs_length_le text
  exact ((fuelEnough_all f).1 _ v r h).2 _ (by omega)

/-! ## The event emitter and the inbound events -/

/-- The lookup in the map after one more listener was pushed. -/
theorem mapGet_mapPush (event name : JsString) (l : Listener) :
    ∀ (m : List (JsString × List Listener)),
      mapGet name (mapPush event l m) =
        if event = name then (mapGet name m).map (fun ls => ls ++ [l]) else mapGet name m := by
  intro m
  induction m with
  | nil => simp [mapGet, mapPush]
  | cons p m ih =>
    obtain ⟨k, ls⟩ := p
    by_cases hk : k = event
    · subst hk
      by_cases hn : k = name
      · simp [mapGet, mapPush, hn]
      · simp [mapGet, mapPush, hn]
    · by_cases hn : k = name
      · have h1 : ¬ event = name := fun h => hk (hn.trans h.symm)
        have h2 : ¬ name = event := fun h => h1 h.symm
        subst hn
        simp [mapGet, mapPush, h1, h2]
      · simp only [mapPush, if_neg hk, mapGet, if_neg hn, ih]

/-- The lookup in the map after a new entry was added at its end. -/
theorem mapGet_append (event name : JsString) (ls : List Listener) :
    ∀ (m : List (JsString × List Listener)),
      mapGet name (m ++ [(event, ls)]) =
        match mapGet name m with
        | some x => some x
        | none => if event = name then some ls else none := by
  intro m
  induction m with
  | nil => simp [mapGet]
  | cons p m ih =>
    obtain ⟨k, x⟩ := p
    by_cases hn : k = name
    · simp [mapGet, hn]
    · rw [List.cons_append]
      simp only [mapGet, if_neg hn]
      exact ih

/-- The listeners of an event after one registration. -/
theorem EventEmitter.listenersOf_on (e : EventEmitter) (event name : JsString) (l : Listener) :
    (e.on event l).listenersOf name =
      if event = name then e.listenersOf name ++ [l] else e.listenersOf name := by
  unfold EventEmitter.on EventEmitter.listenersOf
  cases hg : mapGet event e.listeners with
  | none =>
    simp only [mapGet_append]
    by_cases hn : event = name
    · subst hn; simp [hg]
    · cases mapGet name e.listeners <;> simp [hn]
  | some x =>
    simp only [mapGet_mapPush]
    by_cases hn : event = name
    · subst hn; simp [hg]
    · simp [hn]

/-- The listeners of an event after a sequence of registrations. -/
theorem EventEmitter.listenersOf_onAll (name : JsString) :
    ∀ (regs : List (JsString × Listener)) (e : EventEmitter),
      (e.onAll regs).listenersOf name =
        e.listenersOf name ++ (regs.filter (fun r => decide (r.1 = name))).map (fun r => r.2) := by
  intro regs
  induction regs with
  | nil => intro e; simp [EventEmitter.onAll]
  | cons r regs ih =>
    intro e
    rw [EventEmitter.onAll, ih, EventEmitter.listenersOf_on]
    by_cases hn : r.1 = name
    · simp [hn]
    · simp [hn]

/-- The calls of `emit`: one for each listener of the event. -/
theorem EventEmitter.emit_eq (e : EventEmitter) (name : JsString) (args : List Json) :
    e.emit name args = (e.listenersOf name).map (fun l => (l, args)) := by
  unfold EventEmitter.emit EventEmitter.listenersOf
  cases mapGet name e.listeners <;> simp

/-- One more registration at the end of a sequence. -/
theorem EventEmitter.onAll_append (e : EventEmitter) (regs : List (JsString × Listener))
    (event : JsString) (l : Listener) :
    e.onAll (regs ++ [(event, l)]) = (e.onAll regs).on event l := by
  induction regs generalizing e with
  | nil => rfl
  | cons r regs ih =>
    rw [List.cons_append]
    simp only [EventEmitter.onAll]
    exact ih _

/-- The calls of `emit` after a sequence of registrations on a new emitter. -/
theorem EventEmitter.emit_onAll (regs : List (JsString × Listener)) (name : JsString)
    (args : List Json) :
    (EventEmitter.new.onAll regs).emit name args =
      (regs.filter (fun r => decide (r.1 = name))).map (fun r => (r.2, args)) := by
  rw [EventEmitter.emit_eq, EventEmitter.listenersOf_onAll]
  simp [EventEmitter.listenersOf, EventEmitter.new, mapGet]

/-- C17. After a sequence of calls `on(event, listener)` on a new emitter,
`emit(name, ...args)` calls the listeners registered for `name`, once for each
registration and in the order of the registrations, each with the arguments
`args`, and calls no other listener; when no listener was registered for `name`
it makes no call. -/
theorem C17_emit_calls_registered (regs : List (JsString × Listener)) (name : JsString)
    (args : List Json) :
    (EventEmitter.new.onAll regs).emit name args =
      (regs.filter (fun r => decide (r.1 = name))).map (fun r => (r.2, args)) ∧
    ((∀ r ∈ regs, r.1 ≠ name) → (EventEmitter.new.onAll regs).emit name args = []) := by
  refine ⟨EventEmitter.emit_onAll regs name args, fun hn => ?_⟩
  rw [EventEmitter.emit_onAll, List.map_eq_nil_iff, List.filter_eq_nil_iff]
  intro r hr
  simpa using hn r hr

/-- A handler registered twice and a handler of another event, to apply C17 to. -/
theorem C17_emit_calls_registered_witness :
    (EventEmitter.new.onAll [(js "a", 1), (js "b", 2), (js "a", 3), (js "a", 1)]).emit (js "a")
        [.null] = [(1, [.null]), (3, [.null]), (1, [.null])] ∧
    (EventEmitter.new.onAll [(js "a", 1)]).emit (js "c") [.null] = [] :=
  ⟨(C17_emit_calls_registered _ (js "a") [.null]).1,
   (C17_emit_calls_registered [(js "a", 1)] (js "c") [.null]).2 (by decide)⟩

/-- A text without data has no code unit at index 2. -/
theorem substring_eq_nil_of_charAt (data : JsString) (h : charAt data 2 = []) :
    substring data 2 = [] := by
  match data with
  | [] => rfl
  | [_] => rfl
  | [_, _] => rfl
  | _ :: _ :: c :: r => simp [charAt] at h

/-- The validity of an EVENT packet. -/
theorem isPacketValid_event (d : Option Json) :
    isPacketValid ⟨some SIOPacketType.EVENT, d⟩ = true ↔
      ∃ name args, d = some (.arr (.str name :: args)) := by
  have h0 : (some SIOPacketType.EVENT : Option Int) ≠ some SIOPacketType.CONNECT := by decide
  have h1 : (some SIOPacketType.EVENT : Option Int) ≠ some SIOPacketType.DISCONNECT := by decide
  simp only [isPacketValid, if_neg h0, if_neg h1, if_true]
  constructor
  · intro h
    split at h
    · rename_i args
      match args, h with
      | .str name :: rest, _ => exact ⟨name, rest, rfl⟩
      | [], h => simp at h
      | .null :: _, h => simp [typeof] at h
      | .bool _ :: _, h => simp [typeof] at h
      | .num _ :: _, h => simp [typeof] at h
      | .arr _ :: _, h => simp [typeof] at h
      | .obj _ :: _, h => simp [typeof] at h
    · cases h
  · rintro ⟨name, args, rfl⟩
    simp [typeof]

/-- The function `decode` on an EVENT text: the result in terms of `JSON.parse`. -/
theorem decode_event (data : JsString)
    (h : parseInt (charAt data 1) = some SIOPacketType.EVENT) :
    decode data =
      match JSON.parse (substring data 2) with
      | .ok (.arr (.str name :: args)) =>
        .ok ⟨some SIOPacketType.EVENT, some (.arr (.str name :: args))⟩
      | .ok _ => .error (.Error (js "invalid format"))
      | .error e => if charAt data 2 = [] then .error (.Error (js "invalid format")) else .error e := by
  unfold decode
  rw [h]
  by_cases hc : charAt data 2 = []
  · rw [if_neg (by simpa using hc)]
    have hv : isPacketValid ⟨some SIOPacketType.EVENT, none⟩ = false := by decide
    rw [hv, substring_eq_nil_of_charAt data hc, JSON.parse_nil]
    simp [hc]
  · rw [if_pos hc]
    cases hp : JSON.parse (substring data 2) with
    | error e => simp [hc]
    | ok d =>
      simp only
      by_cases hv : isPacketValid ⟨some SIOPacketType.EVENT, some d⟩ = true
      · obtain ⟨name, args, hd⟩ := (isPacketValid_event _).1 hv
        cases hd
        rw [if_pos hv]
      · rw [if_neg hv]
        split
        · rename_i name args heq
          cases heq
          exact absurd ((isPacketValid_event _).2 ⟨name, args, rfl⟩) hv
        · rfl
        · rename_i heq; cases heq

/-- The type of a decoded packet is the number `parseInt` reads at index 1. -/
theorem decode_type {data : JsString} {p : Packet} (h : decode data = .ok p) :
    p.type = parseInt (charAt data 1) := by
  unfold decode at h
  split at h
  · cases hp : JSON.parse (substring data 2) with
    | error e => rw [hp] at h; cases h
    | ok d =>
      rw [hp] at h
      simp only at h
      split at h
      · cases h; rfl
      · cases h
  · split at h
    · cases h; rfl
    · cases h

/-- C16. On a text of the EVENT kind, `decode` succeeds exactly when the text from
index 2 on is the JSON text of an array with a string in front, and it then
returns the EVENT packet whose data is that array, the name first and the
arguments after it. It throws when there is no data, when the data is not an
array, when it is the empty array and when its first element is not a string. -/
theorem C16_decode_event_validity (data : JsString)
    (h : parseInt (charAt data 1) = some SIOPacketType.EVENT) :
    ((∃ p, decode data = .ok p) ↔
      ∃ name args, JSON.parse (substring data 2) = .ok (.arr (.str name :: args))) ∧
    (∀ name args, JSON.parse (substring data 2) = .ok (.arr (.str name :: args)) →
      decode data = .ok ⟨some SIOPacketType.EVENT, some (.arr (.str name :: args))⟩) ∧
    (charAt data 2 = [] → decode data = .error (.Error (js "invalid format"))) ∧
    (∀ d, JSON.parse (substring data 2) = .ok d → (∀ xs, d ≠ .arr xs) →
      decode data = .error (.Error (js "invalid format"))) ∧
    (JSON.parse (substring data 2) = .ok (.arr []) →
      decode data = .error (.Error (js "invalid format"))) ∧
    (∀ x xs, JSON.parse (substring data 2) = .ok (.arr (x :: xs)) → (∀ name, x ≠ .str name) →
      decode data = .error (.Error (js "invalid format"))) := by
  have key := decode_event data h
  refine ⟨⟨?_, ?_⟩, ?_, ?_, ?_, ?_, ?_⟩
  · rintro ⟨p, hp⟩
    rw [hp] at key
    split at key
    · rename_i name args heq; exact ⟨name, args, heq⟩
    · cases key
    · split at key <;> cases key
  · rintro ⟨name, args, hp⟩
    rw [hp] at key
    exact ⟨_, key⟩
  · intro name args hp
    rw [hp] at key
    exact key
  · intro hc
    rw [substring_eq_nil_of_charAt data hc, JSON.parse_nil] at key
    simpa [hc] using key
  · intro d hp hn
    rw [hp] at key
    rw [key]
    split
    · rename_i name args heq; cases heq; exact absurd rfl (hn _)
    · rfl
    · rename_i heq; cases heq
  · intro hp
    rw [hp] at key
    exact key
  · intro x xs hp hn
    rw [hp] at key
    rw [key]
    split
    · rename_i name args heq; cases heq; exact absurd rfl (hn _)
    · rfl
    · rename_i heq; cases heq

/-- An EVENT text with two arguments and one whose first element is a number, to
apply C16 to. -/
theorem C16_decode_event_validity_witness :
    parseInt (charAt (js "42[\"chat\",1,null]") 1) = some SIOPacketType.EVENT ∧
    decode (js "42[\"chat\",1,null]") =
      .ok ⟨some SIOPacketType.EVENT,
        some (.arr [.str (js "chat"), .num (JsNumber.ofInt 1), .null])⟩ ∧
    decode (js "42[1,\"chat\"]") = .error (.Error (js "invalid format")) :=
  ⟨by decide, (C16_decode_event_validity (js "42[\"chat\",1,null]") (by decide)).2.1 _ _ (by decide),
   (C16_decode_event_validity (js "42[1,\"chat\"]") (by decide)).2.2.2.2.2 _ _
     (show JSON.parse (substring (js "42[1,\"chat\"]") 2) =
       .ok (.arr [.num (JsNumber.ofInt 1), .str (js "chat")]) by decide)
     (fun name h => by cases h)⟩

/-- The method `onMessage` on a MESSAGE frame that carries an EVENT packet. -/
theorem Socket.onMessage_event (s : Socket) (data : JsString) (name : JsString)
    (args : List Json) (h4 : data.head? = some EIOPacketType.MESSAGE)
    (hd : decode data = .ok ⟨some SIOPacketType.EVENT, some (.arr (.str name :: args))⟩) :
    s.onMessage (.text data) = .ok (s.superEmit name args) := by
  unfold Socket.onMessage
  simp [h4, hd, EIOPacketType.MESSAGE, EIOPacketType.OPEN, EIOPacketType.CLOSE,
    EIOPacketType.PING, Socket.onPacket, Socket.superEmitApply, SIOPacketType.EVENT,
    SIOPacketType.CONNECT, SIOPacketType.DISCONNECT]

/-- A decoded packet of the EVENT kind carries an array with a string in front. -/
theorem decode_event_data {data : JsString} {p : Packet} (hd : decode data = .ok p)
    (he : p.type = some SIOPacketType.EVENT) :
    ∃ name args, p = ⟨some SIOPacketType.EVENT, some (.arr (.str name :: args))⟩ := by
  have ht := decode_type hd
  rw [he] at ht
  have key := decode_event data ht.symm
  rw [hd] at key
  split at key
  · rename_i name args heq; exact ⟨name, args, Except.ok.inj key⟩
  · cases key
  · split at key <;> cases key

/-- C13. A MESSAGE frame that carries an EVENT packet makes the socket call the
listeners registered for the name of the event, in the order of their
registration, each with the arguments that follow the name in the data of the
packet; a listener registered for another name only is not called, and nothing
of the state changes but the record of the event and of the calls. This holds
for the frame `4` followed by the encoded EVENT packet, and for every frame
`decode` reads as an EVENT packet. -/
theorem C13_event_dispatch (s : Socket) (regs : List (JsString × Listener))
    (hl : s.toEventEmitter = EventEmitter.new.onAll regs) :
    (∀ name args,
      s.onMessage (.text (EIOPacketType.MESSAGE :: encode (eventPacket (.str name :: args)))) =
        .ok { s with
          emitted := s.emitted ++ [(name, args)]
          invoked := s.invoked ++
            (regs.filter (fun r => decide (r.1 = name))).map (fun r => (r.2, args)) }) ∧
    (∀ data p, data.head? = some EIOPacketType.MESSAGE → decode data = .ok p →
      p.type = some SIOPacketType.EVENT →
      ∃ name args, p.data = some (.arr (.str name :: args)) ∧
        s.onMessage (.text data) = .ok { s with
          emitted := s.emitted ++ [(name, args)]
          invoked := s.invoked ++
            (regs.filter (fun r => decide (r.1 = name))).map (fun r => (r.2, args)) }) := by
  have hs : ∀ name args, s.superEmit name args = { s with
      emitted := s.emitted ++ [(name, args)]
      invoked := s.invoked ++
        (regs.filter (fun r => decide (r.1 = name))).map (fun r => (r.2, args)) } := by
    intro name args
    unfold Socket.superEmit
    rw [hl, EventEmitter.emit_onAll regs name args]
  constructor
  · intro name args
    rw [← hs]
    exact Socket.onMessage_event s _ name args rfl
      (decode_frame _ _ (Or.inr (Or.inr ⟨rfl, name, args, rfl⟩)))
  · intro data p h4 hd he
    obtain ⟨name, args, rfl⟩ := decode_event_data hd he
    exact ⟨name, args, rfl, by rw [← hs]; exact Socket.onMessage_event s data name args h4 hd⟩

/-- The frame of the scenario, to apply C13 to: a listener of `chat`, a listener
of another event, and the EVENT packet `chat` with one object as argument,
received by a connected socket. -/
theorem C13_event_dispatch_witness :
    ∃ t, Socket.onMessage
        { ((Socket.new (js "http://h") ⟨none, none⟩).on (js "chat") 7).on (js "other") 8 with
          connected := true, id := some (.str (js "abc")) }
        (.text (js "42[\"chat\",\x7b\"text\":\"hi\"\x7d]")) = .ok t ∧
      t.invoked = [(7, [.obj [(js "text", .str (js "hi"))]])] ∧
      t.emitted = [(js "chat", [.obj [(js "text", .str (js "hi"))]])] ∧
      t.connected = true ∧ t.id = some (.str (js "abc")) := by
  obtain ⟨name, args, h1, h2⟩ := (C13_event_dispatch
    { ((Socket.new (js "http://h") ⟨none, none⟩).on (js "chat") 7).on (js "other") 8 with
      connected := true, id := some (.str (js "abc")) }
    [(js "chat", 7), (js "other", 8)] (by decide)).2
    (js "42[\"chat\",\x7b\"text\":\"hi\"\x7d]")
    ⟨some SIOPacketType.EVENT, some (.arr [.str (js "chat"), .obj [(js "text", .str (js "hi"))]])⟩
    (by decide) (by decide) rfl
  cases h1
  exact ⟨_, h2, by decide, by decide, rfl, rfl⟩

/-- C18. The function `decode` throws on each of the five texts `0`, `1x`, `2[]`,
`2[1,2]` and `5` followed by an empty object, and also on each of them behind
the `4` of a MESSAGE frame. -/
theorem C18_decode_rejects :
    decode (js "0") = .error (JsError.Error (js "invalid format")) ∧
    decode (js "1x") = .error (JsError.Error (js "invalid format")) ∧
    decode (js "2[]") = .error JsError.SyntaxError ∧
    decode (js "2[1,2]") = .error JsError.SyntaxError ∧
    decode (js "5\x7b\x7d") = .error JsError.SyntaxError ∧
    decode (js "40") = .error (JsError.Error (js "invalid format")) ∧
    decode (js "41x") = .error JsError.SyntaxError ∧
    decode (js "42[]") = .error (JsError.Error (js "invalid format")) ∧
    decode (js "42[1,2]") = .error (JsError.Error (js "invalid format")) ∧
    decode (js "45\x7b\x7d") = .error (JsError.Error (js "invalid format")) := by
  decide

/-! ## The heartbeat -/

/-- Cancelling trailing zeros keeps the value. -/
theorem JsNumber.normalize_toRat : ∀ (s : Nat) (m : Int),
    (JsNumber.normalize m s).toRat = (m : ℚ) / (10 : ℚ) ^ s := by
  intro s
  induction s with
  | zero => intro m; simp [JsNumber.normalize, JsNumber.toRat]
  | succ s ih =>
    intro m
    rw [JsNumber.normalize]
    split
    · rename_i h
      rw [ih]
      obtain ⟨k, hk⟩ : ∃ k, m = 10 * k := ⟨m / 10, by omega⟩
      subst hk
      rw [Int.mul_ediv_cancel_left _ (by norm_num)]
      push_cast
      rw [pow_succ]
      field_simp
      ring
    · rfl

/-- A quotient without remainder is not rounded. -/
theorem roundHalfEven_mul (a d : Nat) (hd : 0 < d) : roundHalfEven (a * d) d = a := by
  unfold roundHalfEven
  rw [Nat.mul_mod_left, Nat.mul_div_cancel _ hd]
  simp
  omega

/-- The rounded quotient is at most one half away from the quotient. -/
theorem roundHalfEven_error (n d : Nat) (hd : 0 < d) :
    2 * ((n : Int) - (roundHalfEven n d : Int) * d).natAbs ≤ d := by
  have h1 := Nat.div_add_mod n d
  have h2 := Nat.mod_lt n hd
  unfold roundHalfEven
  generalize n / d = k at *
  generalize n % d = r at *
  have hn : (n : Int) = d * k + r := by exact_mod_cast h1.symm
  split
  · rename_i h
    have hr : d ≤ 2 * r := by omega
    push_cast
    have : (n : Int) - ((k : Int) + 1) * d = -((d : Int) - r) := by rw [hn]; ring
    rw [this, Int.natAbs_neg]
    omega
  · rename_i h
    have hr : 2 * r ≤ d := by omega
    have : (n : Int) - (k : Int) * d = r := by rw [hn]; ring
    rw [this]
    omega

/-- With enough fuel the halvings give the binary logarithm of the library. -/
theorem log2Aux_eq : ∀ (fuel n : Nat), n ≤ fuel → log2Aux fuel n = Nat.log2 n := by
  intro fuel
  induction fuel with
  | zero =>
    intro n hn
    have : n = 0 := by omega
    subst this
    simp [log2Aux, Nat.log2]
  | succ f ih =>
    intro n hn
    rw [log2Aux, Nat.log2]
    by_cases h : 2 ≤ n
    · rw [if_pos h, if_pos h, ih (n / 2) (by omega)]
    · rw [if_neg h, if_neg h]

/-- The binary logarithm is the one of the library. -/
theorem binaryLog_eq (n : Nat) : binaryLog n = Nat.log2 n := log2Aux_eq n n (Nat.le_refl n)

/-- The binary logarithm of a number times a power of two. -/
theorem log2_mul_two_pow (k j : Nat) (hk : k ≠ 0) : (k * 2 ^ j).log2 = k.log2 + j := by
  have hpos : 0 < 2 ^ j := Nat.two_pow_pos j
  have hne : k * 2 ^ j ≠ 0 := Nat.mul_ne_zero hk (by omega)
  apply Nat.le_antisymm
  · have : (k * 2 ^ j).log2 < k.log2 + j + 1 := by
      rw [Nat.log2_lt hne]
      have := @Nat.lt_log2_self k
      calc k * 2 ^ j < 2 ^ (k.log2 + 1) * 2 ^ j := Nat.mul_lt_mul_of_pos_right this hpos
        _ = 2 ^ (k.log2 + j + 1) := by rw [← pow_add]; congr 1; omega
    omega
  · rw [Nat.le_log2 hne, pow_add]
    exact Nat.mul_le_mul_right _ (Nat.log2_self_le hk)

/-- The exponent of the last place of a natural number below `2 ^ 53`, written as a
quotient by a power of two. -/
theorem ulpExponent_exact (k j : Nat) (hk : 0 < k) (h53 : k < 2 ^ 53) :
    ulpExponent (k * 2 ^ j) (2 ^ j) = (k.log2 : Int) - 52 := by
  have hk0 : k ≠ 0 := by omega
  have hl : k.log2 < 53 := (Nat.log2_lt hk0).2 h53
  have hle := Nat.log2_self_le hk0
  unfold ulpExponent
  rw [binaryLog_eq, binaryLog_eq, log2_mul_two_pow k j hk0, Nat.log2_two_pow]
  have e1 : ((k.log2 + j : Nat) : Int) - (j : Int) = (k.log2 : Int) := by push_cast; ring
  simp only [e1]
  rw [if_pos (by omega), Int.toNat_ofNat]
  rw [if_pos (by rw [Nat.mul_comm]; exact Nat.mul_le_mul_right _ hle)]
  omega

/-- A natural number below `2 ^ 53` is a double: it is not rounded. -/
theorem roundToDouble_exact (s : Bool) (k j : Nat) (hk : 0 < k) (h53 : k < 2 ^ 53) :
    roundToDouble s (k * 2 ^ j) (2 ^ j) =
      .finite s (k * 2 ^ (52 - k.log2)) ((k.log2 : Int) - 52) := by
  have hk0 : k ≠ 0 := by omega
  have hl : k.log2 < 53 := (Nat.log2_lt hk0).2 h53
  have hle := Nat.log2_self_le hk0
  have hpos : 0 < 2 ^ j := Nat.two_pow_pos j
  have hne : k * 2 ^ j ≠ 0 := Nat.mul_ne_zero hk0 (by omega)
  unfold roundToDouble
  rw [if_neg hne, ulpExponent_exact k j hk h53]
  simp only
  have hm : (if (k.log2 : Int) - 52 < 0
      then roundHalfEven (k * 2 ^ j * 2 ^ (-((k.log2 : Int) - 52)).toNat) (2 ^ j)
      else roundHalfEven (k * 2 ^ j) (2 ^ j * 2 ^ ((k.log2 : Int) - 52).toNat)) =
      k * 2 ^ (52 - k.log2) := by
    by_cases hlt : (k.log2 : Int) - 52 < 0
    · rw [if_pos hlt]
      have : (-((k.log2 : Int) - 52)).toNat = 52 - k.log2 := by omega
      rw [this, Nat.mul_right_comm]
      exact roundHalfEven_mul _ _ hpos
    · rw [if_neg hlt]
      have h52 : k.log2 = 52 := by omega
      have : ((k.log2 : Int) - 52).toNat = 0 := by omega
      rw [this, h52]
      simp only [pow_zero, Nat.mul_one, Nat.sub_self]
      exact roundHalfEven_mul _ _ hpos
  rw [hm]
  have hmpos : 0 < k * 2 ^ (52 - k.log2) := Nat.mul_pos hk (Nat.two_pow_pos _)
  have hmlt : k * 2 ^ (52 - k.log2) < 2 ^ 53 := by
    have h1 := @Nat.lt_log2_self k
    calc k * 2 ^ (52 - k.log2) < 2 ^ (k.log2 + 1) * 2 ^ (52 - k.log2) :=
          Nat.mul_lt_mul_of_pos_right h1 (Nat.two_pow_pos _)
      _ = 2 ^ 53 := by rw [← pow_add]; congr 1; omega
  rw [if_neg (by omega), if_neg (by omega), if_neg (by omega)]

/-- Trailing zeros are cancelled altogether. -/
theorem JsNumber.normalize_mul_pow (x : Int) : ∀ (j : Nat),
    JsNumber.normalize (x * 10 ^ j) j = JsNumber.ofInt x := by
  intro j
  induction j with
  | zero => simp [JsNumber.normalize, JsNumber.ofInt]
  | succ j ih =>
    rw [JsNumber.normalize]
    have hd : x * 10 ^ (j + 1) % 10 = 0 := by
      rw [pow_succ, ← mul_assoc]; exact Int.mul_emod_left _ _
    rw [dif_pos hd]
    have : x * 10 ^ (j + 1) / 10 = x * 10 ^ j := by
      rw [pow_succ, ← mul_assoc]; exact Int.mul_ediv_cancel _ (by norm_num)
    rw [this]
    exact ih

/-- The decimal value of the double of a natural number below `2 ^ 53`. -/
theorem JsNumber.ofDouble_exact (s : Bool) (k : Nat) (hl : k.log2 ≤ 52) :
    JsNumber.ofDouble s (k * 2 ^ (52 - k.log2)) ((k.log2 : Int) - 52) =
      JsNumber.ofInt (if s then -(k : Int) else k) := by
  unfold JsNumber.ofDouble
  by_cases h52 : k.log2 = 52
  · rw [if_pos (by omega), h52]
    simp
  · rw [if_neg (by omega)]
    have : (-((k.log2 : Int) - 52)).toNat = 52 - k.log2 := by omega
    rw [this]
    have e : (if s then -((k * 2 ^ (52 - k.log2) : Nat) : Int) else ((k * 2 ^ (52 - k.log2) : Nat) : Int)) *
        5 ^ (52 - k.log2) = (if s then -(k : Int) else k) * 10 ^ (52 - k.log2) := by
      have h10 : (10 : Int) ^ (52 - k.log2) = 2 ^ (52 - k.log2) * 5 ^ (52 - k.log2) := by
        rw [← mul_pow]; norm_num
      cases s <;> simp only [if_true, if_false, Bool.false_eq_true] <;> push_cast <;> rw [h10] <;> ring
    rw [e]
    exact JsNumber.normalize_mul_pow _ _

/-- The double of an integer of magnitude below `2 ^ 53`, written as a quotient by a
power of two. -/
theorem roundToDouble_int (k : Int) (j : Nat) (h : k.natAbs < 2 ^ 53) :
    roundToDouble (decide (k < 0)) (k.natAbs * 2 ^ j) (2 ^ j) =
      if k = 0 then .finite false 0 0
      else .finite (decide (k < 0)) (k.natAbs * 2 ^ (52 - k.natAbs.log2))
        ((k.natAbs.log2 : Int) - 52) := by
  by_cases hk : k = 0
  · subst hk
    simp [roundToDouble]
  · rw [if_neg hk]
    exact roundToDouble_exact _ _ _ (by omega) h

/-- The double of an integer of magnitude below `2 ^ 53`. -/
theorem JsNumber.toDouble_ofInt (k : Int) (h : k.natAbs < 2 ^ 53) :
    (JsNumber.ofInt k).toDouble =
      if k = 0 then .finite false 0 0
      else .finite (decide (k < 0)) (k.natAbs * 2 ^ (52 - k.natAbs.log2))
        ((k.natAbs.log2 : Int) - 52) := by
  have := roundToDouble_int k 0 h
  simp only [pow_zero, Nat.mul_one] at this
  unfold JsNumber.toDouble
  simpa [JsNumber.ofInt] using this

/-- The double of an integer of magnitude below `2 ^ 53` has an exponent of at most
zero, and its significand is the integer shifted that far. -/
theorem JsNumber.toDouble_ofInt_rep (k : Int) (h : k.natAbs < 2 ^ 53) :
    ∃ s M E, (JsNumber.ofInt k).toDouble = .finite s M E ∧ E ≤ 0 ∧
      (if s then -(M : Int) else M) = k * 2 ^ (-E).toNat := by
  rw [JsNumber.toDouble_ofInt k h]
  by_cases hk : k = 0
  · subst hk
    exact ⟨false, 0, 0, by simp, le_refl _, by simp⟩
  · rw [if_neg hk]
    have hk0 : k.natAbs ≠ 0 := by omega
    have hl : k.natAbs.log2 < 53 := (Nat.log2_lt hk0).2 h
    refine ⟨_, _, _, rfl, by omega, ?_⟩
    have e : (-((k.natAbs.log2 : Int) - 52)).toNat = 52 - k.natAbs.log2 := by omega
    rw [e]
    by_cases hneg : k < 0
    · simp only [hneg, decide_True, if_true]
      push_cast
      rw [abs_of_neg hneg]; ring
    · simp only [hneg, decide_False, Bool.false_eq_true, if_false]
      push_cast
      rw [abs_of_nonneg (by omega)]

/-- The sum of two doubles that hold integers, when the integers and their sum are
of magnitude below `2 ^ 53`: the double of the sum of the integers. -/
theorem JsDouble.add_ofInt (m n : Int) (hm : m.natAbs < 2 ^ 53) (hn : n.natAbs < 2 ^ 53)
    (hs : (m + n).natAbs < 2 ^ 53) :
    (JsNumber.ofInt m).toDouble.add (JsNumber.ofInt n).toDouble =
      (JsNumber.ofInt (m + n)).toDouble := by
  obtain ⟨s, M, E, h1, hE, hM⟩ := JsNumber.toDouble_ofInt_rep m hm
  obtain ⟨t, N, F, h2, hF, hN⟩ := JsNumber.toDouble_ofInt_rep n hn
  rw [h1, h2, JsNumber.toDouble_ofInt _ hs, ← roundToDouble_int (m + n) (-(min E F)).toNat hs]
  unfold JsDouble.add
  simp only
  rw [hM, hN]
  have hg : min E F ≤ 0 := by omega
  have hsum : m * 2 ^ (-E).toNat * 2 ^ (E - min E F).toNat +
      n * 2 ^ (-F).toNat * 2 ^ (F - min E F).toNat = (m + n) * 2 ^ (-(min E F)).toNat := by
    rw [mul_assoc, mul_assoc, ← pow_add, ← pow_add]
    have e1 : (-E).toNat + (E - min E F).toNat = (-(min E F)).toNat := by omega
    have e2 : (-F).toNat + (F - min E F).toNat = (-(min E F)).toNat := by omega
    rw [e1, e2]; ring
  rw [hsum]
  have hpos : (0 : Int) < 2 ^ (-(min E F)).toNat := by positivity
  have hlt : ((m + n) * 2 ^ (-(min E F)).toNat < 0) ↔ (m + n < 0) := by
    constructor
    · intro h
      by_contra hc
      have : 0 ≤ (m + n) * 2 ^ (-(min E F)).toNat := mul_nonneg (by omega) (le_of_lt hpos)
      omega
    · intro h
      exact mul_neg_of_neg_of_pos h hpos
  have habs : ((m + n) * 2 ^ (-(min E F)).toNat).natAbs =
      (m + n).natAbs * 2 ^ (-(min E F)).toNat := by
    rw [Int.natAbs_mul, Int.natAbs_pow]; rfl
  have hdec : decide ((m + n) * 2 ^ (-(min E F)).toNat < 0) = decide (m + n < 0) := by
    simp only [hlt]
  rw [hdec, habs]
  by_cases h0 : 0 ≤ min E F
  · rw [if_pos h0]
    have hz : min E F = 0 := by omega
    simp [hz]
  · rw [if_neg h0]

/-- The decimal value of the double of an integer of magnitude below `2 ^ 53` is the
integer. -/
theorem JsNumber.ofDouble_toDouble (k : Int) (h : k.natAbs < 2 ^ 53) :
    ∃ s M E, (JsNumber.ofInt k).toDouble = .finite s M E ∧
      JsNumber.ofDouble s M E = JsNumber.ofInt k := by
  rw [JsNumber.toDouble_ofInt k h]
  by_cases hk : k = 0
  · subst hk
    exact ⟨false, 0, 0, by simp, by simp [JsNumber.ofDouble]⟩
  · rw [if_neg hk]
    have hk0 : k.natAbs ≠ 0 := by omega
    have hl : k.natAbs.log2 < 53 := (Nat.log2_lt hk0).2 h
    refine ⟨_, _, _, rfl, ?_⟩
    rw [JsNumber.ofDouble_exact _ _ (by omega)]
    congr 1
    by_cases hneg : k < 0
    · simp only [hneg, decide_True, if_true]; omega
    · simp only [hneg, decide_False, Bool.false_eq_true, if_false]; omega

/-- The decimal value of a finite double is the value of the double. -/
theorem JsNumber.ofDouble_toRat (negative : Bool) (m : Nat) (e : Int) :
    (JsNumber.ofDouble negative m e).toRat =
      (if negative then -(m : ℚ) else m) * (2 : ℚ) ^ e := by
  unfold JsNumber.ofDouble
  by_cases he : 0 ≤ e
  · rw [if_pos he]
    obtain ⟨k, rfl⟩ := Int.eq_ofNat_of_zero_le he
    cases negative <;> simp [JsNumber.toRat, JsNumber.ofInt]
  · rw [if_neg he, JsNumber.normalize_toRat]
    obtain ⟨k, hk⟩ : ∃ k : Nat, e = -(k : Int) := ⟨(-e).toNat, by omega⟩
    subst hk
    have h10 : (10 : ℚ) ^ k = 2 ^ k * 5 ^ k := by rw [← mul_pow]; norm_num
    have h2 : (2 : ℚ) ^ k ≠ 0 := pow_ne_zero _ (by norm_num)
    have h5 : (5 : ℚ) ^ k ≠ 0 := pow_ne_zero _ (by norm_num)
    simp only [neg_neg, Int.toNat_ofNat, zpow_neg, zpow_natCast]
    rw [h10]
    cases negative <;> simp <;> field_simp <;> ring

/-- The sum of two doubles that hold integers of magnitude below `2 ^ 53`, as the
operator `+` gives it: the sum of the integers, when it is below `2 ^ 53` too. -/
theorem jsAdd_ofInt (m n : Int) (hm : m.natAbs < 2 ^ 53) (hn : n.natAbs < 2 ^ 53)
    (hs : (m + n).natAbs < 2 ^ 53) :
    jsAdd (some (.num (JsNumber.ofInt m))) (some (.num (JsNumber.ofInt n))) =
      Delay.number (JsNumber.ofInt (m + n)) := by
  obtain ⟨s, M, E, h1, h2⟩ := JsNumber.ofDouble_toDouble (m + n) hs
  simp only [jsAdd, JsDouble.add_ofInt m n hm hn hs, h1, JsDouble.toDelay, h2]

/-- The sum of one tenth and two tenths is rounded as a double: it is the double
that is written `0.30000000000000004`, whose significand is one above that of
the double written `0.3`. -/
theorem jsAdd_rounds :
    (JsNumber.normalize 1 1).toDouble.add (JsNumber.normalize 2 1).toDouble =
      .finite false 5404319552844596 (-54) ∧
    (JsNumber.normalize 30000000000000004 17).toDouble = .finite false 5404319552844596 (-54) ∧
    (JsNumber.normalize 3 1).toDouble = .finite false 5404319552844595 (-54) ∧
    jsAdd (some (.num (JsNumber.normalize 1 1))) (some (.num (JsNumber.normalize 2 1))) =
      Delay.number (JsNumber.ofDouble false 5404319552844596 (-54)) := by
  have h : (JsNumber.normalize 1 1).toDouble.add (JsNumber.normalize 2 1).toDouble =
      .finite false 5404319552844596 (-54) := by decide
  refine ⟨h, by decide, by decide, ?_⟩
  simp only [jsAdd, h, JsDouble.toDelay]

/-- The event the close routine emits. -/
theorem Socket.onClose_emitted (s : Socket) (r : JsString) :
    (s.onClose r).emitted = s.emitted ++
      [(if s.connected then js "disconnect" else js "connect_error", [Json.str r])] := by
  rcases Bool.eq_false_or_eq_true s.connected with hc | hc
  · rw [(s.onClose_emitted_connected r hc).2.2, hc]; rfl
  · rw [(s.onClose_emitted_not_connected r hc).2.2, hc]; rfl

/-- Under the invariant the timers `clearTimeout` leaves for the heartbeat handle
are those that are no heartbeat timers. -/
theorem Socket.Inv.filter_ping {s : Socket} (hi : s.Inv) :
    s.timers.filter (fun t => decide (some t.id ≠ s.pingTimeoutTimer)) =
      s.timers.filter (fun t => decide (t.action ≠ TimerAction.pingTimeout)) := by
  apply List.filter_congr
  intro t ht
  cases ha : t.action
  · have := hi.pingOwned t ht ha
    simp [this]
  · have h1 := hi.reconnectOwned t ht ha
    have h2 : s.pingTimeoutTimer ≠ some t.id := fun h => hi.distinct _ h h1
    have h3 : ¬ some t.id = s.pingTimeoutTimer := fun h => h2 h.symm
    simp [h3]

/-- The method `onMessage` on an OPEN frame whose payload is a JSON text that is
not `null`. -/
theorem Socket.onMessage_open (s : Socket) (w : WebSocket) (payload : JsString)
    (handshake : Json) (a b : Option Json) (hw : s.ws = some w)
    (hp : JSON.parse payload = .ok handshake)
    (h1 : handshake.getProp (js "pingInterval") = .ok a)
    (h2 : handshake.getProp (js "pingTimeout") = .ok b) :
    s.onMessage (.text (EIOPacketType.OPEN :: payload)) = .ok { s with
      pingTimeoutDelay := some (jsAdd a b)
      timers := s.timers.filter (fun t => decide (some t.id ≠ s.pingTimeoutTimer)) ++
        [⟨s.nextTimerId, TimerAction.pingTimeout, some (jsAdd a b)⟩]
      nextTimerId := s.nextTimerId + 1
      pingTimeoutTimer := some s.nextTimerId
      ws := some (if w.readyState = ReadyState.OPEN then
        { w with sent := w.sent ++ [js "40"] } else w) } := by
  have he : EIOPacketType.MESSAGE :: encode ⟨some SIOPacketType.CONNECT, none⟩ = js "40" := by
    decide
  simp only [Socket.onMessage, List.head?_cons, if_true, Socket.onOpen, substring, List.drop_succ_cons,
    List.drop_zero, hp, h1, h2, Socket.doConnect, Socket.sendPacket, he]
  rw [Socket.send_ok (w := w) _ (by simp [Socket.resetPingTimeout, Socket.setTimeout, Socket.clearTimeout, hw])]
  by_cases ho : w.readyState = ReadyState.OPEN
  · simp [ho, Socket.resetPingTimeout, Socket.setTimeout, Socket.clearTimeout]
  · simp [ho, Socket.resetPingTimeout, Socket.setTimeout, Socket.clearTimeout, hw]

/-- The method `onMessage` on a PING frame. -/
theorem Socket.onMessage_ping (s : Socket) (w : WebSocket) (data : JsString)
    (hw : s.ws = some w) (h2 : data.head? = some EIOPacketType.PING) :
    s.onMessage (.text data) = .ok { s with
      timers := s.timers.filter (fun t => decide (some t.id ≠ s.pingTimeoutTimer)) ++
        [⟨s.nextTimerId, TimerAction.pingTimeout, s.pingTimeoutDelay⟩]
      nextTimerId := s.nextTimerId + 1
      pingTimeoutTimer := some s.nextTimerId
      ws := some (if w.readyState = ReadyState.OPEN then
        { w with sent := w.sent ++ [[EIOPacketType.PONG]] } else w) } := by
  simp only [Socket.onMessage, h2, EIOPacketType.PING, EIOPacketType.OPEN, EIOPacketType.CLOSE]
  rw [if_neg (by decide), if_neg (by decide), if_pos trivial]
  rw [Socket.send_ok (w := w) _ (by simp [Socket.resetPingTimeout, Socket.setTimeout, Socket.clearTimeout, hw])]
  by_cases ho : w.readyState = ReadyState.OPEN
  · simp [ho, Socket.resetPingTimeout, Socket.setTimeout, Socket.clearTimeout]
  · simp [ho, Socket.resetPingTimeout, Socket.setTimeout, Socket.clearTimeout, hw]

/-- After the close routine no heartbeat timer is pending. -/
theorem Socket.onClose_no_ping (s : Socket) (r : JsString) (hi : s.Inv) :
    ∀ u ∈ (s.onClose r).timers, u.action ≠ TimerAction.pingTimeout := by
  intro u hu
  rw [Socket.onClose_timers s r hi] at hu
  split at hu
  · simp at hu; simp [hu]
  · simp at hu

/-- C11. In a reachable state an OPEN frame whose payload is a handshake with the
numbers `a` as `pingInterval` and `b` as `pingTimeout` arms the heartbeat timer
with the delay `a + b`, the sum of the two doubles rounded to the nearest double
(for integers that are, like their sum, of magnitude below `2 ^ 53`: the sum of
the integers), and it is the one heartbeat timer pending. When this timer fires, as whenever a heartbeat timer fires, the close
routine runs with the reason `ping timeout`: the one event emitted carries that
reason and no heartbeat timer is pending afterwards. -/
theorem C11_heartbeat_deadline (uri : JsString) (opts : UserOpts) (s : Socket)
    (payload : JsString) (handshake : Json) (a b : JsNumber)
    (hr : Reachable uri opts s)
    (hp : JSON.parse payload = .ok handshake)
    (h1 : handshake.getProp (js "pingInterval") = .ok (some (.num a)))
    (h2 : handshake.getProp (js "pingTimeout") = .ok (some (.num b))) :
    jsAdd (some (.num a)) (some (.num b)) = (a.toDouble.add b.toDouble).toDelay ∧
    (∀ m n : Int, a = JsNumber.ofInt m → b = JsNumber.ofInt n → m.natAbs < 2 ^ 53 →
      n.natAbs < 2 ^ 53 → (m + n).natAbs < 2 ^ 53 →
      jsAdd (some (.num a)) (some (.num b)) = Delay.number (JsNumber.ofInt (m + n))) ∧
    (∀ (c : Socket) (u : Timer), u.action = TimerAction.pingTimeout →
      c.timerFires u = Socket.onClose
        { c with timers := c.timers.filter (fun v => decide (v.id ≠ u.id)) }
        (js "ping timeout")) ∧
    ∃ t, s.onMessage (.text (EIOPacketType.OPEN :: payload)) = .ok t ∧
      t.pingTimeoutDelay = some (jsAdd (some (.num a)) (some (.num b))) ∧
      t.pingTimeoutTimer = some s.nextTimerId ∧
      t.timers.filter (fun u => decide (u.action = TimerAction.pingTimeout)) =
        [⟨s.nextTimerId, TimerAction.pingTimeout, some (jsAdd (some (.num a)) (some (.num b)))⟩] ∧
      t.timerFires ⟨s.nextTimerId, TimerAction.pingTimeout, some (jsAdd (some (.num a)) (some (.num b)))⟩ =
        Socket.onClose
          { t with timers := t.timers.filter (fun u => decide (u.id ≠ s.nextTimerId)) }
          (js "ping timeout") ∧
      (t.timerFires
          ⟨s.nextTimerId, TimerAction.pingTimeout, some (jsAdd (some (.num a)) (some (.num b)))⟩).emitted =
        t.emitted ++ [(if t.connected then js "disconnect" else js "connect_error",
          [Json.str (js "ping timeout")])] ∧
      ∀ u ∈ (t.timerFires
          ⟨s.nextTimerId, TimerAction.pingTimeout, some (jsAdd (some (.num a)) (some (.num b)))⟩).timers,
        u.action ≠ TimerAction.pingTimeout := by
  obtain ⟨w, hw⟩ := Option.ne_none_iff_exists'.mp hr.inv.hasWs
  have hm := Socket.onMessage_open s w payload handshake _ _ hw hp h1 h2
  have hrt := Reachable.step s _ hr (Step.message s _ _ hm)
  refine ⟨rfl, fun m n ha hb hm hn hs => by rw [ha, hb]; exact jsAdd_ofInt m n hm hn hs,
    fun c u hu => by unfold Socket.timerFires; rw [hu],
    _, hm, rfl, rfl, ?_, rfl, ?_, ?_⟩
  · simp only
    rw [hr.inv.filter_ping, List.filter_append, List.filter_filter]
    simp
  · exact Socket.onClose_emitted _ _
  · intro u hu
    have hi : Socket.Inv { s with
        pingTimeoutDelay := some (jsAdd (some (.num a)) (some (.num b)))
        timers := s.timers.filter (fun t => decide (some t.id ≠ s.pingTimeoutTimer)) ++
          [⟨s.nextTimerId, TimerAction.pingTimeout, some (jsAdd (some (.num a)) (some (.num b)))⟩]
        nextTimerId := s.nextTimerId + 1
        pingTimeoutTimer := some s.nextTimerId
        ws := some (if w.readyState = ReadyState.OPEN then
          { w with sent := w.sent ++ [js "40"] } else w) } := hrt.inv
    exact Socket.onClose_no_ping _ _ (hi.filter (fun u => decide (u.id ≠ s.nextTimerId))) u hu

/-- The handshake of the scenario, to apply C11 to: a ping interval of 20 and a ping
timeout of 5 give the deadline 25. -/
theorem C11_heartbeat_deadline_witness :
    jsAdd (some (.num (JsNumber.ofInt 20))) (some (.num (JsNumber.ofInt 5))) =
      Delay.number (JsNumber.ofInt 25) ∧
    ∃ t, (Socket.new (js "http://h") ⟨none, none⟩).transportOpens.onMessage
        (.text (js "0\x7b\"sid\":\"abc\",\"pingInterval\":20,\"pingTimeout\":5\x7d")) = .ok t ∧
      t.timers.filter (fun u => decide (u.action = TimerAction.pingTimeout)) =
        [⟨0, TimerAction.pingTimeout, some (Delay.number (JsNumber.ofInt 25))⟩] := by
  have h := C11_heartbeat_deadline (js "http://h") ⟨none, none⟩
    (Socket.new (js "http://h") ⟨none, none⟩).transportOpens
    (js "\x7b\"sid\":\"abc\",\"pingInterval\":20,\"pingTimeout\":5\x7d")
    (.obj [(js "sid", .str (js "abc")), (js "pingInterval", .num (.ofInt 20)),
        (js "pingTimeout", .num (.ofInt 5))])
    (.ofInt 20) (.ofInt 5)
    (Reachable.step _ _ Reachable.init (Step.transportOpens _)) rfl rfl rfl
  have h25 := h.2.1 20 5 rfl rfl (by decide) (by decide) (by decide)
  obtain ⟨t, h1, _, _, h2, _⟩ := h.2.2.2
  rw [h25] at h2
  exact ⟨h25, t, h1, h2⟩

/-- C12. In a reachable state whose WebSocket is open, a PING frame cancels the
pending heartbeat timer and arms a new one with the delay the last handshake
stored, so that exactly one heartbeat timer is pending; it transmits the one
frame `3`; nothing else changes: `connected`, `id`, the buffer, the reconnect
flag, the reconnect timer and the record of the local events are as before.
After a handshake with the numbers `a` and `b` the delay of the new timer is
`a + b`, their sum as doubles. -/
theorem C12_ping_rearms_and_pongs (uri : JsString) (opts : UserOpts) (s : Socket)
    (w : WebSocket) (data : JsString) (hr : Reachable uri opts s) (hw : s.ws = some w)
    (ho : w.readyState = ReadyState.OPEN) (h2 : data.head? = some EIOPacketType.PING) :
    s.onMessage (.text data) = .ok { s with
      timers := s.timers.filter (fun u => decide (u.action ≠ TimerAction.pingTimeout)) ++
        [⟨s.nextTimerId, TimerAction.pingTimeout, s.pingTimeoutDelay⟩]
      nextTimerId := s.nextTimerId + 1
      pingTimeoutTimer := some s.nextTimerId
      ws := some { w with sent := w.sent ++ [[EIOPacketType.PONG]] } } ∧
    (∀ payload handshake a b c1, JSON.parse payload = .ok handshake →
      handshake.getProp (js "pingInterval") = .ok (some (.num a)) →
      handshake.getProp (js "pingTimeout") = .ok (some (.num b)) →
      s.onMessage (.text (EIOPacketType.OPEN :: payload)) = .ok c1 →
      ∃ c2 w2, c1.onMessage (.text data) = .ok c2 ∧
        c2.timers.filter (fun u => decide (u.action = TimerAction.pingTimeout)) =
          [⟨s.nextTimerId + 1, TimerAction.pingTimeout, some (jsAdd (some (.num a)) (some (.num b)))⟩] ∧
        c2.ws = some w2 ∧ w2.sent = w.sent ++ [js "40", [EIOPacketType.PONG]]) := by
  constructor
  · rw [Socket.onMessage_ping s w data hw h2, hr.inv.filter_ping, if_pos ho]
  · intro payload handshake a b c1 hp h1 h3 hm
    have hm1 := Socket.onMessage_open s w payload handshake _ _ hw hp h1 h3
    rw [hm] at hm1
    have hc1 := Except.ok.inj hm1
    have hr1 : Reachable uri opts c1 := Reachable.step s _ hr (Step.message s _ _ hm)
    have hw1 : c1.ws = some { w with sent := w.sent ++ [js "40"] } := by
      rw [hc1]; simp [ho]
    have hp1 := Socket.onMessage_ping c1 _ data hw1 h2
    refine ⟨_, _, hp1, ?_, rfl, ?_⟩
    · simp only
      rw [hr1.inv.filter_ping, List.filter_append, List.filter_filter]
      simp [hc1]
    · simp [ho]

/-- A PING frame after the handshake of the scenario, to apply C12 to. -/
theorem C12_ping_rearms_and_pongs_witness :
    ∃ c1 c2 w2, (Socket.new (js "http://h") ⟨none, none⟩).transportOpens.onMessage
        (.text (js "0\x7b\"sid\":\"abc\",\"pingInterval\":20,\"pingTimeout\":5\x7d")) = .ok c1 ∧
      c1.onMessage (.text (js "2")) = .ok c2 ∧
      c2.timers = [⟨1, TimerAction.pingTimeout, some (Delay.number (JsNumber.ofInt 25))⟩] ∧
      c2.ws = some w2 ∧ w2.sent = [js "40", js "3"] := by
  obtain ⟨c2, w2, h1, _, h3, h4⟩ := (C12_ping_rearms_and_pongs (js "http://h") ⟨none, none⟩
    (Socket.new (js "http://h") ⟨none, none⟩).transportOpens
    ⟨_, .OPEN, .transportClose, [], 0⟩ (js "2")
    (Reachable.step _ _ Reachable.init (Step.transportOpens _)) rfl rfl rfl).2
    (js "\x7b\"sid\":\"abc\",\"pingInterval\":20,\"pingTimeout\":5\x7d")
    (.obj [(js "sid", .str (js "abc")), (js "pingInterval", .num (.ofInt 20)),
        (js "pingTimeout", .num (.ofInt 5))])
    (.ofInt 20) (.ofInt 5) _ rfl rfl rfl rfl
  refine ⟨_, c2, w2, rfl, h1, ?_, h3, h4⟩
  have := Except.ok.inj (h1.symm.trans (show _ = Except.ok _ from rfl))
  rw [this]
  decide

/-! ## The termination by the peer -/

/-- The method `onMessage` on the frame `41`, the DISCONNECT packet. -/
theorem Socket.onMessage_disconnect (s : Socket) :
    s.onMessage (.text (js "41")) =
      .ok (Socket.onClose { s with shouldReconnect := false } (js "io server disconnect")) := by
  have hd : decode (js "41") = .ok ⟨some SIOPacketType.DISCONNECT, none⟩ := by decide
  have h4 : (js "41").head? = some EIOPacketType.MESSAGE := by decide
  unfold Socket.onMessage
  simp only [h4, hd]
  simp [EIOPacketType.MESSAGE, EIOPacketType.OPEN, EIOPacketType.CLOSE, EIOPacketType.PING,
    Socket.onPacket, SIOPacketType.DISCONNECT, SIOPacketType.CONNECT]

/-- The method `onMessage` on a CLOSE frame. -/
theorem Socket.onMessage_close (s : Socket) (data : JsString)
    (h1 : data.head? = some EIOPacketType.CLOSE) :
    s.onMessage (.text data) = .ok (s.onClose (js "transport close")) := by
  unfold Socket.onMessage
  simp [h1, EIOPacketType.OPEN, EIOPacketType.CLOSE]

/-- The close signal of a WebSocket whose handler is the one `open` set. -/
theorem Socket.transportCloses_handler (s : Socket) (w : WebSocket) (hw : s.ws = some w)
    (hh : w.onclose = CloseHandler.transportClose) (hc : w.readyState ≠ ReadyState.CLOSED) :
    s.transportCloses =
      Socket.onClose { s with ws := some { w with readyState := ReadyState.CLOSED } }
        (js "transport close") := by
  unfold Socket.transportCloses
  simp [hw, hh, hc]

/-- C14. In a reachable state the frame `41` (the DISCONNECT packet of the peer)
disables reconnection and runs the close routine with the reason
`io server disconnect`, after which no timer is pending. A CLOSE frame, and the
close signal of the WebSocket, run the close routine with the reason
`transport close`: the reconnect flag stays as it was, and when it was set one
reconnect timer is pending afterwards. -/
theorem C14_peer_termination (uri : JsString) (opts : UserOpts) (s : Socket)
    (hr : Reachable uri opts s) :
    (∃ t, s.onMessage (.text (js "41")) = .ok t ∧ t.shouldReconnect = false ∧ t.timers = [] ∧
      t.emitted = s.emitted ++ [(if s.connected then js "disconnect" else js "connect_error",
        [Json.str (js "io server disconnect")])]) ∧
    (∀ data, data.head? = some EIOPacketType.CLOSE →
      ∃ t, s.onMessage (.text data) = .ok t ∧ t.shouldReconnect = s.shouldReconnect ∧
        t.emitted = s.emitted ++ [(if s.connected then js "disconnect" else js "connect_error",
          [Json.str (js "transport close")])] ∧
        (s.shouldReconnect = true → t.timers = [⟨s.nextTimerId, TimerAction.reconnect,
          some (Delay.number (JsNumber.ofInt s.opts.reconnectionDelay))⟩])) ∧
    (∀ w, s.ws = some w → w.onclose = CloseHandler.transportClose →
      w.readyState ≠ ReadyState.CLOSED →
      s.transportCloses.shouldReconnect = s.shouldReconnect ∧
      s.transportCloses.emitted = s.emitted ++
        [(if s.connected then js "disconnect" else js "connect_error",
          [Json.str (js "transport close")])] ∧
      (s.shouldReconnect = true → s.transportCloses.timers = [⟨s.nextTimerId, TimerAction.reconnect,
          some (Delay.number (JsNumber.ofInt s.opts.reconnectionDelay))⟩])) := by
  refine ⟨⟨_, Socket.onMessage_disconnect s, ?_, ?_, ?_⟩, ?_, ?_⟩
  · exact (Socket.onClose_fields _ _).2.2.2.1
  · have hi : Socket.Inv { s with shouldReconnect := false } :=
      hr.inv.congr rfl rfl rfl rfl rfl rfl hr.inv.hasWs
    simpa using Socket.onClose_timers _ (js "io server disconnect") hi
  · exact Socket.onClose_emitted _ _
  · intro data h1
    refine ⟨_, Socket.onMessage_close s data h1, (Socket.onClose_fields _ _).2.2.2.1,
      Socket.onClose_emitted _ _, fun he => ?_⟩
    rw [Socket.onClose_timers s _ hr.inv, he]; rfl
  · intro w hw hh hc
    rw [Socket.transportCloses_handler s w hw hh hc]
    refine ⟨(Socket.onClose_fields _ _).2.2.2.1, Socket.onClose_emitted _ _, fun he => ?_⟩
    have hi : Socket.Inv { s with ws := some { w with readyState := ReadyState.CLOSED } } :=
      hr.inv.congr rfl rfl rfl rfl rfl rfl (by simp)
    rw [Socket.onClose_timers _ _ hi]
    simp [he]

/-- A new socket whose transport has opened, to apply C14 to. -/
theorem C14_peer_termination_witness :
    (∃ t, (Socket.new (js "http://h") ⟨none, none⟩).transportOpens.onMessage (.text (js "41")) =
        .ok t ∧ t.shouldReconnect = false ∧ t.timers = []) ∧
    (Socket.new (js "http://h") ⟨none, none⟩).transportOpens.transportCloses.timers =
      [⟨0, TimerAction.reconnect, some (Delay.number (JsNumber.ofInt 2000))⟩] := by
  have h := C14_peer_termination (js "http://h") ⟨none, none⟩
    (Socket.new (js "http://h") ⟨none, none⟩).transportOpens
    (Reachable.step _ _ Reachable.init (Step.transportOpens _))
  obtain ⟨t, h1, h2, h3, _⟩ := h.1
  exact ⟨⟨t, h1, h2, h3⟩, (h.2.2 ⟨_, .OPEN, .transportClose, [], 0⟩ rfl rfl (by decide)).2.2 rfl⟩

/-! ## What the methods keep -/

/-- Nothing changed. -/
theorem Socket.Kept.refl (s : Socket) : s.Kept s :=
  ⟨rfl, rfl, rfl, rfl, rfl, fun h => h, fun h => h, fun _ => rfl, fun _ hu _ => Or.inl hu⟩

/-- Two changes, one after the other. -/
theorem Socket.Kept.trans {s t u : Socket} (h1 : s.Kept t) (h2 : t.Kept u) : s.Kept u where
  uri := h2.uri.trans h1.uri
  opts := h2.opts.trans h1.opts
  listeners := h2.listeners.trans h1.listeners
  discarded := h2.discarded.trans h1.discarded
  url := h2.url.trans h1.url
  flag := fun h => h1.flag (h2.flag h)
  torn := fun h => h2.torn (h1.torn h)
  sent := fun h => (h2.sent (h1.torn h)).trans (h1.sent h)
  reconnect := by
    intro x hx ha
    rcases h2.reconnect x hx ha with h | ⟨hf, ht⟩
    · rcases h1.reconnect x h ha with h | ⟨hf, ht⟩
      · exact Or.inl h
      · exact Or.inr ⟨hf, h2.torn ht⟩
    · exact Or.inr ⟨h1.flag hf, ht⟩

/-- A change that leaves the WebSocket, the reconnect flag and the parts that
only `open` and `on` change as they are, and adds no reconnect timer. -/
theorem Socket.Kept.of_eq {s t : Socket} (h1 : t.uri = s.uri) (h2 : t.opts = s.opts)
    (h3 : t.listeners = s.listeners) (h4 : t.discarded = s.discarded) (h5 : t.ws = s.ws)
    (h6 : t.shouldReconnect = true → s.shouldReconnect = true)
    (h7 : ∀ u ∈ t.timers, u.action = TimerAction.reconnect → u ∈ s.timers) : s.Kept t :=
  ⟨h1, h2, h3, h4, by rw [h5], h6, fun h => by rw [h5]; exact h, fun _ => by rw [h5],
    fun u hu ha => Or.inl (h7 u hu ha)⟩

/-- A torn-down WebSocket is not open. -/
theorem WebSocket.Torn.not_open {w : WebSocket} (h : w.Torn) : w.readyState ≠ ReadyState.OPEN := by
  intro ho
  rcases h.2 with h | h <;> rw [ho] at h <;> cases h

/-- A torn-down WebSocket is not connecting. -/
theorem WebSocket.Torn.not_connecting {w : WebSocket} (h : w.Torn) :
    w.readyState ≠ ReadyState.CONNECTING := by
  intro ho
  rcases h.2 with h | h <;> rw [ho] at h <;> cases h

/-- The close routine tears the WebSocket down. -/
theorem Socket.onClose_torn (s : Socket) (r : JsString) :
    ∀ w, (s.onClose r).ws = some w → w.Torn := by
  intro w hw
  rw [(s.onClose_fields r).2.2.2.2.2.2.2.2.2.2] at hw
  cases hs : s.ws with
  | none => rw [hs] at hw; cases hw
  | some v =>
    rw [hs] at hw
    simp only [Option.map_some', Option.some.injEq] at hw
    subst hw
    refine ⟨rfl, ?_⟩
    cases hv : v.readyState <;> simp [WebSocket.close, hv]

/-- A timer pending after the close routine was pending before, unless
reconnection is enabled. -/
theorem Socket.onClose_timers_mem (s : Socket) (r : JsString) :
    ∀ u ∈ (s.onClose r).timers, u ∈ s.timers ∨ s.shouldReconnect = true := by
  intro u hu
  unfold Socket.onClose at hu
  rcases Bool.eq_false_or_eq_true s.shouldReconnect with hr | hr
  · exact Or.inr hr
  · left
    cases hw : s.ws <;> cases hc : s.connected <;>
      simp [Socket.clearTimeout, Socket.superEmit, Socket.setTimeout, hc, hr, hw] at hu <;>
      exact hu.1

/-- The close routine keeps what `Kept` names. -/
theorem Socket.onClose_kept (s : Socket) (r : JsString) : s.Kept (s.onClose r) := by
  obtain ⟨-, -, -, h4, -, h6, h7, h8, h9, -, h11⟩ := s.onClose_fields r
  refine ⟨h7, h6, h8, h9, ?_, fun h => by rw [← h4]; exact h, fun _ => s.onClose_torn r,
    fun _ => s.onClose_sent r, ?_⟩
  · rw [h11]; cases s.ws <;> simp [WebSocket.close]
  · intro u hu _
    rcases s.onClose_timers_mem r u hu with h | h
    · exact Or.inl h
    · exact Or.inr ⟨h, s.onClose_torn r⟩

/-- The method `send` keeps what `Kept` names. -/
theorem Socket.send_kept {s t : Socket} {d : JsString} (h : s.send d = .ok t) : s.Kept t := by
  unfold Socket.send at h
  cases hw : s.ws with
  | none => simp [hw] at h
  | some w =>
    simp only [hw] at h
    split at h
    · rename_i ho
      cases h
      refine ⟨rfl, rfl, rfl, rfl, by simp [hw], fun h => h, ?_, ?_, fun u hu _ => Or.inl hu⟩
      · intro ht; exact absurd ho (ht w hw).not_open
      · intro ht; exact absurd ho (ht w hw).not_open
    · cases h; exact Socket.Kept.refl s

/-- The loop over the buffer keeps what `Kept` names. -/
theorem Socket.forEachSendPacket_kept (ps : List Packet) :
    ∀ {s t : Socket}, s.forEachSendPacket ps = .ok t → s.Kept t := by
  induction ps with
  | nil => intro s t h; simp [Socket.forEachSendPacket] at h; cases h; exact Socket.Kept.refl s
  | cons p ps ih =>
    intro s t h
    simp only [Socket.forEachSendPacket] at h
    cases h1 : s.sendPacket p with
    | error e => simp [h1] at h
    | ok s1 =>
      simp only [h1] at h
      exact (Socket.send_kept h1).trans (ih h)

/-- A local event keeps what `Kept` names. -/
theorem Socket.superEmit_kept (s : Socket) (event : JsString) (args : List Json) :
    s.Kept (s.superEmit event args) :=
  Socket.Kept.of_eq rfl rfl rfl rfl rfl (fun h => h) (fun _ hu _ => hu)

/-- The method `resetPingTimeout` keeps what `Kept` names. -/
theorem Socket.resetPingTimeout_kept (s : Socket) : s.Kept s.resetPingTimeout := by
  refine Socket.Kept.of_eq rfl rfl rfl rfl rfl (fun h => h) ?_
  intro u hu ha
  simp [Socket.resetPingTimeout, Socket.clearTimeout, Socket.setTimeout] at hu
  rcases hu with hu | hu
  · exact hu.1
  · rw [hu] at ha; cases ha

/-- The method `onConnect` keeps what `Kept` names. -/
theorem Socket.onConnect_kept {s t : Socket} {p : Packet} (h : s.onConnect p = .ok t) :
    s.Kept t := by
  unfold Socket.onConnect at h
  cases hd : p.data with
  | none => simp [hd] at h
  | some d =>
    simp only [hd] at h
    cases hg : d.getProp (js "sid") with
    | error e => simp [hg] at h
    | ok sid =>
      simp only [hg] at h
      cases hf : Socket.forEachSendPacket { s with id := sid, connected := true } s.sendBuffer with
      | error e => simp [hf] at h
      | ok s1 =>
        simp only [hf] at h
        cases h
        have h0 : s.Kept { s with id := sid, connected := true } :=
          Socket.Kept.of_eq rfl rfl rfl rfl rfl (fun h => h) (fun _ hu _ => hu)
        exact (h0.trans (Socket.forEachSendPacket_kept _ hf)).trans (Socket.superEmit_kept _ _ _)

/-- The method `onOpen` keeps what `Kept` names. -/
theorem Socket.onOpen_kept {s t : Socket} {d : JsString} (h : s.onOpen d = .ok t) :
    s.Kept t := by
  unfold Socket.onOpen at h
  cases hp : JSON.parse (substring d 1) with
  | error e => simp [hp] at h; cases h; exact Socket.onClose_kept _ _
  | ok hs =>
    simp only [hp] at h
    cases h1 : hs.getProp (js "pingInterval") with
    | error e => simp [h1] at h
    | ok a =>
      cases h2 : hs.getProp (js "pingTimeout") with
      | error e => simp [h1, h2] at h
      | ok b =>
        simp only [h1, h2] at h
        have h0 : s.Kept { s with pingTimeoutDelay := some (jsAdd a b) } :=
          Socket.Kept.of_eq rfl rfl rfl rfl rfl (fun h => h) (fun _ hu _ => hu)
        exact (h0.trans (Socket.resetPingTimeout_kept _)).trans (Socket.send_kept h)

/-- The dispatch of an EVENT packet keeps what `Kept` names. -/
theorem Socket.superEmitApply_kept {s t : Socket} {d : Option Json}
    (h : s.superEmitApply d = .ok t) : s.Kept t := by
  unfold Socket.superEmitApply at h
  split at h <;>
    first
    | (cases h; first | exact Socket.Kept.refl _ | exact Socket.superEmit_kept _ _ _)
    | simp at h

/-- Disabling reconnection keeps what `Kept` names. -/
theorem Socket.noReconnect_kept (s : Socket) : s.Kept { s with shouldReconnect := false } :=
  Socket.Kept.of_eq rfl rfl rfl rfl rfl (fun h => by cases h) (fun _ hu _ => hu)

/-- The method `disconnect` keeps what `Kept` names. -/
theorem Socket.disconnect_kept (s : Socket) : s.Kept s.disconnect :=
  (Socket.noReconnect_kept s).trans (Socket.onClose_kept _ _)

/-- The method `onPacket` keeps what `Kept` names. -/
theorem Socket.onPacket_kept {s t : Socket} {p : Packet} (h : s.onPacket p = .ok t) :
    s.Kept t := by
  unfold Socket.onPacket at h
  split at h
  · exact Socket.onConnect_kept h
  · split at h
    · cases h; exact (Socket.noReconnect_kept s).trans (Socket.onClose_kept _ _)
    · split at h
      · exact Socket.superEmitApply_kept h
      · cases h; exact Socket.onClose_kept _ _

/-- The method `onMessage` keeps what `Kept` names. -/
theorem Socket.onMessage_kept {s t : Socket} {m : MessageData} (h : s.onMessage m = .ok t) :
    s.Kept t := by
  unfold Socket.onMessage at h
  cases m with
  | binary => simp at h; cases h; exact Socket.Kept.refl _
  | text data =>
    simp only at h
    split at h
    · exact Socket.onOpen_kept h
    · split at h
      · cases h; exact Socket.onClose_kept _ _
      · split at h
        · exact (Socket.resetPingTimeout_kept s).trans (Socket.send_kept h)
        · split at h
          · cases hd : decode data with
            | error e => simp [hd] at h; cases h; exact Socket.onClose_kept _ _
            | ok p => simp only [hd] at h; exact Socket.onPacket_kept h
          · cases h; exact Socket.onClose_kept _ _

/-- The method `emit` keeps what `Kept` names. -/
theorem Socket.emit_kept {s t : Socket} {args : List Json} (h : s.emit args = .ok t) :
    s.Kept t := by
  unfold Socket.emit at h
  split at h
  · exact Socket.send_kept h
  · cases h; exact Socket.Kept.of_eq rfl rfl rfl rfl rfl (fun h => h) (fun _ hu _ => hu)

/-! ## The transports that were torn down -/

/-- The opening of the transport keeps what `Kept` names. -/
theorem Socket.transportOpens_kept (s : Socket) : s.Kept s.transportOpens := by
  unfold Socket.transportOpens
  cases hw : s.ws with
  | none => exact Socket.Kept.refl s
  | some w =>
    simp only
    split
    · rename_i hc
      refine ⟨rfl, rfl, rfl, rfl, by simp [hw], fun h => h, ?_, ?_, fun u hu _ => Or.inl hu⟩
      · intro ht; exact absurd hc (ht w hw).not_connecting
      · intro ht; exact absurd hc (ht w hw).not_connecting
    · exact Socket.Kept.refl s

/-- The start of the closing handshake keeps what `Kept` names. -/
theorem Socket.transportClosing_kept (s : Socket) : s.Kept s.transportClosing := by
  unfold Socket.transportClosing
  cases hw : s.ws with
  | none => exact Socket.Kept.refl s
  | some w =>
    simp only
    split
    · rename_i hc
      refine ⟨rfl, rfl, rfl, rfl, by simp [hw], fun h => h, ?_, ?_, fun u hu _ => Or.inl hu⟩
      · intro ht; exact absurd hc (ht w hw).not_open
      · intro ht; exact absurd hc (ht w hw).not_open
    · exact Socket.Kept.refl s

/-- A WebSocket that becomes closed keeps what `Kept` names. -/
theorem Socket.closed_kept (s : Socket) (w : WebSocket) (hw : s.ws = some w) :
    s.Kept { s with ws := some { w with readyState := ReadyState.CLOSED } } := by
  refine ⟨rfl, rfl, rfl, rfl, by simp [hw], fun h => h, ?_, by simp [hw],
    fun u hu _ => Or.inl hu⟩
  intro ht v hv
  simp only [Option.some.injEq] at hv
  subst hv
  exact ⟨(ht w hw).1, Or.inr rfl⟩

/-- The close signal keeps what `Kept` names. -/
theorem Socket.transportCloses_kept (s : Socket) : s.Kept s.transportCloses := by
  unfold Socket.transportCloses
  cases hw : s.ws with
  | none => exact Socket.Kept.refl s
  | some w =>
    simp only
    split
    · exact Socket.Kept.refl s
    · split
      · exact (Socket.closed_kept s w hw).trans (Socket.onClose_kept _ _)
      · exact Socket.closed_kept s w hw

/-- The removal of pending timers keeps what `Kept` names. -/
theorem Socket.filter_kept (s : Socket) (p : Timer → Bool) :
    s.Kept { s with timers := s.timers.filter p } :=
  Socket.Kept.of_eq rfl rfl rfl rfl rfl (fun h => h) (fun _ hu _ => List.mem_of_mem_filter hu)

/-- A step is a change that keeps what `Kept` names, a call of `on`, or the
reconnect timer that fires and calls `open`. -/
theorem Step.kept_or {s t : Socket} (h : Step s t) :
    s.Kept t ∨ (∃ event listener, t = s.on event listener) ∨
      ∃ u ∈ s.timers, u.action = TimerAction.reconnect ∧
        t = Socket.open { s with timers := s.timers.filter (fun v => decide (v.id ≠ u.id)) } := by
  cases h with
  | callOn event listener => exact Or.inr (Or.inl ⟨event, listener, rfl⟩)
  | callEmit _ args h => exact Or.inl (Socket.emit_kept h)
  | callDisconnect => exact Or.inl (Socket.disconnect_kept s)
  | transportOpens => exact Or.inl (Socket.transportOpens_kept s)
  | transportClosing => exact Or.inl (Socket.transportClosing_kept s)
  | transportCloses => exact Or.inl (Socket.transportCloses_kept s)
  | message _ m h => exact Or.inl (Socket.onMessage_kept h)
  | timerFires u hu =>
    cases ha : u.action with
    | pingTimeout =>
      left
      unfold Socket.timerFires
      rw [ha]
      exact (Socket.filter_kept s _).trans (Socket.onClose_kept _ _)
    | reconnect =>
      right; right
      refine ⟨u, hu, ha, ?_⟩
      unfold Socket.timerFires
      rw [ha]

/-- Every step keeps the origin. -/
theorem Step.uri_step {s t : Socket} (h : Step s t) : t.uri = s.uri := by
  rcases h.kept_or with h | ⟨_, _, rfl⟩ | ⟨_, _, _, rfl⟩
  · exact h.uri
  · rfl
  · rfl

/-- The origin of a reachable state is the one the constructor was given. -/
theorem Reachable.uri {uri : JsString} {opts : UserOpts} {s : Socket}
    (h : Reachable uri opts s) : s.uri = uri := by
  induction h with
  | init => rfl
  | step s t _ hst ih => rw [hst.uri_step, ih]

/-- The URL depends on the origin and on the options only. -/
theorem Socket.createUrl_congr {s t : Socket} (h1 : t.uri = s.uri) (h2 : t.opts = s.opts) :
    t.createUrl = s.createUrl := by
  unfold Socket.createUrl
  rw [h1, h2]

/-- In a reachable state the WebSocket was opened with the URL of `createUrl`. -/
theorem Reachable.url {uri : JsString} {opts : UserOpts} {s : Socket}
    (h : Reachable uri opts s) : ∀ w, s.ws = some w → w.url = s.createUrl := by
  induction h with
  | init => intro w hw; simp [Socket.new, Socket.open] at hw; subst hw; rfl
  | step s t _ hst ih =>
    intro w hw
    rcases hst.kept_or with h | ⟨_, _, rfl⟩ | ⟨_, _, _, rfl⟩
    · rw [Socket.createUrl_congr h.uri h.opts]
      have hu := h.url
      rw [hw] at hu
      cases hs : s.ws with
      | none => rw [hs] at hu; cases hu
      | some v =>
        rw [hs] at hu
        simp only [Option.map_some', Option.some.injEq] at hu
        rw [hu]; exact ih v hs
    · exact ih w hw
    · simp [Socket.open] at hw; subst hw; rfl

/-- A change that keeps what `Kept` names keeps the second invariant. -/
theorem Socket.TornInv.of_kept {s t : Socket} (ht : s.TornInv) (h : s.Kept t) : t.TornInv := by
  constructor
  · rw [h.discarded]; exact ht.discarded
  · rintro ⟨u, hu, ha⟩
    rcases h.reconnect u hu ha with h1 | ⟨_, h1⟩
    · exact h.torn (ht.pending ⟨u, h1, ha⟩)
    · exact h1

/-- Every step keeps the second invariant. -/
theorem Step.tornInv_step {s t : Socket} (h : Step s t) (hi : s.Inv) (ht : s.TornInv) :
    t.TornInv := by
  rcases h.kept_or with h | ⟨_, _, rfl⟩ | ⟨u, hu, ha, rfl⟩
  · exact ht.of_kept h
  · exact ⟨ht.discarded, ht.pending⟩
  · constructor
    · intro w hw
      simp only [Socket.open] at hw
      cases hs : s.ws with
      | none => rw [hs] at hw; exact ht.discarded w hw
      | some v =>
        rw [hs] at hw
        rcases List.mem_cons.mp hw with h | h
        · rw [h]; exact ht.pending ⟨u, hu, ha⟩ v hs
        · exact ht.discarded w h
    · rintro ⟨v, hv, hva⟩
      simp only [Socket.open, List.mem_filter, decide_eq_true_eq] at hv
      have h1 := hi.reconnectOwned u hu ha
      have h2 := hi.reconnectOwned v hv.1 hva
      rw [h1] at h2
      exact absurd (Option.some.inj h2).symm hv.2

/-- Every reachable state satisfies the second invariant. -/
theorem Reachable.tornInv {uri : JsString} {opts : UserOpts} {s : Socket}
    (h : Reachable uri opts s) : s.TornInv := by
  induction h with
  | init => constructor <;> simp [Socket.new, Socket.open]
  | step s t hs hst ih => exact hst.tornInv_step hs.inv ih

/-! ## The listeners and the URL of the connection -/

/-- The listeners of a reachable state come from the calls of `on` alone. -/
theorem Reachable.registered {uri : JsString} {opts : UserOpts} {s : Socket}
    (h : Reachable uri opts s) : ∃ regs, s.toEventEmitter = EventEmitter.new.onAll regs := by
  induction h with
  | init => exact ⟨[], rfl⟩
  | step s t _ hst ih =>
    obtain ⟨regs, hr⟩ := ih
    rcases hst.kept_or with h | ⟨event, listener, rfl⟩ | ⟨_, _, _, rfl⟩
    · refine ⟨regs, ?_⟩
      rw [← hr]
      have hl : t.toEventEmitter.listeners = s.toEventEmitter.listeners := h.listeners
      cases ht : t.toEventEmitter
      cases hs : s.toEventEmitter
      rw [ht, hs] at hl
      simp only at hl
      rw [hl]
    · refine ⟨regs ++ [(event, listener)], ?_⟩
      rw [EventEmitter.onAll_append, ← hr]
      rfl
    · exact ⟨regs, hr⟩

/-- The URL of `createUrl` when the origin starts with `http`. -/
theorem Socket.createUrl_http (s : Socket) (r : JsString) (h : s.uri = js "http" ++ r) :
    s.createUrl = js "ws" ++ r ++ s.opts.path ++ js "?EIO=4&transport=websocket" := by
  unfold Socket.createUrl
  rw [h]
  rfl

/-- The URL of `createUrl` when the origin does not start with `http`. -/
theorem Socket.createUrl_other (s : Socket) (h : ¬ js "http" <+: s.uri) :
    s.createUrl = s.uri ++ s.opts.path ++ js "?EIO=4&transport=websocket" := by
  unfold Socket.createUrl
  split
  · rename_i r hu
    exact absurd ⟨r, by rw [hu]; rfl⟩ h
  · rfl

/-- C15. The URL of the WebSocket of a new socket, and of every WebSocket a
reachable state holds, is the origin with `ws` in the place of a leading `http`,
then the path of the options (`/socket.io/` when the caller gave none), then
`?EIO=4&transport=websocket`. An origin that does not start with `http` is
taken as it is. -/
theorem C15_connection_url (uri : JsString) (opts : UserOpts) (s : Socket) (w : WebSocket)
    (hr : Reachable uri opts s) (hw : s.ws = some w) :
    (∀ r, uri = js "http" ++ r →
      w.url = js "ws" ++ r ++ opts.path.getD (js "/socket.io/") ++
        js "?EIO=4&transport=websocket") ∧
    (¬ js "http" <+: uri →
      w.url = uri ++ opts.path.getD (js "/socket.io/") ++ js "?EIO=4&transport=websocket") := by
  have hp : s.opts.path = opts.path.getD (js "/socket.io/") := by
    rw [hr.opts]; cases h : opts.path <;> simp [assignOpts, h]
  rw [hr.url w hw, ← hp]
  constructor
  · intro r h
    exact Socket.createUrl_http s r (hr.uri.trans h)
  · intro h
    have := Socket.createUrl_other s (by rw [hr.uri]; exact h)
    rw [hr.uri] at this
    exact this

/-- The origins `http://h`, `https://h` and one with `http` further in, to apply
C15 to. -/
theorem C15_connection_url_witness :
    (∀ w, (Socket.new (js "http://h") ⟨none, none⟩).ws = some w →
      w.url = js "ws://h/socket.io/?EIO=4&transport=websocket") ∧
    (∀ w, (Socket.new (js "https://h") ⟨some (js "/x/"), none⟩).ws = some w →
      w.url = js "wss://h/x/?EIO=4&transport=websocket") ∧
    (∀ w, (Socket.new (js "ftp://http") ⟨none, none⟩).ws = some w →
      w.url = js "ftp://http/socket.io/?EIO=4&transport=websocket") :=
  ⟨fun w hw => (C15_connection_url (js "http://h") ⟨none, none⟩ _ w Reachable.init hw).1
      (js "://h") rfl,
   fun w hw => (C15_connection_url (js "https://h") ⟨some (js "/x/"), none⟩ _ w
      Reachable.init hw).1 (js "s://h") rfl,
   fun w hw => (C15_connection_url (js "ftp://http") ⟨none, none⟩ _ w Reachable.init hw).2
      (by decide)⟩

/-! ## After the teardown -/

/-- The opening of the transport does nothing to a WebSocket that is torn down. -/
theorem Socket.transportOpens_torn (s : Socket) (w : WebSocket) (hw : s.ws = some w)
    (ht : w.Torn) : s.transportOpens = s := by
  unfold Socket.transportOpens
  simp [hw, ht.not_connecting]

/-- The closing handshake does nothing to a WebSocket that is torn down. -/
theorem Socket.transportClosing_torn (s : Socket) (w : WebSocket) (hw : s.ws = some w)
    (ht : w.Torn) : s.transportClosing = s := by
  unfold Socket.transportClosing
  simp [hw, ht.not_open]

/-- The close signal of a WebSocket that is torn down: the WebSocket is closed, and
nothing else happens. -/
theorem Socket.transportCloses_torn (s : Socket) (w : WebSocket) (hw : s.ws = some w)
    (ht : w.Torn) :
    s.transportCloses = { s with ws := some { w with readyState := ReadyState.CLOSED } } := by
  obtain ⟨url, rs, oc, sent, cc⟩ := w
  have h1 : oc = CloseHandler.noop := ht.1
  subst h1
  unfold Socket.transportCloses
  simp only [hw]
  split
  · rename_i hc
    have hc2 : rs = ReadyState.CLOSED := hc
    subst hc2
    cases s
    simp only at hw
    subst hw
    rfl
  · rfl

/-- The state after `disconnect()` in a state that satisfies the invariant. -/
theorem Socket.disconnect_state (s : Socket) (hi : s.Inv) :
    s.disconnect.connected = false ∧ s.disconnect.id = none ∧ s.disconnect.timers = [] ∧
    s.disconnect.shouldReconnect = false ∧ ∃ w, s.disconnect.ws = some w ∧ w.Torn := by
  have hi2 : Socket.Inv { s with shouldReconnect := false } :=
    hi.congr rfl rfl rfl rfl rfl rfl hi.hasWs
  have hd : s.disconnect =
      Socket.onClose { s with shouldReconnect := false } (js "io client disconnect") := rfl
  have hi3 := Socket.onClose_inv _ (js "io client disconnect") hi2
  rw [← hd] at hi3
  have hc : s.disconnect.connected = false := by
    rw [hd]
    rcases Bool.eq_false_or_eq_true s.connected with hc | hc
    · exact (Socket.onClose_emitted_connected { s with shouldReconnect := false } _ hc).1
    · exact (Socket.onClose_emitted_not_connected { s with shouldReconnect := false } _ hc).1
  refine ⟨hc, hi3.idCleared hc, ?_, ?_, ?_⟩
  · rw [hd, Socket.onClose_timers _ _ hi2]; rfl
  · rw [hd]; exact (Socket.onClose_fields _ _).2.2.2.1
  · obtain ⟨w, hw⟩ := Option.ne_none_iff_exists'.mp hi3.hasWs
    exact ⟨w, hw, by rw [hd] at hw; exact Socket.onClose_torn _ _ w hw⟩

/-- C19, the counterexample. After `disconnect()` on a socket whose transport had
opened, the torn-down WebSocket still has its `onmessage` handler: a MESSAGE
frame with the CONNECT packet of the peer makes the socket connected, gives it
an id and emits `connect`; a PING frame arms a heartbeat timer. -/
theorem C19_counterexample :
    ∃ t u,
      (Socket.new (js "http://h") ⟨none, none⟩).transportOpens.disconnect.onMessage
        (.text (js "40\x7b\"sid\":\"x\"\x7d")) = .ok t ∧
      t.connected = true ∧ t.id = some (.str (js "x")) ∧
      t.emitted = [(js "connect_error", [Json.str (js "io client disconnect")]),
        (js "connect", [])] ∧
      (Socket.new (js "http://h") ⟨none, none⟩).transportOpens.disconnect.onMessage
        (.text (js "2")) = .ok u ∧
      u.timers = [⟨0, TimerAction.pingTimeout, none⟩] := by
  refine ⟨_, _, rfl, ?_, ?_, ?_, rfl, ?_⟩ <;> decide

/-- After `disconnect()`, on a platform that delivers messages from open WebSockets
only, no event of the platform changes the socket but for the state of the
WebSocket. -/
theorem PlatformStep.quiet {s t : Socket} (h : PlatformStep s t) (w : WebSocket)
    (hw : s.ws = some w) (hto : w.Torn) (ht : s.timers = []) :
    ∃ v, t = { s with ws := some v } ∧ v.Torn := by
  cases h with
  | transportOpens =>
    rw [Socket.transportOpens_torn s w hw hto]
    exact ⟨w, by cases s; simp only at hw; subst hw; rfl, hto⟩
  | transportClosing =>
    rw [Socket.transportClosing_torn s w hw hto]
    exact ⟨w, by cases s; simp only at hw; subst hw; rfl, hto⟩
  | transportCloses =>
    rw [Socket.transportCloses_torn s w hw hto]
    exact ⟨_, rfl, hto.1, Or.inr rfl⟩
  | message _ v m hv ho _ =>
    rw [hw] at hv
    cases hv
    exact absurd ho hto.not_open
  | timerFires u hu => rw [ht] at hu; cases hu

/-- The runs of such a platform after `disconnect()`. -/
theorem PlatformStep.quiet_run {s t : Socket} (h : Relation.ReflTransGen PlatformStep s t)
    (w : WebSocket) (hw : s.ws = some w) (hto : w.Torn) (ht : s.timers = []) :
    ∃ v, t = { s with ws := some v } ∧ v.Torn := by
  induction h with
  | refl => exact ⟨w, by cases s; simp only at hw; subst hw; rfl, hto⟩
  | tail _ hstep ih =>
    obtain ⟨v, rfl, hv⟩ := ih
    obtain ⟨x, hx, hxt⟩ := hstep.quiet v rfl hv ht
    exact ⟨x, hx, hxt⟩

/-- After reconnection was disabled with no reconnect timer pending and the
WebSocket torn down, every step leaves it so: nothing more is sent and no
transport is opened. -/
theorem Step.stays_down {s t : Socket} (h : Step s t) (hf : s.shouldReconnect = false)
    (hn : ∀ u ∈ s.timers, u.action ≠ TimerAction.reconnect)
    (hto : ∀ w, s.ws = some w → w.Torn) :
    t.shouldReconnect = false ∧ (∀ u ∈ t.timers, u.action ≠ TimerAction.reconnect) ∧
    (∀ w, t.ws = some w → w.Torn) ∧ t.discarded = s.discarded ∧
    t.ws.map (fun w => w.sent) = s.ws.map (fun w => w.sent) := by
  rcases h.kept_or with h | ⟨_, _, rfl⟩ | ⟨u, hu, ha, rfl⟩
  · refine ⟨?_, ?_, h.torn hto, h.discarded, h.sent hto⟩
    · rcases Bool.eq_false_or_eq_true t.shouldReconnect with h1 | h1
      · rw [h.flag h1] at hf; cases hf
      · exact h1
    · intro u hu ha
      rcases h.reconnect u hu ha with h1 | ⟨h1, _⟩
      · exact hn u h1 ha
      · rw [h1] at hf; cases hf
  · exact ⟨hf, hn, hto, rfl, rfl⟩
  · exact absurd ha (hn u hu)

/-- The runs of the system after that. -/
theorem Step.stays_down_run {s t : Socket} (h : Relation.ReflTransGen Step s t)
    (hf : s.shouldReconnect = false)
    (hn : ∀ u ∈ s.timers, u.action ≠ TimerAction.reconnect)
    (hto : ∀ w, s.ws = some w → w.Torn) :
    t.shouldReconnect = false ∧ (∀ u ∈ t.timers, u.action ≠ TimerAction.reconnect) ∧
    (∀ w, t.ws = some w → w.Torn) ∧ t.discarded = s.discarded ∧
    t.ws.map (fun w => w.sent) = s.ws.map (fun w => w.sent) := by
  induction h with
  | refl => exact ⟨hf, hn, hto, rfl, rfl⟩
  | tail _ hstep ih =>
    obtain ⟨h1, h2, h3, h4, h5⟩ := ih
    obtain ⟨k1, k2, k3, k4, k5⟩ := hstep.stays_down h1 h2 h3
    exact ⟨k1, k2, k3, k4.trans h4, k5.trans h5⟩

/-- C19, amended. After `disconnect()` in a reachable state the WebSocket is torn
down: its close signal is ignored and it is closing or closed, so that the end
of its opening and of its closing handshake change nothing and its close signal
only marks it closed. On a platform that delivers messages from open WebSockets
only, no event of the platform changes the socket from then on: it stays not
connected and without id, no event is emitted and no timer is armed. Whatever
is delivered, and whatever the caller calls, reconnection stays disabled, no
reconnect timer is pending, no transport is opened and nothing is sent. -/
theorem C19_torn_down_transport (uri : JsString) (opts : UserOpts) (s : Socket)
    (hr : Reachable uri opts s) :
    (∃ w, s.disconnect.ws = some w ∧ w.Torn ∧
      s.disconnect.transportOpens = s.disconnect ∧
      s.disconnect.transportClosing = s.disconnect ∧
      s.disconnect.transportCloses =
        { s.disconnect with ws := some { w with readyState := ReadyState.CLOSED } }) ∧
    (∀ t, Relation.ReflTransGen PlatformStep s.disconnect t →
      t.connected = false ∧ t.id = none ∧ t.timers = [] ∧
      t.emitted = s.disconnect.emitted ∧ t.invoked = s.disconnect.invoked ∧
      ∃ v, t = { s.disconnect with ws := some v } ∧ v.Torn) ∧
    (∀ t, Relation.ReflTransGen Step s.disconnect t →
      t.shouldReconnect = false ∧ (∀ u ∈ t.timers, u.action ≠ TimerAction.reconnect) ∧
      (∀ w, t.ws = some w → w.Torn) ∧ t.discarded = s.discarded ∧
      t.ws.map (fun w => w.sent) = s.ws.map (fun w => w.sent)) := by
  obtain ⟨hc, hid, htm, hf, w, hw, hto⟩ := Socket.disconnect_state s hr.inv
  refine ⟨⟨w, hw, hto, Socket.transportOpens_torn _ w hw hto,
    Socket.transportClosing_torn _ w hw hto, Socket.transportCloses_torn _ w hw hto⟩, ?_, ?_⟩
  · intro t ht
    obtain ⟨v, rfl, hv⟩ := PlatformStep.quiet_run ht w hw hto htm
    exact ⟨hc, hid, htm, rfl, rfl, v, rfl, hv⟩
  · intro t ht
    have hto2 : ∀ v, s.disconnect.ws = some v → v.Torn := by
      intro v hv; rw [hw] at hv; cases hv; exact hto
    obtain ⟨h1, h2, h3, h4, h5⟩ := Step.stays_down_run ht hf (by rw [htm]; intro u hu; cases hu) hto2
    refine ⟨h1, h2, h3, h4.trans (Socket.disconnect_kept s).discarded, h5.trans ?_⟩
    exact Socket.onClose_sent _ _

/-- A socket whose transport had opened, to apply the amended C19 to: the close
signal after `disconnect()`, and a PING frame that is delivered all the same. -/
theorem C19_torn_down_transport_witness :
    (Socket.new (js "http://h") ⟨none, none⟩).transportOpens.disconnect.transportCloses.emitted =
      (Socket.new (js "http://h") ⟨none, none⟩).transportOpens.disconnect.emitted ∧
    ∀ t, (Socket.new (js "http://h") ⟨none, none⟩).transportOpens.disconnect.onMessage
        (.text (js "2")) = .ok t → t.ws.map (fun w => w.sent) = some [] := by
  have h := C19_torn_down_transport (js "http://h") ⟨none, none⟩
    (Socket.new (js "http://h") ⟨none, none⟩).transportOpens
    (Reachable.step _ _ Reachable.init (Step.transportOpens _))
  refine ⟨(h.2.1 _ (Relation.ReflTransGen.single (PlatformStep.transportCloses _))).2.2.2.1, ?_⟩
  intro t ht
  exact (h.2.2 t (Relation.ReflTransGen.single (Step.message _ _ _ ht))).2.2.2.2

/-- C20. In a reachable state the close routine emits one lifecycle event and leaves
at most one timer pending, the reconnect timer. The WebSocket it tore down
ignores its close signal: when the signal comes, the WebSocket is marked closed
and nothing else happens, so that the close routine does not run again. The
transports `open` replaced ignore their close signals too, also the one that is
replaced when the reconnect timer fires. -/
theorem C20_close_signal_ignored (uri : JsString) (opts : UserOpts) (s : Socket)
    (reason : JsString) (hr : Reachable uri opts s) :
    (s.onClose reason).emitted = s.emitted ++
      [(if s.connected then js "disconnect" else js "connect_error", [Json.str reason])] ∧
    (s.onClose reason).timers =
      (if s.shouldReconnect then [⟨s.nextTimerId, TimerAction.reconnect,
        some (Delay.number (JsNumber.ofInt s.opts.reconnectionDelay))⟩] else []) ∧
    (∃ w, (s.onClose reason).ws = some w ∧ w.onclose = CloseHandler.noop ∧
      (s.onClose reason).transportCloses =
        { s.onClose reason with ws := some { w with readyState := ReadyState.CLOSED } }) ∧
    (∀ w ∈ s.discarded, w.onclose = CloseHandler.noop) ∧
    (∀ u ∈ (s.onClose reason).timers,
      ∀ w ∈ ((s.onClose reason).timerFires u).discarded, w.onclose = CloseHandler.noop) := by
  have hi := Socket.onClose_inv s reason hr.inv
  have hti := hr.tornInv.of_kept (Socket.onClose_kept s reason)
  obtain ⟨w, hw⟩ := Option.ne_none_iff_exists'.mp hi.hasWs
  have hto := Socket.onClose_torn s reason w hw
  refine ⟨Socket.onClose_emitted s reason, Socket.onClose_timers s reason hr.inv,
    ⟨w, hw, hto.1, Socket.transportCloses_torn _ w hw hto⟩,
    fun v hv => (hr.tornInv.discarded v hv).1, ?_⟩
  intro u hu v hv
  exact (((Step.timerFires _ u hu).tornInv_step hi hti).discarded v hv).1

/-- A new socket whose transport closes, to apply C20 to: the close routine runs
once, and the close signal that follows changes nothing but the state of the
WebSocket. -/
theorem C20_close_signal_ignored_witness :
    ((Socket.new (js "http://h") ⟨none, none⟩).onClose (js "transport close")).emitted =
      [(js "connect_error", [Json.str (js "transport close")])] ∧
    ((Socket.new (js "http://h") ⟨none, none⟩).onClose
      (js "transport close")).transportCloses.emitted =
      [(js "connect_error", [Json.str (js "transport close")])] := by
  obtain ⟨h1, _, ⟨w, _, _, h3⟩, _⟩ := C20_close_signal_ignored (js "http://h") ⟨none, none⟩
    (Socket.new (js "http://h") ⟨none, none⟩) (js "transport close") Reachable.init
  refine ⟨h1, ?_⟩
  rw [h3]
  exact h1

/-! ## The frames the socket transmits -/

/-- The data of a decoded packet: absent when the text has no code unit at index 2,
and the value `JSON.parse` reads from index 2 on otherwise. -/
theorem decode_data_read {data : JsString} {p : Packet} (h : decode data = .ok p) :
    (charAt data 2 = [] → p.data = none) ∧
    (charAt data 2 ≠ [] → ∃ d, JSON.parse (substring data 2) = .ok d ∧ p.data = some d) := by
  unfold decode at h
  split at h
  · rename_i hc
    refine ⟨fun h0 => absurd h0 hc, fun _ => ?_⟩
    cases hp : JSON.parse (substring data 2) with
    | error e => rw [hp] at h; cases h
    | ok d =>
      rw [hp] at h
      simp only at h
      split at h
      · cases h; exact ⟨d, rfl, rfl⟩
      · cases h
  · rename_i hc
    refine ⟨fun _ => ?_, fun h0 => absurd h0 hc⟩
    split at h
    · cases h; rfl
    · cases h

/-- The function `decode` does not read the code unit at index 0. -/
theorem decode_skips_first (c c' : Nat) (rest : JsString) :
    decode (c :: rest) = decode (c' :: rest) := by
  cases rest with
  | nil => rfl
  | cons k text =>
    cases text with
    | nil => rfl
    | cons x r => rfl

/-- The frame `sendPacket` transmits on an open WebSocket. -/
theorem Socket.sendPacket_open (s : Socket) (w : WebSocket) (p : Packet) (hw : s.ws = some w)
    (ho : w.readyState = ReadyState.OPEN) :
    s.sendPacket p = .ok { s with
      ws := some { w with sent := w.sent ++ [EIOPacketType.MESSAGE :: encode p] } } := by
  unfold Socket.sendPacket
  rw [Socket.send_ok _ hw, if_pos ho]

/-- C21. On an open WebSocket the frame the socket transmits for a packet is `4`
followed by the encoded packet, and `decode` applied to that frame returns the
packet when it is a CONNECT packet whose data is an object, a DISCONNECT packet
without data or an EVENT packet whose data is an array with a string in front;
so does the frame a connected socket transmits for a call of `emit` with an
event name in front. The function `decode` never reads the code unit at index
0: the type of the packet it returns is the number at index 1, and the data is
what `JSON.parse` reads from index 2 on, or absent when the text ends there. -/
theorem C21_wire_round_trip (s : Socket) (w : WebSocket) (p : Packet) (h : p.WellFormed)
    (hw : s.ws = some w) (ho : w.readyState = ReadyState.OPEN) :
    (s.sendPacket p = .ok { s with
        ws := some { w with sent := w.sent ++ [EIOPacketType.MESSAGE :: encode p] } } ∧
      decode (EIOPacketType.MESSAGE :: encode p) = .ok p) ∧
    (∀ name args, s.connected = true →
      ∃ frame, s.emit (.str name :: args) = .ok { s with
          ws := some { w with sent := w.sent ++ [frame] } } ∧
        decode frame = .ok ⟨some SIOPacketType.EVENT, some (.arr (.str name :: args))⟩) ∧
    (∀ data q, decode data = .ok q →
      q.type = parseInt (charAt data 1) ∧
      (charAt data 2 = [] → q.data = none) ∧
      (charAt data 2 ≠ [] → ∃ d, JSON.parse (substring data 2) = .ok d ∧ q.data = some d)) ∧
    (∀ c c' rest, decode (c :: rest) = decode (c' :: rest)) := by
  refine ⟨⟨Socket.sendPacket_open s w p hw ho, decode_frame _ p h⟩, ?_, ?_, decode_skips_first⟩
  · intro name args hc
    refine ⟨EIOPacketType.MESSAGE :: encode ⟨some SIOPacketType.EVENT, some (.arr (.str name :: args))⟩,
      ?_, decode_frame _ _ (Or.inr (Or.inr ⟨rfl, name, args, rfl⟩))⟩
    unfold Socket.emit
    rw [if_pos hc]
    exact Socket.sendPacket_open s w _ hw ho
  · intro data q hq
    exact ⟨decode_type hq, decode_data_read hq⟩

/-- An EVENT packet with an object among its arguments, transmitted by a new socket
whose transport has opened, to apply C21 to. -/
theorem C21_wire_round_trip_witness :
    EIOPacketType.MESSAGE :: encode
        ⟨some SIOPacketType.EVENT,
          some (.arr [.str (js "chat"), .obj [(js "text", .str (js "hi"))]])⟩ =
      js "42[\"chat\",\x7b\"text\":\"hi\"\x7d]" ∧
    decode (EIOPacketType.MESSAGE :: encode
        ⟨some SIOPacketType.EVENT,
          some (.arr [.str (js "chat"), .obj [(js "text", .str (js "hi"))]])⟩) =
      .ok ⟨some SIOPacketType.EVENT,
        some (.arr [.str (js "chat"), .obj [(js "text", .str (js "hi"))]])⟩ :=
  ⟨by decide,
   (C21_wire_round_trip (Socket.new (js "http://h") ⟨none, none⟩).transportOpens
      ⟨_, .OPEN, .transportClose, [], 0⟩ _
      (Or.inr (Or.inr ⟨rfl, js "chat", [.obj [(js "text", .str (js "hi"))]], rfl⟩))
      rfl rfl).1.2⟩

/-! ## The frames that make the handler throw -/

/-- With a WebSocket the loop over the buffer does not throw, and the socket still
has a WebSocket afterwards. -/
theorem Socket.forEachSendPacket_total (ps : List Packet) :
    ∀ (s : Socket), s.ws ≠ none → ∃ t, s.forEachSendPacket ps = .ok t ∧ t.ws ≠ none := by
  induction ps with
  | nil => intro s hw; exact ⟨s, rfl, hw⟩
  | cons p ps ih =>
    intro s hw
    obtain ⟨w, hs⟩ := Option.ne_none_iff_exists'.mp hw
    simp only [Socket.forEachSendPacket, Socket.sendPacket, Socket.send_ok _ hs]
    apply ih
    split <;> simp [hs]

/-- The read of a property throws on `null` only. -/
theorem Json.getProp_ok (v : Json) (key : JsString) (h : v ≠ .null) :
    ∃ r, v.getProp key = .ok r := by
  cases v with
  | null => exact absurd rfl h
  | obj ms => exact ⟨_, rfl⟩
  | bool b => exact ⟨_, rfl⟩
  | num n => exact ⟨_, rfl⟩
  | str x => exact ⟨_, rfl⟩
  | arr xs => exact ⟨_, rfl⟩

/-- The method `onConnect` does not throw on a packet whose data is not `null`. -/
theorem Socket.onConnect_total (s : Socket) (t : Option Int) (d : Json) (hw : s.ws ≠ none)
    (hd : d ≠ .null) : ∃ u, s.onConnect ⟨t, some d⟩ = .ok u := by
  obtain ⟨sid, hs⟩ := d.getProp_ok (js "sid") hd
  obtain ⟨u, hu, _⟩ := Socket.forEachSendPacket_total s.sendBuffer
    { s with id := sid, connected := true } hw
  refine ⟨u.superEmit (js "connect") [], ?_⟩
  simp only [Socket.onConnect, hs, hu]

/-- The method `onConnect` throws a `TypeError` on a packet whose data is `null`. -/
theorem Socket.onConnect_null (s : Socket) (t : Option Int) :
    s.onConnect ⟨t, some .null⟩ = .error JsError.TypeError := rfl

/-- A packet that `decode` returns is valid. -/
theorem decode_valid {data : JsString} {p : Packet} (h : decode data = .ok p) :
    isPacketValid p = true := by
  unfold decode at h
  split at h
  · cases hp : JSON.parse (substring data 2) with
    | error e => rw [hp] at h; cases h
    | ok d =>
      rw [hp] at h
      simp only at h
      split at h
      · rename_i hv; cases h; exact hv
      · cases h
  · split at h
    · rename_i hv; cases h; exact hv
    · cases h

/-- The method `onPacket` does not throw on a packet that `decode` returned, unless
it is a CONNECT packet whose data is `null`. -/
theorem Socket.onPacket_total (s : Socket) (data : JsString) (p : Packet) (hw : s.ws ≠ none)
    (hd : decode data = .ok p) (hn : p ≠ ⟨some SIOPacketType.CONNECT, some .null⟩) :
    ∃ u, s.onPacket p = .ok u := by
  unfold Socket.onPacket
  by_cases h0 : p.type = some SIOPacketType.CONNECT
  · rw [if_pos h0]
    obtain ⟨t, d⟩ := p
    simp only at h0
    subst h0
    have hv := decode_valid hd
    cases d with
    | none => simp [isPacketValid, typeof] at hv
    | some d =>
      apply Socket.onConnect_total s _ d hw
      intro hnull
      exact hn (by rw [hnull])
  · rw [if_neg h0]
    by_cases h1 : p.type = some SIOPacketType.DISCONNECT
    · rw [if_pos h1]; exact ⟨_, rfl⟩
    · rw [if_neg h1]
      by_cases h2 : p.type = some SIOPacketType.EVENT
      · rw [if_pos h2]
        obtain ⟨name, args, rfl⟩ := decode_event_data hd h2
        exact ⟨_, rfl⟩
      · rw [if_neg h2]; exact ⟨_, rfl⟩

/-- The method `onOpen` does not throw unless the payload is the JSON text of
`null`. -/
theorem Socket.onOpen_total (s : Socket) (data : JsString) (hw : s.ws ≠ none)
    (hn : JSON.parse (substring data 1) ≠ .ok .null) : ∃ u, s.onOpen data = .ok u := by
  unfold Socket.onOpen
  cases hp : JSON.parse (substring data 1) with
  | error e => exact ⟨_, rfl⟩
  | ok hs =>
    have hne : hs ≠ .null := fun h => hn (by rw [hp, h])
    obtain ⟨a, ha⟩ := hs.getProp_ok (js "pingInterval") hne
    obtain ⟨b, hb⟩ := hs.getProp_ok (js "pingTimeout") hne
    obtain ⟨w, hs2⟩ := Option.ne_none_iff_exists'.mp hw
    simp only [ha, hb, Socket.doConnect, Socket.sendPacket]
    rw [Socket.send_ok (w := w) _
      (by simp [Socket.resetPingTimeout, Socket.setTimeout, Socket.clearTimeout, hs2])]
    exact ⟨_, rfl⟩

/-- The method `onOpen` throws a `TypeError` when the payload is the JSON text of
`null`. -/
theorem Socket.onOpen_null (s : Socket) (data : JsString)
    (hp : JSON.parse (substring data 1) = .ok .null) :
    s.onOpen data = .error JsError.TypeError := by
  unfold Socket.onOpen
  rw [hp]
  rfl

/-- With a WebSocket the method `onMessage` does not throw, unless the frame is an
OPEN frame whose payload is the JSON text of `null` or a MESSAGE frame that
`decode` reads as a CONNECT packet whose data is `null`. -/
theorem Socket.onMessage_total (s : Socket) (m : MessageData) (hw : s.ws ≠ none)
    (h0 : ∀ data, m = .text data → data.head? = some EIOPacketType.OPEN →
      JSON.parse (substring data 1) ≠ .ok .null)
    (h4 : ∀ data, m = .text data → data.head? = some EIOPacketType.MESSAGE →
      decode data ≠ .ok ⟨some SIOPacketType.CONNECT, some .null⟩) :
    ∃ u, s.onMessage m = .ok u := by
  cases m with
  | binary => exact ⟨s, rfl⟩
  | text data =>
    unfold Socket.onMessage
    simp only
    by_cases c0 : data.head? = some EIOPacketType.OPEN
    · rw [if_pos c0]
      exact Socket.onOpen_total s data hw (h0 data rfl c0)
    · rw [if_neg c0]
      by_cases c1 : data.head? = some EIOPacketType.CLOSE
      · rw [if_pos c1]; exact ⟨_, rfl⟩
      · rw [if_neg c1]
        by_cases c2 : data.head? = some EIOPacketType.PING
        · rw [if_pos c2]
          obtain ⟨w, hs⟩ := Option.ne_none_iff_exists'.mp hw
          rw [Socket.send_ok (w := w) _
            (by simp [Socket.resetPingTimeout, Socket.setTimeout, Socket.clearTimeout, hs])]
          exact ⟨_, rfl⟩
        · rw [if_neg c2]
          by_cases c4 : data.head? = some EIOPacketType.MESSAGE
          · rw [if_pos c4]
            cases hd : decode data with
            | error e => exact ⟨_, rfl⟩
            | ok p =>
              simp only
              exact Socket.onPacket_total s data p hw hd
                (fun hp => h4 data rfl c4 (by rw [hd, hp]))
          · rw [if_neg c4]; exact ⟨_, rfl⟩

/-- The method `onMessage` throws a `TypeError` on an OPEN frame whose payload is the
JSON text of `null`, and on a MESSAGE frame that `decode` reads as a CONNECT
packet whose data is `null`. -/
theorem Socket.onMessage_null (s : Socket) (data : JsString) :
    (data.head? = some EIOPacketType.OPEN → JSON.parse (substring data 1) = .ok .null →
      s.onMessage (.text data) = .error JsError.TypeError) ∧
    (data.head? = some EIOPacketType.MESSAGE →
      decode data = .ok ⟨some SIOPacketType.CONNECT, some .null⟩ →
      s.onMessage (.text data) = .error JsError.TypeError) := by
  constructor
  · intro c0 hp
    unfold Socket.onMessage
    simp only [c0, if_true]
    exact Socket.onOpen_null s data hp
  · intro c4 hd
    have n0 : ¬ data.head? = some EIOPacketType.OPEN := by rw [c4]; decide
    have n1 : ¬ data.head? = some EIOPacketType.CLOSE := by rw [c4]; decide
    have n2 : ¬ data.head? = some EIOPacketType.PING := by rw [c4]; decide
    unfold Socket.onMessage
    simp only [if_neg n0, if_neg n1, if_neg n2, if_pos c4, hd]
    rfl

/-- C22, at the failing inputs. In every reachable state the frames `40null` and
`0null` make `onMessage` throw a `TypeError`: `decode` lets the CONNECT packet
with the data `null` through and `onConnect` reads `sid` from it, and `onOpen`
reads `pingInterval` from the handshake `null` outside its `try`. These are the
only frames that throw: `onMessage` throws exactly on an OPEN frame whose
payload is the JSON text of `null` and on a MESSAGE frame that `decode` reads as
the CONNECT packet with the data `null`, and it returns on binary data. -/
theorem C22_null_payload_throws (uri : JsString) (opts : UserOpts) (s : Socket)
    (hr : Reachable uri opts s) :
    s.onMessage (.text (js "40null")) = .error JsError.TypeError ∧
    s.onMessage (.text (js "0null")) = .error JsError.TypeError ∧
    (∀ data, (∃ e, s.onMessage (.text data) = .error e) ↔
      (data.head? = some EIOPacketType.OPEN ∧ JSON.parse (substring data 1) = .ok .null) ∨
      (data.head? = some EIOPacketType.MESSAGE ∧
        decode data = .ok ⟨some SIOPacketType.CONNECT, some .null⟩)) ∧
    (∀ data e, s.onMessage (.text data) = .error e → e = JsError.TypeError) ∧
    s.onMessage .binary = .ok s := by
  have hiff : ∀ data, (∃ e, s.onMessage (.text data) = .error e) ↔
      (data.head? = some EIOPacketType.OPEN ∧ JSON.parse (substring data 1) = .ok .null) ∨
      (data.head? = some EIOPacketType.MESSAGE ∧
        decode data = .ok ⟨some SIOPacketType.CONNECT, some .null⟩) := by
    intro data
    constructor
    · rintro ⟨e, he⟩
      by_contra hcon
      obtain ⟨u, hu⟩ := Socket.onMessage_total s (.text data) hr.inv.hasWs
        (fun d hd c0 hp => hcon (Or.inl (by cases hd; exact ⟨c0, hp⟩)))
        (fun d hd c4 hp => hcon (Or.inr (by cases hd; exact ⟨c4, hp⟩)))
      rw [he] at hu
      cases hu
    · rintro (⟨c0, hp⟩ | ⟨c4, hd⟩)
      · exact ⟨_, (Socket.onMessage_null s data).1 c0 hp⟩
      · exact ⟨_, (Socket.onMessage_null s data).2 c4 hd⟩
  refine ⟨(Socket.onMessage_null s _).2 (by decide) (by decide),
    (Socket.onMessage_null s _).1 (by decide) (by decide), hiff, ?_, rfl⟩
  intro data e he
  rcases (hiff data).1 ⟨e, he⟩ with ⟨c0, hp⟩ | ⟨c4, hd⟩
  · rw [(Socket.onMessage_null s data).1 c0 hp] at he
    cases he; rfl
  · rw [(Socket.onMessage_null s data).2 c4 hd] at he
    cases he; rfl

/-- A new socket whose transport has opened, to apply C22 to: the two frames throw,
and the frame with white space around `null` does too. -/
theorem C22_null_payload_throws_witness :
    (Socket.new (js "http://h") ⟨none, none⟩).transportOpens.onMessage (.text (js "40null")) =
      .error JsError.TypeError ∧
    (Socket.new (js "http://h") ⟨none, none⟩).transportOpens.onMessage (.text (js "0null")) =
      .error JsError.TypeError ∧
    ∃ e, (Socket.new (js "http://h") ⟨none, none⟩).transportOpens.onMessage
      (.text (js "0 null ")) = .error e := by
  have h := C22_null_payload_throws (js "http://h") ⟨none, none⟩
    (Socket.new (js "http://h") ⟨none, none⟩).transportOpens
    (Reachable.step _ _ Reachable.init (Step.transportOpens _))
  exact ⟨h.1, h.2.1, (h.2.2.1 (js "0 null ")).2 (Or.inl ⟨by decide, by decide⟩)⟩

end SocketIO
